import Mathlib

/-!
Storage-throughput benchmarks: `io_size.c`, `io_stride.c`, `random_io.c`.

A shallow embedding of the three benchmark programs.  Each program is a pure
function from an environment (the outcomes of the system calls, the clock
readings and the values of `rand()`) to a `Run`: the ordered trace of the
calls the program makes together with the way it ends.

* C `int` and `long long` values are `Int`; arithmetic that the source does in
  `long long` goes through `wrapLL`, arithmetic done in `int` through `wrapInt`.
* Loops take a fuel argument; a loop that is still running when the fuel is
  used up ends the run with status `diverged`.
* The two throughput lines print a `double`; the embedding records the byte
  count and the elapsed microseconds that enter the quotient, and
  `throughput` is the exact rational the quotient approximates.
-/

namespace Lab5

/-! ## Constants of the three source files -/

/-- Constant `FILE_SIZE`, defined as `(1024 * 1024 * 1024)` in the three files. -/
def FILE_SIZE : Int := 1024 * 1024 * 1024

/-- Constant `MIN_IO_SIZE`, defined as `4096` in the three files. -/
def MIN_IO_SIZE : Int := 4096

/-- Constant `MAX_IO_SIZE`, defined as `(1024 * 1024 * 100)` in random_io.c. -/
def MAX_IO_SIZE : Int := 1024 * 1024 * 100

/-- Constant `MIN_STRIDE`, defined as `4096` in io_stride.c. -/
def MIN_STRIDE : Int := 4096

/-- Constant `MAX_STRIDE`, defined as `(1024 * 1024 * 100)` in io_stride.c. -/
def MAX_STRIDE : Int := 1024 * 1024 * 100

/-- Constant `MAX_RANDOM_OFFSET`, defined as `(FILE_SIZE - 1)` in random_io.c. -/
def MAX_RANDOM_OFFSET : Int := FILE_SIZE - 1

/-- Largest value of a C `int` (32 bits). -/
def INT_MAX : Int := 2147483647

/-- Smallest value of a C `int` (32 bits). -/
def INT_MIN : Int := -2147483648

/-- Largest value of a C `long long` (64 bits). -/
def LLONG_MAX : Int := 9223372036854775807

/-- Smallest value of a C `long long` (64 bits). -/
def LLONG_MIN : Int := -9223372036854775808

/-- Two's-complement reduction of an integer to a 32-bit `int`. -/
def wrapInt (x : Int) : Int := (x + 2147483648) % 4294967296 - 2147483648

/-- Two's-complement reduction of an integer to a 64-bit `long long`. -/
def wrapLL (x : Int) : Int :=
  (x + 9223372036854775808) % 18446744073709551616 - 9223372036854775808

/-! ## Traces -/

/-- The diagnostics written to the error stream (`fprintf(stderr, ..)` and `perror`). -/
inductive Diag
  | usage
  | ioSizeMin
  | ioSizeRange
  | strideRange
  | malloc
  | mallocOffsets
  | openFile
  | noCache
  | pwrite
  | fsync
  | pread
  | ftruncate
  deriving DecidableEq

/-- The two heap blocks of the programs. -/
inductive Buf
  | buffer
  | write_offsets
  deriving DecidableEq

/-- One observable step of a program. -/
inductive Event
  /-- diagnostic written by `fprintf(stderr, ..)` or `perror(..)` -/
  | eprint (d : Diag)
  /-- first output line of `main` (Using I/O size), with the stride for the strided program -/
  | printUsing (io_size : Int) (stride : Option Int)
  /-- output line giving the I/O size after the read phase -/
  | printIoSize (io_size : Int)
  /-- output line Write Throughput, of `bytes * 1e6 / (1024 * 1024 * elapsed)` -/
  | printWrite (bytes elapsed : Int)
  /-- output line Read Throughput, of `bytes * 1e6 / (1024 * 1024 * elapsed)` -/
  | printRead (bytes elapsed : Int)
  /-- call of `malloc(..)` for a block, with the requested size in bytes -/
  | malloc (b : Buf) (bytes : Int)
  /-- call of `memset(buffer, 0, io_size)` -/
  | memset (bytes : Int)
  /-- call of `open(file_name, O_RDWR | O_CREAT | O_TRUNC, 0644)` -/
  | openFile
  /-- call of `fcntl(fd, F_NOCACHE, 1)` -/
  | noCache
  /-- call of `timey_wimey()` -/
  | timey_wimey
  /-- call of `rand()` -/
  | rand
  /-- call of `pwrite(fd, buffer, len, off)` -/
  | pwrite (len off : Int)
  /-- call of `fsync(fd)` -/
  | fsync
  /-- call of `lseek(fd, 0, SEEK_SET)` -/
  | lseek
  /-- call of `pread(fd, buffer, len, off)` -/
  | pread (len off : Int)
  /-- call of `ftruncate(fd, 0)` -/
  | ftruncate
  /-- call of `close(fd)` -/
  | close
  /-- call of `free(..)` for a block -/
  | free (b : Buf)
  /-- call of `exit(code)` -/
  | exit (code : Int)
  deriving DecidableEq

/-- How a run ends. -/
inductive Status
  /-- the process ended with this exit status -/
  | exited (code : Int)
  /-- the function returned to its caller -/
  | returned
  /-- a loop was still running when the fuel ran out -/
  | diverged
  /-- behaviour undefined in C: division by zero, an array index out of
  bounds, a read of an element never written -/
  | undefined
  deriving DecidableEq

/-- A run: the calls made, in order, and how the run ended. -/
structure Run where
  trace : List Event
  status : Status
  deriving DecidableEq

/-- The outcomes the programs get from their surroundings. -/
structure Env where
  /-- whether the `k`-th `malloc` returns a non-null pointer -/
  mallocOk : Nat → Bool
  /-- whether `open` returns a descriptor -/
  openOk : Bool
  /-- whether `fcntl(fd, F_NOCACHE, 1)` returns something other than -1 -/
  fcntlOk : Bool
  /-- whether the `k`-th `pwrite` returns `io_size` -/
  pwriteOk : Nat → Bool
  /-- whether the `k`-th `fsync` returns something other than -1 -/
  fsyncOk : Nat → Bool
  /-- whether the `k`-th `pread` returns `io_size` -/
  preadOk : Nat → Bool
  /-- whether `ftruncate(fd, 0)` returns something other than -1 -/
  ftruncateOk : Bool
  /-- the value of the `k`-th call of `timey_wimey()` -/
  timey_wimey : Nat → Int
  /-- the value of the `k`-th call of `rand()` -/
  rand : Nat → Int

/-- No call fails in this environment. -/
def Env.NoFailure (env : Env) : Prop :=
  (∀ k, env.mallocOk k = true) ∧ env.openOk = true ∧ env.fcntlOk = true ∧
  (∀ k, env.pwriteOk k = true) ∧ (∀ k, env.fsyncOk k = true) ∧
  (∀ k, env.preadOk k = true) ∧ env.ftruncateOk = true

/-- The events `es`, then the run `r`. -/
def Run.after (es : List Event) (r : Run) : Run :=
  ⟨es ++ r.trace, r.status⟩

/-- The events `es`, then `exit(1)`. -/
def die (es : List Event) : Run :=
  ⟨es ++ [Event.exit 1], Status.exited 1⟩

/-- What `main` makes of the run of the function it calls last: `return 0`
ends the process with status 0. -/
def Run.return0 (r : Run) : Run :=
  match r.status with
  | Status.returned => ⟨r.trace, Status.exited 0⟩
  | _ => r

/-! ## Sequential and strided programs (io_size.c, io_stride.c) -/

/-- The write loop of `io_size_test` (with `step = io_size`) and of `io_stride`
(with `step = stride`):
`for (long long offset = 0; offset < FILE_SIZE; offset += step)` with a
`pwrite` of `io_size` bytes at `offset` and an `fsync`; `i` counts the
iterations already made, `cont` is the rest of the function. -/
def write_loop (env : Env) (io_size step : Int) (cont : Run) : Nat → Nat → Int → Run
  | 0, _, offset => if offset < FILE_SIZE then ⟨[], Status.diverged⟩ else cont
  | fuel + 1, i, offset =>
    if offset < FILE_SIZE then
      Run.after [Event.pwrite io_size offset] <|
        if env.pwriteOk i then
          Run.after [Event.fsync] <|
            if env.fsyncOk i then
              write_loop env io_size step cont fuel (i + 1) (wrapLL (offset + step))
            else die [Event.eprint Diag.fsync, Event.close, Event.free Buf.buffer]
        else die [Event.eprint Diag.pwrite, Event.close, Event.free Buf.buffer]
    else cont

/-- The read loop of `io_size_test` and `io_stride`:
`for (long long offset = 0; offset < FILE_SIZE; offset += step)` with a `pread`
of `io_size` bytes at `offset` and `bytes_processed += io_size`. -/
def read_loop (env : Env) (io_size step : Int) (cont : Int → Run) :
    Nat → Nat → Int → Int → Run
  | 0, _, offset, bytes_processed =>
    if offset < FILE_SIZE then ⟨[], Status.diverged⟩ else cont bytes_processed
  | fuel + 1, i, offset, bytes_processed =>
    if offset < FILE_SIZE then
      Run.after [Event.pread io_size offset] <|
        if env.preadOk i then
          read_loop env io_size step cont fuel (i + 1) (wrapLL (offset + step))
            (wrapLL (bytes_processed + io_size))
        else die [Event.eprint Diag.pread, Event.close, Event.free Buf.buffer]
    else cont bytes_processed

/-- The end of `io_size_test`, `io_stride` and `random_io` after the read loop:
the last clock reading, the output lines (`heading` is the `I/O Size` line of
`io_size_test` and `random_io`, absent in `io_stride`), `ftruncate`, `close`
and the `free` calls (`cleanup`: the buffer, and in `random_io` the offsets
array as well). -/
def report (env : Env) (heading : List Event) (cleanup : List Event)
    (bytes_processed : Int) : Run :=
  Run.after ([Event.timey_wimey] ++ heading ++
      [Event.printWrite FILE_SIZE (wrapLL (env.timey_wimey 1 - env.timey_wimey 0)),
       Event.printRead bytes_processed (wrapLL (env.timey_wimey 3 - env.timey_wimey 2)),
       Event.ftruncate]) <|
    if env.ftruncateOk then ⟨[Event.close] ++ cleanup, Status.returned⟩
    else die ([Event.eprint Diag.ftruncate, Event.close] ++ cleanup)

/-- Function `void io_size_test(const char *file_name, int io_size)` of io_size.c. -/
def io_size_test (env : Env) (fuel : Nat) (io_size : Int) : Run :=
  Run.after [Event.malloc Buf.buffer io_size] <|
  if env.mallocOk 0 then
    Run.after [Event.memset io_size, Event.openFile] <|
    if env.openOk then
      Run.after [Event.noCache] <|
      if env.fcntlOk then
        Run.after [Event.timey_wimey] <|
        write_loop env io_size io_size
          (Run.after [Event.timey_wimey, Event.lseek, Event.timey_wimey] <|
            read_loop env io_size io_size
              (report env [Event.printIoSize io_size] [Event.free Buf.buffer])
              fuel 0 0 0)
          fuel 0 0
      else die [Event.eprint Diag.noCache, Event.close, Event.free Buf.buffer]
    else die [Event.eprint Diag.openFile, Event.free Buf.buffer]
  else die [Event.eprint Diag.malloc]

/-- Function `main` of io_size.c, from the argument count and the value `atoi` gives
for `argv[1]`. -/
def io_size_main (env : Env) (fuel : Nat) (argc io_size : Int) : Run :=
  if argc ≠ 3 then die [Event.eprint Diag.usage]
  else if io_size < MIN_IO_SIZE then die [Event.eprint Diag.ioSizeMin]
  else
    Run.after [Event.printUsing io_size none] <|
      (io_size_test env fuel io_size).return0

/-- Function `void io_stride(const char *file_name, int io_size, int stride)` of
io_stride.c. -/
def io_stride (env : Env) (fuel : Nat) (io_size stride : Int) : Run :=
  if stride < MIN_STRIDE ∨ stride > MAX_STRIDE then die [Event.eprint Diag.strideRange]
  else
    Run.after [Event.malloc Buf.buffer io_size] <|
    if env.mallocOk 0 then
      Run.after [Event.memset io_size, Event.openFile] <|
      if env.openOk then
        Run.after [Event.noCache] <|
        if env.fcntlOk then
          Run.after [Event.timey_wimey] <|
          write_loop env io_size stride
            (Run.after [Event.timey_wimey, Event.lseek, Event.timey_wimey] <|
              read_loop env io_size stride
                (report env [] [Event.free Buf.buffer])
                fuel 0 0 0)
            fuel 0 0
        else die [Event.eprint Diag.noCache, Event.close, Event.free Buf.buffer]
      else die [Event.eprint Diag.openFile, Event.free Buf.buffer]
    else die [Event.eprint Diag.malloc]

/-- Function `main` of io_stride.c, from the argument count and the values `atoi`
gives for `argv[1]` and `argv[2]`. -/
def io_stride_main (env : Env) (fuel : Nat) (argc io_size stride : Int) : Run :=
  if argc ≠ 4 then die [Event.eprint Diag.usage]
  else
    Run.after [Event.printUsing io_size (some stride)] <|
      (io_stride env fuel io_size stride).return0

/-! ## Random program (random_io.c) -/

/-- Function `long long gen_rand(int io_size)`: `rand() % (MAX_RANDOM_OFFSET - io_size)`,
where `r` is the value `rand()` returns.  The remainder of two `int` values
truncates toward zero; a zero modulus is undefined and gives `none`.  Since
`rand()` returns a value between 0 and `RAND_MAX`, the other undefined case of
the remainder, `INT_MIN` by -1, does not arise. -/
def gen_rand (r io_size : Int) : Option Int :=
  let m := wrapInt (MAX_RANDOM_OFFSET - io_size)
  if m = 0 then none else some (Int.tmod r m)

/-- The write loop of `random_io`:
`for (long long offset_index = 0; offset_index < FILE_SIZE / io_size; offset_index++)`,
which draws an offset, stores it in `write_offsets[offset_index]`, writes
there and calls `fsync`.  The array is a list whose elements are `none` until
they are written. -/
def random_write_loop (env : Env) (io_size : Int) (cont : List (Option Int) → Run) :
    Nat → Nat → List (Option Int) → Run
  | 0, i, write_offsets =>
    if (i : Int) < Int.tdiv FILE_SIZE io_size then ⟨[], Status.diverged⟩
    else cont write_offsets
  | fuel + 1, i, write_offsets =>
    if (i : Int) < Int.tdiv FILE_SIZE io_size then
      Run.after [Event.rand] <|
        match gen_rand (env.rand i) io_size with
        | none => ⟨[], Status.undefined⟩
        | some random_offset =>
          if i < write_offsets.length then
            Run.after [Event.pwrite io_size random_offset] <|
              if env.pwriteOk i then
                Run.after [Event.fsync] <|
                  if env.fsyncOk i then
                    random_write_loop env io_size cont fuel (i + 1)
                      (write_offsets.set i (some random_offset))
                  else die [Event.eprint Diag.fsync, Event.close, Event.free Buf.buffer,
                    Event.free Buf.write_offsets]
              else die [Event.eprint Diag.pwrite, Event.close, Event.free Buf.buffer,
                Event.free Buf.write_offsets]
          else ⟨[], Status.undefined⟩
    else cont write_offsets

/-- The read loop of `random_io`:
`for (long long offset_index = 0; offset_index < FILE_SIZE / io_size; offset_index++)`,
which reads at `write_offsets[offset_index]` and adds `io_size` to
`bytes_processed`. -/
def random_read_loop (env : Env) (io_size : Int) (write_offsets : List (Option Int))
    (cont : Int → Run) : Nat → Nat → Int → Run
  | 0, i, bytes_processed =>
    if (i : Int) < Int.tdiv FILE_SIZE io_size then ⟨[], Status.diverged⟩
    else cont bytes_processed
  | fuel + 1, i, bytes_processed =>
    if (i : Int) < Int.tdiv FILE_SIZE io_size then
      match write_offsets[i]? with
      | some (some stored_offset) =>
        Run.after [Event.pread io_size stored_offset] <|
          if env.preadOk i then
            random_read_loop env io_size write_offsets cont fuel (i + 1)
              (wrapLL (bytes_processed + io_size))
          else die [Event.eprint Diag.pread, Event.close, Event.free Buf.buffer,
            Event.free Buf.write_offsets]
      | _ => ⟨[], Status.undefined⟩
    else cont bytes_processed

/-- Function `void random_io(const char *file_name, int io_size)` of random_io.c. -/
def random_io (env : Env) (fuel : Nat) (io_size : Int) : Run :=
  if io_size < MIN_IO_SIZE ∨ io_size > MAX_IO_SIZE then die [Event.eprint Diag.ioSizeRange]
  else
    Run.after [Event.malloc Buf.buffer io_size] <|
    if env.mallocOk 0 then
      Run.after [Event.memset io_size,
        Event.malloc Buf.write_offsets (Int.tdiv FILE_SIZE io_size * 8)] <|
      if env.mallocOk 1 then
        Run.after [Event.openFile] <|
        if env.openOk then
          Run.after [Event.noCache] <|
          if env.fcntlOk then
            Run.after [Event.timey_wimey] <|
            random_write_loop env io_size
              (fun write_offsets =>
                Run.after [Event.timey_wimey, Event.lseek, Event.timey_wimey] <|
                  random_read_loop env io_size write_offsets
                    (report env [Event.printIoSize io_size]
                      [Event.free Buf.buffer, Event.free Buf.write_offsets])
                    fuel 0 0)
              fuel 0 (List.replicate (Int.tdiv FILE_SIZE io_size).toNat none)
          else die [Event.eprint Diag.noCache, Event.close, Event.free Buf.buffer]
        else die [Event.eprint Diag.openFile, Event.free Buf.buffer,
          Event.free Buf.write_offsets]
      else die [Event.eprint Diag.mallocOffsets, Event.free Buf.buffer]
    else die [Event.eprint Diag.malloc]

/-- Function `main` of random_io.c, from the argument count and the value `atoi` gives
for `argv[1]`. -/
def random_io_main (env : Env) (fuel : Nat) (argc io_size : Int) : Run :=
  if argc ≠ 3 then die [Event.eprint Diag.usage]
  else if io_size < MIN_IO_SIZE ∨ io_size > MAX_IO_SIZE then die [Event.eprint Diag.ioSizeRange]
  else
    Run.after [Event.printUsing io_size none] <|
      (random_io env fuel io_size).return0

/-! ## Reading a trace -/

/-- The offsets of the `pwrite` calls of a trace, in order. -/
def writeOffsets : List Event → List Int
  | [] => []
  | Event.pwrite _ off :: es => off :: writeOffsets es
  | _ :: es => writeOffsets es

/-- The offsets of the `pread` calls of a trace, in order. -/
def readOffsets : List Event → List Int
  | [] => []
  | Event.pread _ off :: es => off :: readOffsets es
  | _ :: es => readOffsets es

/-- The byte counts of the `pwrite` calls of a trace, added up. -/
def bytesWritten : List Event → Int
  | [] => 0
  | Event.pwrite len _ :: es => len + bytesWritten es
  | _ :: es => bytesWritten es

/-- The number of `rand()` calls of a trace. -/
def randCalls : List Event → Nat
  | [] => 0
  | Event.rand :: es => randCalls es + 1
  | _ :: es => randCalls es

/-- The value of a throughput line, `(double)(bytes * 1e6) / (1024 * 1024 * elapsed)`,
as an exact rational.  The denominator is computed in `long long` before the
division, so it goes through `wrapLL`; when it is zero the quotient is not a
number of the rationals (the program prints an infinity or a NaN) and the
result is `none`. -/
def throughput (bytes elapsed : Int) : Option ℚ :=
  let denominator := wrapLL (1024 * 1024 * elapsed)
  if denominator = 0 then none else some ((bytes * 1000000 : ℚ) / (denominator : ℚ))

/-- An environment in which every call succeeds; the clock advances by one
second per reading and `rand()` follows a linear congruence. -/
def okEnv : Env where
  mallocOk := fun _ => true
  openOk := true
  fcntlOk := true
  pwriteOk := fun _ => true
  fsyncOk := fun _ => true
  preadOk := fun _ => true
  ftruncateOk := true
  timey_wimey := fun k => 1000000 * (k : Int)
  rand := fun k => (1103515245 * (k : Int) + 12345) % 2147483648

/-! ## Expected shapes of the phases -/

/-- The number of iterations of `for (offset = 0; offset < FILE_SIZE; offset += step)`. -/
def iterations (step : Int) : Nat := ((FILE_SIZE + step - 1) / step).toNat

/-- The `pwrite`/`fsync` pairs of `m` successful iterations of the write loop
that start at `offset`. -/
def writes (io_size step : Int) : Int → Nat → List Event
  | _, 0 => []
  | offset, m + 1 =>
    Event.pwrite io_size offset :: Event.fsync :: writes io_size step (offset + step) m

/-- The `pread` calls of `m` successful iterations of the read loop that start
at `offset`. -/
def reads (io_size step : Int) : Int → Nat → List Event
  | _, 0 => []
  | offset, m + 1 => Event.pread io_size offset :: reads io_size step (offset + step) m

/-- The number of iterations of the two loops of `random_io`: `FILE_SIZE / io_size`,
the division of C. -/
def randomIterations (io_size : Int) : Nat := (Int.tdiv FILE_SIZE io_size).toNat

/-- The offset `gen_rand` computes from the `k`-th value of `rand()` when the
modulus is not zero. -/
def drawn (env : Env) (io_size : Int) (k : Nat) : Int :=
  Int.tmod (env.rand k) (wrapInt (MAX_RANDOM_OFFSET - io_size))

/-- The `rand`/`pwrite`/`fsync` triples of `m` successful iterations of the
write loop of `random_io` that start at index `i`. -/
def randomWrites (env : Env) (io_size : Int) : Nat → Nat → List Event
  | _, 0 => []
  | i, m + 1 =>
    Event.rand :: Event.pwrite io_size (drawn env io_size i) :: Event.fsync ::
      randomWrites env io_size (i + 1) m

/-- The `pread` calls of `m` successful iterations of the read loop of
`random_io` that start at index `i`, when the array holds the drawn offsets. -/
def randomReads (env : Env) (io_size : Int) : Nat → Nat → List Event
  | _, 0 => []
  | i, m + 1 => Event.pread io_size (drawn env io_size i) :: randomReads env io_size (i + 1) m

/-- The array `write_offsets` after `m` successful iterations of the write
loop of `random_io` that start at index `i`. -/
def stored (env : Env) (io_size : Int) : List (Option Int) → Nat → Nat → List (Option Int)
  | write_offsets, _, 0 => write_offsets
  | write_offsets, i, m + 1 =>
    stored env io_size (write_offsets.set i (some (drawn env io_size i))) (i + 1) m

/-! ## Properties of runs that the programs preserve step by step -/

/-- A property `Q` of runs is closed for the events `ok` when it survives
putting `ok` events in front of a run, holds of every run of `ok` events that
does not return (and whose exit status, if it has one, is that of an `exit`
call of its trace), and survives the `return 0` of `main`. -/
structure Closed (ok : Event → Prop) (Q : Run → Prop) : Prop where
  after : ∀ (es : List Event) (r : Run), (∀ e ∈ es, ok e) → Q r → Q (Run.after es r)
  halt : ∀ (es : List Event) (s : Status), (∀ e ∈ es, ok e) → s ≠ Status.returned →
    (∀ c, s = Status.exited c → Event.exit c ∈ es) → Q ⟨es, s⟩
  ret0 : ∀ r : Run, Q r → Q r.return0

/-- Every event of the run satisfies `P`. -/
def Run.All (P : Event → Prop) (r : Run) : Prop := ∀ e ∈ r.trace, P e

/-- The diagnostic of a failed `pwrite`, `fsync` or `pread` is in the trace. -/
def transferFailed (t : List Event) : Prop :=
  Event.eprint Diag.pwrite ∈ t ∨ Event.eprint Diag.fsync ∈ t ∨ Event.eprint Diag.pread ∈ t

/-- Neither `ftruncate` nor the diagnostic of a failed `pwrite`, `fsync` or `pread`. -/
def Event.calm : Event → Prop
  | Event.ftruncate => False
  | Event.eprint Diag.pwrite => False
  | Event.eprint Diag.fsync => False
  | Event.eprint Diag.pread => False
  | _ => True

/-- What a run does after a failed transfer: it closes the descriptor and
exits with status 1 without calling `ftruncate`. -/
def AbortsUntruncated (r : Run) : Prop :=
  transferFailed r.trace →
    Event.ftruncate ∉ r.trace ∧ Event.close ∈ r.trace ∧ r.status = Status.exited 1

/-- A throughput line, if the event is one, has a positive byte count. -/
def Event.positiveBytes : Event → Prop
  | Event.printWrite bytes _ => 0 < bytes
  | Event.printRead bytes _ => 0 < bytes
  | _ => True

/-- A transfer, if the event is one, is of `io_size` bytes at an offset `off`
with `0 ≤ off` and `off + io_size ≤ FILE_SIZE`. -/
def Event.withinFile (io_size : Int) : Event → Prop
  | Event.pwrite len off => len = io_size ∧ 0 ≤ off ∧ off + io_size ≤ FILE_SIZE
  | Event.pread len off => len = io_size ∧ 0 ≤ off ∧ off + io_size ≤ FILE_SIZE
  | _ => True

/-- A transfer, if the event is one, is of `io_size` bytes at a non-negative
multiple of `step` below `FILE_SIZE`. -/
def Event.onGrid (io_size step : Int) : Event → Prop
  | Event.pwrite len off =>
    len = io_size ∧ 0 ≤ off ∧ off < FILE_SIZE ∧ ∃ k : Nat, off = (k : Int) * step
  | Event.pread len off =>
    len = io_size ∧ 0 ≤ off ∧ off < FILE_SIZE ∧ ∃ k : Nat, off = (k : Int) * step
  | _ => True

/-- The byte count of the first `Write Throughput` line of a trace. -/
def reportedWriteBytes : List Event → Option Int
  | [] => none
  | Event.printWrite bytes _ :: _ => some bytes
  | _ :: es => reportedWriteBytes es

/-- The byte count of the first `Read Throughput` line of a trace. -/
def reportedReadBytes : List Event → Option Int
  | [] => none
  | Event.printRead bytes _ :: _ => some bytes
  | _ :: es => reportedReadBytes es

/-- The events of `io_size_test`, `io_stride` and `random_io` after the read
loop when `ftruncate` succeeds. -/
def reportEvents (env : Env) (heading cleanup : List Event) (bytes_processed : Int) :
    List Event :=
  [Event.timey_wimey] ++ heading ++
    [Event.printWrite FILE_SIZE (wrapLL (env.timey_wimey 1 - env.timey_wimey 0)),
     Event.printRead bytes_processed (wrapLL (env.timey_wimey 3 - env.timey_wimey 2)),
     Event.ftruncate, Event.close] ++ cleanup

/-- An environment in which every `pread` fails and every other call succeeds. -/
def preadFailsEnv : Env := { okEnv with preadOk := fun _ => false }

/-- Neither a transfer nor a throughput line. -/
def Event.quiet : Event → Prop
  | Event.pwrite _ _ => False
  | Event.pread _ _ => False
  | Event.printWrite _ _ => False
  | Event.printRead _ _ => False
  | _ => True

/-- An environment in which the clock stands still and every call succeeds. -/
def frozenClockEnv : Env := { okEnv with timey_wimey := fun _ => 0 }

/-- An environment in which the clock runs backwards by one second per
reading and every call succeeds. -/
def backwardClockEnv : Env := { okEnv with timey_wimey := fun k => -1000000 * (k : Int) }

/-- An environment in which the clock advances by `2^43` microseconds per
reading and every call succeeds. -/
def slowClockEnv : Env := { okEnv with timey_wimey := fun k => 8796093022208 * (k : Int) }

/-- An environment in which `fcntl` fails and every other call succeeds. -/
def fcntlFailsEnv : Env := { okEnv with fcntlOk := false }

/-- An environment in which `ftruncate` fails and every other call succeeds. -/
def ftruncateFailsEnv : Env := { okEnv with ftruncateOk := false }

/-- Not a call of `exit`. -/
def Event.notExit : Event → Prop
  | Event.exit _ => False
  | _ => True

/-- A run that ends, by `exit` or by returning, has called `close(fd)`. -/
def EndsClosed (r : Run) : Prop :=
  ((∃ c, r.status = Status.exited c) ∨ r.status = Status.returned) → Event.close ∈ r.trace

/-! ## Arithmetic of the machine integers -/

theorem wrapLL_eq {x : Int} (h₁ : LLONG_MIN ≤ x) (h₂ : x ≤ LLONG_MAX) : wrapLL x = x := by
  unfold wrapLL
  unfold LLONG_MIN at h₁
  unfold LLONG_MAX at h₂
  omega

theorem wrapInt_eq {x : Int} (h₁ : INT_MIN ≤ x) (h₂ : x ≤ INT_MAX) : wrapInt x = x := by
  unfold wrapInt
  unfold INT_MIN at h₁
  unfold INT_MAX at h₂
  omega

theorem iterations_spec {step : Int} (h : 0 < step) :
    (∀ j : Nat, j < iterations step → (j : Int) * step < FILE_SIZE) ∧
      FILE_SIZE ≤ (iterations step : Int) * step := by
  have hne : step ≠ 0 := ne_of_gt h
  have h1 : (FILE_SIZE + step - 1) / step * step ≤ FILE_SIZE + step - 1 :=
    Int.ediv_mul_le _ hne
  have h2 : FILE_SIZE + step - 1 < ((FILE_SIZE + step - 1) / step + 1) * step :=
    Int.lt_ediv_add_one_mul_self _ h
  have hq : 0 ≤ (FILE_SIZE + step - 1) / step := by
    apply Int.ediv_nonneg _ (le_of_lt h)
    unfold FILE_SIZE
    omega
  have hcast : ((iterations step : Nat) : Int) = (FILE_SIZE + step - 1) / step := by
    unfold iterations
    exact Int.toNat_of_nonneg hq
  constructor
  · intro j hj
    have hj' : (j : Int) + 1 ≤ (FILE_SIZE + step - 1) / step := by
      rw [← hcast]
      exact_mod_cast hj
    have h3 : ((j : Int) + 1) * step ≤ (FILE_SIZE + step - 1) / step * step :=
      Int.mul_le_mul_of_nonneg_right hj' (le_of_lt h)
    linarith
  · rw [hcast]
    linarith

/-! ## The loops of the sequential and strided programs when no call fails -/

theorem write_loop_ok (env : Env) (io_size step : Int) (cont : Run)
    (hstep : 0 < step) (hmax : step ≤ INT_MAX)
    (hw : ∀ k, env.pwriteOk k = true) (hs : ∀ k, env.fsyncOk k = true) :
    ∀ (m fuel i : Nat) (offset : Int), m ≤ fuel → 0 ≤ offset →
      (∀ j : Nat, j < m → offset + (j : Int) * step < FILE_SIZE) →
      FILE_SIZE ≤ offset + (m : Int) * step →
      write_loop env io_size step cont fuel i offset
        = Run.after (writes io_size step offset m) cont := by
  intro m
  induction m with
  | zero =>
    intro fuel i offset _ _ _ hge
    have hnot : ¬ offset < FILE_SIZE := by
      simp at hge
      omega
    cases fuel <;> simp [write_loop, hnot, writes, Run.after]
  | succ m ih =>
    intro fuel i offset hfuel hoff hlt hge
    have hlt0 : offset < FILE_SIZE := by
      have := hlt 0 (Nat.succ_pos m)
      simpa using this
    obtain ⟨fuel, rfl⟩ : ∃ f, fuel = f + 1 := ⟨fuel - 1, by omega⟩
    have hwrap : wrapLL (offset + step) = offset + step := by
      apply wrapLL_eq
      · unfold LLONG_MIN
        omega
      · unfold LLONG_MAX
        unfold INT_MAX at hmax
        unfold FILE_SIZE at hlt0
        omega
    have hrec := ih fuel (i + 1) (offset + step) (by omega) (by omega)
      (by
        intro j hj
        have := hlt (j + 1) (by omega)
        push_cast at this
        linarith)
      (by
        push_cast at hge
        linarith)
    simp [write_loop, hlt0, hw i, hs i, hwrap, hrec, writes, Run.after]

theorem read_loop_ok (env : Env) (io_size step : Int) (cont : Int → Run)
    (hstep : 0 < step) (hmax : step ≤ INT_MAX)
    (hr : ∀ k, env.preadOk k = true) :
    ∀ (m fuel i : Nat) (offset bytes : Int), m ≤ fuel → 0 ≤ offset →
      (∀ j : Nat, j < m → offset + (j : Int) * step < FILE_SIZE) →
      FILE_SIZE ≤ offset + (m : Int) * step →
      (∀ j : Nat, j ≤ m → LLONG_MIN ≤ bytes + (j : Int) * io_size ∧
        bytes + (j : Int) * io_size ≤ LLONG_MAX) →
      read_loop env io_size step cont fuel i offset bytes
        = Run.after (reads io_size step offset m) (cont (bytes + (m : Int) * io_size)) := by
  intro m
  induction m with
  | zero =>
    intro fuel i offset bytes _ _ _ hge _
    have hnot : ¬ offset < FILE_SIZE := by
      simp at hge
      omega
    cases fuel <;> simp [read_loop, hnot, reads, Run.after]
  | succ m ih =>
    intro fuel i offset bytes hfuel hoff hlt hge hb
    have hlt0 : offset < FILE_SIZE := by
      have := hlt 0 (Nat.succ_pos m)
      simpa using this
    obtain ⟨fuel, rfl⟩ : ∃ f, fuel = f + 1 := ⟨fuel - 1, by omega⟩
    have hwrap : wrapLL (offset + step) = offset + step := by
      apply wrapLL_eq
      · unfold LLONG_MIN
        omega
      · unfold LLONG_MAX
        unfold INT_MAX at hmax
        unfold FILE_SIZE at hlt0
        omega
    have hwrapb : wrapLL (bytes + io_size) = bytes + io_size := by
      have := hb 1 (by omega)
      simp at this
      exact wrapLL_eq this.1 this.2
    have hrec := ih fuel (i + 1) (offset + step) (bytes + io_size) (by omega) (by omega)
      (by
        intro j hj
        have := hlt (j + 1) (by omega)
        push_cast at this
        linarith)
      (by
        push_cast at hge
        linarith)
      (by
        intro j hj
        have := hb (j + 1) (by omega)
        push_cast at this
        constructor <;> linarith [this.1, this.2])
    have hfin : bytes + io_size + (m : Int) * io_size = bytes + ((m + 1 : Nat) : Int) * io_size := by
      push_cast
      ring
    simp [read_loop, hlt0, hr i, hwrap, hwrapb, hrec, reads, Run.after, hfin]

theorem iterations_le {step : Int} (h : 4096 ≤ step) : iterations step ≤ 262144 := by
  by_contra hcon
  have hstep : 0 < step := by omega
  have hlt := (iterations_spec hstep).1 262144 (by omega)
  unfold FILE_SIZE at hlt
  push_cast at hlt
  omega

theorem iterations_pos {step : Int} (h : 0 < step) : 0 < iterations step := by
  by_contra hcon
  have hz : iterations step = 0 := by omega
  have hge := (iterations_spec h).2
  rw [hz] at hge
  unfold FILE_SIZE at hge
  simp at hge

theorem bytes_in_range {io_size step : Int} (hstep : 4096 ≤ step)
    (hlo : INT_MIN ≤ io_size) (hhi : io_size ≤ INT_MAX) :
    ∀ j : Nat, j ≤ iterations step →
      LLONG_MIN ≤ 0 + (j : Int) * io_size ∧ 0 + (j : Int) * io_size ≤ LLONG_MAX := by
  intro j hj
  have hn := iterations_le hstep
  have hj0 : (0 : Int) ≤ (j : Int) := Int.ofNat_nonneg j
  have hj1 : (j : Int) ≤ 262144 := by exact_mod_cast le_trans hj hn
  have h1 : (j : Int) * io_size ≤ (j : Int) * INT_MAX :=
    Int.mul_le_mul_of_nonneg_left hhi hj0
  have h2 : (j : Int) * INT_MIN ≤ (j : Int) * io_size :=
    Int.mul_le_mul_of_nonneg_left hlo hj0
  unfold INT_MAX at h1
  unfold INT_MIN at h2
  unfold LLONG_MIN LLONG_MAX
  constructor <;> omega

/-! ## Reading the phases -/

theorem writeOffsets_append (a b : List Event) :
    writeOffsets (a ++ b) = writeOffsets a ++ writeOffsets b := by
  induction a with
  | nil => rfl
  | cons e es ih => cases e <;> simp [writeOffsets, ih]

theorem readOffsets_append (a b : List Event) :
    readOffsets (a ++ b) = readOffsets a ++ readOffsets b := by
  induction a with
  | nil => rfl
  | cons e es ih => cases e <;> simp [readOffsets, ih]

theorem bytesWritten_append (a b : List Event) :
    bytesWritten (a ++ b) = bytesWritten a + bytesWritten b := by
  induction a with
  | nil => simp [bytesWritten]
  | cons e es ih => cases e <;> simp [bytesWritten, ih, add_assoc]

theorem randCalls_append (a b : List Event) :
    randCalls (a ++ b) = randCalls a + randCalls b := by
  induction a with
  | nil => simp [randCalls]
  | cons e es ih =>
    cases e <;> simp [randCalls, ih]
    omega

theorem writeOffsets_writes (io_size step : Int) :
    ∀ (m : Nat) (offset : Int),
      writeOffsets (writes io_size step offset m)
        = (List.range m).map (fun k : Nat => offset + (k : Int) * step) := by
  intro m
  induction m with
  | zero => intro offset; rfl
  | succ m ih =>
    intro offset
    simp only [writes, writeOffsets, ih, List.range_succ_eq_map, List.map_cons, List.map_map]
    simp only [Nat.cast_zero, zero_mul, add_zero, List.cons.injEq, true_and]
    apply List.map_congr_left
    intro k _
    simp only [Function.comp, Nat.succ_eq_add_one]
    push_cast
    ring

theorem readOffsets_reads (io_size step : Int) :
    ∀ (m : Nat) (offset : Int),
      readOffsets (reads io_size step offset m)
        = (List.range m).map (fun k : Nat => offset + (k : Int) * step) := by
  intro m
  induction m with
  | zero => intro offset; rfl
  | succ m ih =>
    intro offset
    simp only [reads, readOffsets, ih, List.range_succ_eq_map, List.map_cons, List.map_map]
    simp only [Nat.cast_zero, zero_mul, add_zero, List.cons.injEq, true_and]
    apply List.map_congr_left
    intro k _
    simp only [Function.comp, Nat.succ_eq_add_one]
    push_cast
    ring

theorem readOffsets_writes (io_size step : Int) :
    ∀ (m : Nat) (offset : Int), readOffsets (writes io_size step offset m) = [] := by
  intro m
  induction m with
  | zero => intro offset; rfl
  | succ m ih => intro offset; simp [writes, readOffsets, ih]

theorem writeOffsets_reads (io_size step : Int) :
    ∀ (m : Nat) (offset : Int), writeOffsets (reads io_size step offset m) = [] := by
  intro m
  induction m with
  | zero => intro offset; rfl
  | succ m ih => intro offset; simp [reads, writeOffsets, ih]

theorem bytesWritten_writes (io_size step : Int) :
    ∀ (m : Nat) (offset : Int),
      bytesWritten (writes io_size step offset m) = (m : Int) * io_size := by
  intro m
  induction m with
  | zero => intro offset; simp [writes, bytesWritten]
  | succ m ih =>
    intro offset
    simp only [writes, bytesWritten, ih]
    push_cast
    ring

theorem bytesWritten_reads (io_size step : Int) :
    ∀ (m : Nat) (offset : Int), bytesWritten (reads io_size step offset m) = 0 := by
  intro m
  induction m with
  | zero => intro offset; rfl
  | succ m ih => intro offset; simp [reads, bytesWritten, ih]

/-! ## The runs of the sequential and strided programs when no call fails -/

theorem io_size_test_ok (env : Env) (fuel : Nat) (io_size : Int)
    (hmin : 4096 ≤ io_size) (hmax : io_size ≤ INT_MAX)
    (hm : env.mallocOk 0 = true) (ho : env.openOk = true) (hc : env.fcntlOk = true)
    (hw : ∀ k, env.pwriteOk k = true) (hs : ∀ k, env.fsyncOk k = true)
    (hr : ∀ k, env.preadOk k = true) (hfuel : iterations io_size ≤ fuel) :
    io_size_test env fuel io_size
      = Run.after
          ([Event.malloc Buf.buffer io_size, Event.memset io_size, Event.openFile,
              Event.noCache, Event.timey_wimey]
            ++ writes io_size io_size 0 (iterations io_size)
            ++ [Event.timey_wimey, Event.lseek, Event.timey_wimey]
            ++ reads io_size io_size 0 (iterations io_size))
          (report env [Event.printIoSize io_size] [Event.free Buf.buffer]
            ((iterations io_size : Int) * io_size)) := by
  have hpos : 0 < io_size := by omega
  have hspec := iterations_spec hpos
  have hW := write_loop_ok env io_size io_size
    (Run.after [Event.timey_wimey, Event.lseek, Event.timey_wimey] <|
      read_loop env io_size io_size
        (report env [Event.printIoSize io_size] [Event.free Buf.buffer]) fuel 0 0 0)
    hpos hmax hw hs (iterations io_size) fuel 0 0 hfuel (le_refl 0)
    (by simpa using hspec.1) (by simpa using hspec.2)
  have hR := read_loop_ok env io_size io_size
    (report env [Event.printIoSize io_size] [Event.free Buf.buffer])
    hpos hmax hr (iterations io_size) fuel 0 0 0 hfuel (le_refl 0)
    (by simpa using hspec.1) (by simpa using hspec.2)
    (bytes_in_range hmin (by unfold INT_MIN; omega) hmax)
  unfold io_size_test
  rw [hW, hR]
  simp [Run.after, hm, ho, hc]

theorem io_stride_ok (env : Env) (fuel : Nat) (io_size stride : Int)
    (hmin : 4096 ≤ stride) (hmax : stride ≤ 104857600)
    (hlo : INT_MIN ≤ io_size) (hhi : io_size ≤ INT_MAX)
    (hm : env.mallocOk 0 = true) (ho : env.openOk = true) (hc : env.fcntlOk = true)
    (hw : ∀ k, env.pwriteOk k = true) (hs : ∀ k, env.fsyncOk k = true)
    (hr : ∀ k, env.preadOk k = true) (hfuel : iterations stride ≤ fuel) :
    io_stride env fuel io_size stride
      = Run.after
          ([Event.malloc Buf.buffer io_size, Event.memset io_size, Event.openFile,
              Event.noCache, Event.timey_wimey]
            ++ writes io_size stride 0 (iterations stride)
            ++ [Event.timey_wimey, Event.lseek, Event.timey_wimey]
            ++ reads io_size stride 0 (iterations stride))
          (report env [] [Event.free Buf.buffer] ((iterations stride : Int) * io_size)) := by
  have hpos : 0 < stride := by omega
  have hint : stride ≤ INT_MAX := by unfold INT_MAX; omega
  have hspec := iterations_spec hpos
  have hW := write_loop_ok env io_size stride
    (Run.after [Event.timey_wimey, Event.lseek, Event.timey_wimey] <|
      read_loop env io_size stride (report env [] [Event.free Buf.buffer]) fuel 0 0 0)
    hpos hint hw hs (iterations stride) fuel 0 0 hfuel (le_refl 0)
    (by simpa using hspec.1) (by simpa using hspec.2)
  have hR := read_loop_ok env io_size stride (report env [] [Event.free Buf.buffer])
    hpos hint hr (iterations stride) fuel 0 0 0 hfuel (le_refl 0)
    (by simpa using hspec.1) (by simpa using hspec.2)
    (bytes_in_range hmin hlo hhi)
  have hguard : ¬ (stride < MIN_STRIDE ∨ stride > MAX_STRIDE) := by
    unfold MIN_STRIDE MAX_STRIDE
    omega
  unfold io_stride
  rw [if_neg hguard, hW, hR]
  simp [Run.after, hm, ho, hc]

/-! ## The loops of the random program when no call fails -/

theorem gen_rand_eq (env : Env) (io_size : Int) (k : Nat)
    (hmin : 4096 ≤ io_size) (hmax : io_size ≤ 104857600) :
    gen_rand (env.rand k) io_size = some (drawn env io_size k) := by
  have hm : wrapInt (MAX_RANDOM_OFFSET - io_size) = MAX_RANDOM_OFFSET - io_size := by
    apply wrapInt_eq <;> unfold MAX_RANDOM_OFFSET FILE_SIZE <;>
      first
        | (unfold INT_MIN; omega)
        | (unfold INT_MAX; omega)
  have hne : wrapInt (MAX_RANDOM_OFFSET - io_size) ≠ 0 := by
    rw [hm]
    unfold MAX_RANDOM_OFFSET FILE_SIZE
    omega
  simp [gen_rand, drawn, hne]

theorem randomIterations_cast {io_size : Int} (h : 0 < io_size) :
    ((randomIterations io_size : Nat) : Int) = Int.tdiv FILE_SIZE io_size := by
  unfold randomIterations
  apply Int.toNat_of_nonneg
  rw [Int.tdiv_eq_ediv (by unfold FILE_SIZE; omega) (le_of_lt h)]
  exact Int.ediv_nonneg (by unfold FILE_SIZE; omega) (le_of_lt h)

theorem randomIterations_mul_le {io_size : Int} (h : 0 < io_size) :
    (randomIterations io_size : Int) * io_size ≤ FILE_SIZE := by
  rw [randomIterations_cast h, Int.tdiv_eq_ediv (by unfold FILE_SIZE; omega) (le_of_lt h)]
  exact Int.ediv_mul_le _ (ne_of_gt h)

theorem random_bytes_in_range {io_size : Int} (h : 0 < io_size) :
    ∀ j : Nat, j ≤ randomIterations io_size →
      LLONG_MIN ≤ 0 + (j : Int) * io_size ∧ 0 + (j : Int) * io_size ≤ LLONG_MAX := by
  intro j hj
  have h1 := randomIterations_mul_le h
  have hj' : (j : Int) ≤ (randomIterations io_size : Int) := by exact_mod_cast hj
  have h2 : (j : Int) * io_size ≤ (randomIterations io_size : Int) * io_size :=
    Int.mul_le_mul_of_nonneg_right hj' (le_of_lt h)
  have h3 : 0 ≤ (j : Int) * io_size := Int.mul_nonneg (Int.ofNat_nonneg j) (le_of_lt h)
  unfold FILE_SIZE at h1
  unfold LLONG_MIN LLONG_MAX
  constructor <;> omega

theorem stored_length (env : Env) (io_size : Int) :
    ∀ (m i : Nat) (wo : List (Option Int)), (stored env io_size wo i m).length = wo.length := by
  intro m
  induction m with
  | zero => intro i wo; rfl
  | succ m ih => intro i wo; simp [stored, ih]

theorem stored_below (env : Env) (io_size : Int) :
    ∀ (m i : Nat) (wo : List (Option Int)) (j : Nat), j < i →
      (stored env io_size wo i m)[j]? = wo[j]? := by
  intro m
  induction m with
  | zero => intro i wo j _; rfl
  | succ m ih =>
    intro i wo j hj
    simp only [stored]
    rw [ih (i + 1) _ j (by omega), List.getElem?_set]
    have : i ≠ j := by omega
    simp [this]

theorem stored_get (env : Env) (io_size : Int) :
    ∀ (m i : Nat) (wo : List (Option Int)) (j : Nat), i ≤ j → j < i + m → i + m ≤ wo.length →
      (stored env io_size wo i m)[j]? = some (some (drawn env io_size j)) := by
  intro m
  induction m with
  | zero => intro i wo j h1 h2 _; omega
  | succ m ih =>
    intro i wo j h1 h2 h3
    simp only [stored]
    by_cases hij : i = j
    · subst hij
      rw [stored_below env io_size m (i + 1) _ i (by omega), List.getElem?_set]
      have : i < wo.length := by omega
      simp [this]
    · exact ih (i + 1) _ j (by omega) (by omega) (by simp; omega)

theorem random_write_loop_ok (env : Env) (io_size : Int) (cont : List (Option Int) → Run)
    (hmin : 4096 ≤ io_size) (hmax : io_size ≤ 104857600)
    (hw : ∀ k, env.pwriteOk k = true) (hs : ∀ k, env.fsyncOk k = true) :
    ∀ (m fuel i : Nat) (wo : List (Option Int)), m ≤ fuel →
      i + m = randomIterations io_size → wo.length = randomIterations io_size →
      random_write_loop env io_size cont fuel i wo
        = Run.after (randomWrites env io_size i m) (cont (stored env io_size wo i m)) := by
  have hpos : 0 < io_size := by omega
  have hcast := randomIterations_cast hpos
  intro m
  induction m with
  | zero =>
    intro fuel i wo _ hi _
    have hnot : ¬ (i : Int) < Int.tdiv FILE_SIZE io_size := by
      rw [← hcast]
      have : randomIterations io_size ≤ i := by omega
      exact_mod_cast not_lt.mpr this
    cases fuel <;> simp [random_write_loop, hnot, randomWrites, stored, Run.after]
  | succ m ih =>
    intro fuel i wo hfuel hi hlen
    have hlt : (i : Int) < Int.tdiv FILE_SIZE io_size := by
      rw [← hcast]
      have : i < randomIterations io_size := by omega
      exact_mod_cast this
    obtain ⟨fuel, rfl⟩ : ∃ f, fuel = f + 1 := ⟨fuel - 1, by omega⟩
    have hidx : i < wo.length := by omega
    have hrec := ih fuel (i + 1) (wo.set i (some (drawn env io_size i))) (by omega) (by omega)
      (by simpa using hlen)
    simp [random_write_loop, hlt, gen_rand_eq env io_size i hmin hmax, hidx, hw i, hs i, hrec,
      randomWrites, stored, Run.after]

theorem random_read_loop_ok (env : Env) (io_size : Int) (wo : List (Option Int))
    (cont : Int → Run) (hmin : 4096 ≤ io_size)
    (hr : ∀ k, env.preadOk k = true) :
    ∀ (m fuel i : Nat) (bytes : Int), m ≤ fuel →
      i + m = randomIterations io_size →
      (∀ j : Nat, i ≤ j → j < randomIterations io_size →
        wo[j]? = some (some (drawn env io_size j))) →
      (∀ j : Nat, j ≤ m → LLONG_MIN ≤ bytes + (j : Int) * io_size ∧
        bytes + (j : Int) * io_size ≤ LLONG_MAX) →
      random_read_loop env io_size wo cont fuel i bytes
        = Run.after (randomReads env io_size i m) (cont (bytes + (m : Int) * io_size)) := by
  have hpos : 0 < io_size := by omega
  have hcast := randomIterations_cast hpos
  intro m
  induction m with
  | zero =>
    intro fuel i bytes _ hi _ _
    have hnot : ¬ (i : Int) < Int.tdiv FILE_SIZE io_size := by
      rw [← hcast]
      have : randomIterations io_size ≤ i := by omega
      exact_mod_cast not_lt.mpr this
    cases fuel <;> simp [random_read_loop, hnot, randomReads, Run.after]
  | succ m ih =>
    intro fuel i bytes hfuel hi hwo hb
    have hlt : (i : Int) < Int.tdiv FILE_SIZE io_size := by
      rw [← hcast]
      have : i < randomIterations io_size := by omega
      exact_mod_cast this
    obtain ⟨fuel, rfl⟩ : ∃ f, fuel = f + 1 := ⟨fuel - 1, by omega⟩
    have hget := hwo i (le_refl i) (by omega)
    have hwrapb : wrapLL (bytes + io_size) = bytes + io_size := by
      have := hb 1 (by omega)
      simp at this
      exact wrapLL_eq this.1 this.2
    have hrec := ih fuel (i + 1) (bytes + io_size) (by omega) (by omega)
      (fun j h1 h2 => hwo j (by omega) h2)
      (by
        intro j hj
        have := hb (j + 1) (by omega)
        push_cast at this
        constructor <;> linarith [this.1, this.2])
    have hfin : bytes + io_size + (m : Int) * io_size
        = bytes + ((m + 1 : Nat) : Int) * io_size := by
      push_cast
      ring
    simp [random_read_loop, hlt, hget, hr i, hwrapb, hrec, randomReads, Run.after, hfin]

theorem random_io_ok (env : Env) (fuel : Nat) (io_size : Int)
    (hmin : 4096 ≤ io_size) (hmax : io_size ≤ 104857600)
    (hm : ∀ k, env.mallocOk k = true) (ho : env.openOk = true) (hc : env.fcntlOk = true)
    (hw : ∀ k, env.pwriteOk k = true) (hs : ∀ k, env.fsyncOk k = true)
    (hr : ∀ k, env.preadOk k = true) (hfuel : randomIterations io_size ≤ fuel) :
    random_io env fuel io_size
      = Run.after
          ([Event.malloc Buf.buffer io_size, Event.memset io_size,
              Event.malloc Buf.write_offsets (Int.tdiv FILE_SIZE io_size * 8),
              Event.openFile, Event.noCache, Event.timey_wimey]
            ++ randomWrites env io_size 0 (randomIterations io_size)
            ++ [Event.timey_wimey, Event.lseek, Event.timey_wimey]
            ++ randomReads env io_size 0 (randomIterations io_size))
          (report env [Event.printIoSize io_size]
            [Event.free Buf.buffer, Event.free Buf.write_offsets]
            ((randomIterations io_size : Int) * io_size)) := by
  have hpos : 0 < io_size := by omega
  have hlen : (List.replicate (Int.tdiv FILE_SIZE io_size).toNat (none : Option Int)).length
      = randomIterations io_size := by
    simp [randomIterations]
  have hW := random_write_loop_ok env io_size
    (fun write_offsets =>
      Run.after [Event.timey_wimey, Event.lseek, Event.timey_wimey] <|
        random_read_loop env io_size write_offsets
          (report env [Event.printIoSize io_size]
            [Event.free Buf.buffer, Event.free Buf.write_offsets])
          fuel 0 0)
    hmin hmax hw hs (randomIterations io_size) fuel 0
    (List.replicate (Int.tdiv FILE_SIZE io_size).toNat none) hfuel (by omega) hlen
  have hR := random_read_loop_ok env io_size
    (stored env io_size (List.replicate (Int.tdiv FILE_SIZE io_size).toNat none) 0
      (randomIterations io_size))
    (report env [Event.printIoSize io_size]
      [Event.free Buf.buffer, Event.free Buf.write_offsets])
    hmin hr (randomIterations io_size) fuel 0 0 hfuel (by omega)
    (fun j h1 h2 => stored_get env io_size _ 0 _ j h1 (by omega) (by omega))
    (random_bytes_in_range hpos)
  have hguard : ¬ (io_size < MIN_IO_SIZE ∨ io_size > MAX_IO_SIZE) := by
    unfold MIN_IO_SIZE MAX_IO_SIZE
    omega
  unfold random_io
  rw [if_neg hguard, hW]
  simp only []
  rw [hR]
  simp [Run.after, hm 0, hm 1, ho, hc]

/-! ## Loop rules for an arbitrary environment -/

theorem Run.after_trace (es : List Event) (r : Run) : (Run.after es r).trace = es ++ r.trace :=
  rfl

theorem Run.after_status (es : List Event) (r : Run) : (Run.after es r).status = r.status :=
  rfl

theorem Run.return0_trace (r : Run) : r.return0.trace = r.trace := by
  unfold Run.return0
  split <;> rfl

theorem Closed.die {ok : Event → Prop} {Q : Run → Prop} (hQ : Closed ok Q)
    (es : List Event) (hes : ∀ e ∈ es, ok e) (hexit : ok (Event.exit 1)) : Q (die es) := by
  unfold Lab5.die
  apply hQ.halt
  · intro e he
    rcases List.mem_append.1 he with h | h
    · exact hes e h
    · simp at h
      subst h
      exact hexit
  · simp
  · intro c hc
    cases hc
    simp

theorem closed_all (P : Event → Prop) : Closed P (Run.All P) where
  after := by
    intro es r hes hr e he
    rcases List.mem_append.1 he with h | h
    · exact hes e h
    · exact hr e h
  halt := by
    intro es s hes _ _ e he
    exact hes e he
  ret0 := by
    intro r hr e he
    rw [Run.return0_trace] at he
    exact hr e he

theorem not_transferFailed_of_calm (es : List Event) (hes : ∀ e ∈ es, e.calm) :
    ¬ transferFailed es := by
  intro h
  rcases h with h | h | h
  · exact hes _ h
  · exact hes _ h
  · exact hes _ h

theorem closed_abortsUntruncated : Closed Event.calm AbortsUntruncated where
  after := by
    intro es r hes hr hfail
    have hfail' : transferFailed r.trace := by
      rcases hfail with h | h | h
      · rcases List.mem_append.1 h with h' | h'
        · exact absurd (hes _ h') (by simp [Event.calm])
        · exact Or.inl h'
      · rcases List.mem_append.1 h with h' | h'
        · exact absurd (hes _ h') (by simp [Event.calm])
        · exact Or.inr (Or.inl h')
      · rcases List.mem_append.1 h with h' | h'
        · exact absurd (hes _ h') (by simp [Event.calm])
        · exact Or.inr (Or.inr h')
    obtain ⟨h1, h2, h3⟩ := hr hfail'
    refine ⟨?_, ?_, h3⟩
    · intro h
      rcases List.mem_append.1 h with h' | h'
      · exact absurd (hes _ h') (by simp [Event.calm])
      · exact h1 h'
    · exact List.mem_append.2 (Or.inr h2)
  halt := by
    intro es s hes _ _ hfail
    exact absurd hfail (not_transferFailed_of_calm es hes)
  ret0 := by
    intro r hr hfail
    rw [Run.return0_trace] at hfail
    obtain ⟨h1, h2, h3⟩ := hr hfail
    have : r.return0 = r := by
      unfold Run.return0
      rw [h3]
    rw [this]
    exact ⟨h1, h2, h3⟩

theorem write_loop_rule {ok : Event → Prop} {Q : Run → Prop} (hQ : Closed ok Q)
    (env : Env) (io_size step : Int) (cont : Run) (I : Nat → Int → Prop)
    (hstep : ∀ i off, I i off → off < FILE_SIZE → I (i + 1) (wrapLL (off + step)))
    (hw : ∀ i off, I i off → off < FILE_SIZE → ok (Event.pwrite io_size off))
    (hs : ok Event.fsync)
    (hfw : Q (die [Event.eprint Diag.pwrite, Event.close, Event.free Buf.buffer]))
    (hfs : Q (die [Event.eprint Diag.fsync, Event.close, Event.free Buf.buffer]))
    (hcont : Q cont) :
    ∀ (fuel i : Nat) (offset : Int), I i offset →
      Q (write_loop env io_size step cont fuel i offset) := by
  intro fuel
  induction fuel with
  | zero =>
    intro i offset _
    unfold write_loop
    split
    · exact hQ.halt [] _ (by simp) (by simp) (by simp)
    · exact hcont
  | succ fuel ih =>
    intro i offset hI
    unfold write_loop
    split
    · next hlt =>
      apply hQ.after
      · intro e he
        simp at he
        subst he
        exact hw i offset hI hlt
      · split
        · apply hQ.after
          · intro e he
            simp at he
            subst he
            exact hs
          · split
            · exact ih (i + 1) _ (hstep i offset hI hlt)
            · exact hfs
        · exact hfw
    · exact hcont

theorem read_loop_rule {ok : Event → Prop} {Q : Run → Prop} (hQ : Closed ok Q)
    (env : Env) (io_size step : Int) (cont : Int → Run) (J : Nat → Int → Int → Prop)
    (hstep : ∀ i off b, J i off b → off < FILE_SIZE →
      J (i + 1) (wrapLL (off + step)) (wrapLL (b + io_size)))
    (hr : ∀ i off b, J i off b → off < FILE_SIZE → ok (Event.pread io_size off))
    (hfr : Q (die [Event.eprint Diag.pread, Event.close, Event.free Buf.buffer]))
    (hcont : ∀ i off b, J i off b → ¬ off < FILE_SIZE → Q (cont b)) :
    ∀ (fuel i : Nat) (offset bytes : Int), J i offset bytes →
      Q (read_loop env io_size step cont fuel i offset bytes) := by
  intro fuel
  induction fuel with
  | zero =>
    intro i offset bytes hJ
    unfold read_loop
    split
    · exact hQ.halt [] _ (by simp) (by simp) (by simp)
    · next hge => exact hcont i offset bytes hJ hge
  | succ fuel ih =>
    intro i offset bytes hJ
    unfold read_loop
    split
    · next hlt =>
      apply hQ.after
      · intro e he
        simp at he
        subst he
        exact hr i offset bytes hJ hlt
      · split
        · exact ih (i + 1) _ _ (hstep i offset bytes hJ hlt)
        · exact hfr
    · next hge => exact hcont i offset bytes hJ hge

theorem random_write_loop_rule {ok : Event → Prop} {Q : Run → Prop} (hQ : Closed ok Q)
    (env : Env) (io_size : Int) (cont : List (Option Int) → Run)
    (I : Nat → List (Option Int) → Prop)
    (hstep : ∀ i wo off, I i wo → (i : Int) < Int.tdiv FILE_SIZE io_size →
      gen_rand (env.rand i) io_size = some off → i < wo.length →
      I (i + 1) (wo.set i (some off)))
    (hrand : ok Event.rand)
    (hw : ∀ i wo off, I i wo → (i : Int) < Int.tdiv FILE_SIZE io_size →
      gen_rand (env.rand i) io_size = some off → ok (Event.pwrite io_size off))
    (hs : ok Event.fsync)
    (hfw : Q (die [Event.eprint Diag.pwrite, Event.close, Event.free Buf.buffer,
      Event.free Buf.write_offsets]))
    (hfs : Q (die [Event.eprint Diag.fsync, Event.close, Event.free Buf.buffer,
      Event.free Buf.write_offsets]))
    (hcont : ∀ i wo, I i wo → ¬ (i : Int) < Int.tdiv FILE_SIZE io_size → Q (cont wo)) :
    ∀ (fuel i : Nat) (wo : List (Option Int)), I i wo →
      Q (random_write_loop env io_size cont fuel i wo) := by
  intro fuel
  induction fuel with
  | zero =>
    intro i wo hI
    unfold random_write_loop
    split
    · exact hQ.halt [] _ (by simp) (by simp) (by simp)
    · next hge => exact hcont i wo hI hge
  | succ fuel ih =>
    intro i wo hI
    unfold random_write_loop
    split
    · next hlt =>
      apply hQ.after
      · intro e he
        simp at he
        subst he
        exact hrand
      · split
        · exact hQ.halt [] _ (by simp) (by simp) (by simp)
        · next off hoff =>
          split
          · next hidx =>
            apply hQ.after
            · intro e he
              simp at he
              subst he
              exact hw i wo off hI hlt hoff
            · split
              · apply hQ.after
                · intro e he
                  simp at he
                  subst he
                  exact hs
                · split
                  · exact ih (i + 1) _ (hstep i wo off hI hlt hoff hidx)
                  · exact hfs
              · exact hfw
          · exact hQ.halt [] _ (by simp) (by simp) (by simp)
    · next hge => exact hcont i wo hI hge

theorem random_read_loop_rule {ok : Event → Prop} {Q : Run → Prop} (hQ : Closed ok Q)
    (env : Env) (io_size : Int) (wo : List (Option Int)) (cont : Int → Run)
    (J : Nat → Int → Prop)
    (hstep : ∀ i b, J i b → (i : Int) < Int.tdiv FILE_SIZE io_size →
      J (i + 1) (wrapLL (b + io_size)))
    (hr : ∀ (i : Nat) (off : Int), wo[i]? = some (some off) → ok (Event.pread io_size off))
    (hfr : Q (die [Event.eprint Diag.pread, Event.close, Event.free Buf.buffer,
      Event.free Buf.write_offsets]))
    (hcont : ∀ i b, J i b → ¬ (i : Int) < Int.tdiv FILE_SIZE io_size → Q (cont b)) :
    ∀ (fuel i : Nat) (bytes : Int), J i bytes →
      Q (random_read_loop env io_size wo cont fuel i bytes) := by
  intro fuel
  induction fuel with
  | zero =>
    intro i bytes hJ
    unfold random_read_loop
    split
    · exact hQ.halt [] _ (by simp) (by simp) (by simp)
    · next hge => exact hcont i bytes hJ hge
  | succ fuel ih =>
    intro i bytes hJ
    unfold random_read_loop
    split
    · next hlt =>
      split
      · next off hoff =>
        apply hQ.after
        · intro e he
          simp at he
          subst he
          exact hr i off hoff
        · split
          · exact ih (i + 1) _ (hstep i bytes hJ hlt)
          · exact hfr
      · exact hQ.halt [] _ (by simp) (by simp) (by simp)
    · next hge => exact hcont i bytes hJ hge

/-! ## The runs of the three `main` functions when no call fails -/

theorem report_ok (env : Env) (heading cleanup : List Event) (bytes : Int)
    (ht : env.ftruncateOk = true) :
    report env heading cleanup bytes
      = ⟨reportEvents env heading cleanup bytes, Status.returned⟩ := by
  simp [report, reportEvents, Run.after, ht]

theorem io_size_main_ok (env : Env) (fuel : Nat) (io_size : Int)
    (hmin : 4096 ≤ io_size) (hmax : io_size ≤ INT_MAX) (henv : env.NoFailure)
    (hfuel : iterations io_size ≤ fuel) :
    io_size_main env fuel 3 io_size
      = ⟨[Event.printUsing io_size none, Event.malloc Buf.buffer io_size,
            Event.memset io_size, Event.openFile, Event.noCache, Event.timey_wimey]
          ++ writes io_size io_size 0 (iterations io_size)
          ++ [Event.timey_wimey, Event.lseek, Event.timey_wimey]
          ++ reads io_size io_size 0 (iterations io_size)
          ++ reportEvents env [Event.printIoSize io_size] [Event.free Buf.buffer]
              ((iterations io_size : Int) * io_size),
         Status.exited 0⟩ := by
  obtain ⟨hm, ho, hc, hw, hs, hr, ht⟩ := henv
  have hguard : ¬ io_size < MIN_IO_SIZE := by
    unfold MIN_IO_SIZE
    omega
  unfold io_size_main
  rw [io_size_test_ok env fuel io_size hmin hmax (hm 0) ho hc hw hs hr hfuel, report_ok _ _ _ _ ht]
  simp [hguard, Run.after, Run.return0]

theorem io_stride_main_ok (env : Env) (fuel : Nat) (io_size stride : Int)
    (hmin : 4096 ≤ stride) (hmax : stride ≤ 104857600)
    (hlo : INT_MIN ≤ io_size) (hhi : io_size ≤ INT_MAX) (henv : env.NoFailure)
    (hfuel : iterations stride ≤ fuel) :
    io_stride_main env fuel 4 io_size stride
      = ⟨[Event.printUsing io_size (some stride), Event.malloc Buf.buffer io_size,
            Event.memset io_size, Event.openFile, Event.noCache, Event.timey_wimey]
          ++ writes io_size stride 0 (iterations stride)
          ++ [Event.timey_wimey, Event.lseek, Event.timey_wimey]
          ++ reads io_size stride 0 (iterations stride)
          ++ reportEvents env [] [Event.free Buf.buffer] ((iterations stride : Int) * io_size),
         Status.exited 0⟩ := by
  obtain ⟨hm, ho, hc, hw, hs, hr, ht⟩ := henv
  unfold io_stride_main
  rw [io_stride_ok env fuel io_size stride hmin hmax hlo hhi (hm 0) ho hc hw hs hr hfuel,
    report_ok _ _ _ _ ht]
  simp [Run.after, Run.return0]

theorem random_io_main_ok (env : Env) (fuel : Nat) (io_size : Int)
    (hmin : 4096 ≤ io_size) (hmax : io_size ≤ 104857600) (henv : env.NoFailure)
    (hfuel : randomIterations io_size ≤ fuel) :
    random_io_main env fuel 3 io_size
      = ⟨[Event.printUsing io_size none, Event.malloc Buf.buffer io_size,
            Event.memset io_size,
            Event.malloc Buf.write_offsets (Int.tdiv FILE_SIZE io_size * 8),
            Event.openFile, Event.noCache, Event.timey_wimey]
          ++ randomWrites env io_size 0 (randomIterations io_size)
          ++ [Event.timey_wimey, Event.lseek, Event.timey_wimey]
          ++ randomReads env io_size 0 (randomIterations io_size)
          ++ reportEvents env [Event.printIoSize io_size]
              [Event.free Buf.buffer, Event.free Buf.write_offsets]
              ((randomIterations io_size : Int) * io_size),
         Status.exited 0⟩ := by
  obtain ⟨hm, ho, hc, hw, hs, hr, ht⟩ := henv
  have hguard : ¬ (io_size < MIN_IO_SIZE ∨ io_size > MAX_IO_SIZE) := by
    unfold MIN_IO_SIZE MAX_IO_SIZE
    omega
  unfold random_io_main
  rw [random_io_ok env fuel io_size hmin hmax hm ho hc hw hs hr hfuel, report_ok _ _ _ _ ht]
  simp [hguard, Run.after, Run.return0]

theorem okEnv_noFailure : okEnv.NoFailure := by
  simp [Env.NoFailure, okEnv]

/-! ## Reading the phases of the random program and the report -/

theorem writeOffsets_randomWrites (env : Env) (io_size : Int) :
    ∀ (m i : Nat),
      writeOffsets (randomWrites env io_size i m)
        = (List.range m).map (fun k : Nat => drawn env io_size (i + k)) := by
  intro m
  induction m with
  | zero => intro i; rfl
  | succ m ih =>
    intro i
    simp only [randomWrites, writeOffsets, ih, List.range_succ_eq_map, List.map_cons,
      List.map_map]
    simp only [add_zero, List.cons.injEq, true_and]
    apply List.map_congr_left
    intro k _
    simp only [Function.comp, Nat.succ_eq_add_one]
    congr 1
    omega

theorem readOffsets_randomReads (env : Env) (io_size : Int) :
    ∀ (m i : Nat),
      readOffsets (randomReads env io_size i m)
        = (List.range m).map (fun k : Nat => drawn env io_size (i + k)) := by
  intro m
  induction m with
  | zero => intro i; rfl
  | succ m ih =>
    intro i
    simp only [randomReads, readOffsets, ih, List.range_succ_eq_map, List.map_cons,
      List.map_map]
    simp only [add_zero, List.cons.injEq, true_and]
    apply List.map_congr_left
    intro k _
    simp only [Function.comp, Nat.succ_eq_add_one]
    congr 1
    omega

theorem readOffsets_randomWrites (env : Env) (io_size : Int) :
    ∀ (m i : Nat), readOffsets (randomWrites env io_size i m) = [] := by
  intro m
  induction m with
  | zero => intro i; rfl
  | succ m ih => intro i; simp [randomWrites, readOffsets, ih]

theorem writeOffsets_randomReads (env : Env) (io_size : Int) :
    ∀ (m i : Nat), writeOffsets (randomReads env io_size i m) = [] := by
  intro m
  induction m with
  | zero => intro i; rfl
  | succ m ih => intro i; simp [randomReads, writeOffsets, ih]

theorem randCalls_randomWrites (env : Env) (io_size : Int) :
    ∀ (m i : Nat), randCalls (randomWrites env io_size i m) = m := by
  intro m
  induction m with
  | zero => intro i; rfl
  | succ m ih => intro i; simp [randomWrites, randCalls, ih]

theorem randCalls_randomReads (env : Env) (io_size : Int) :
    ∀ (m i : Nat), randCalls (randomReads env io_size i m) = 0 := by
  intro m
  induction m with
  | zero => intro i; rfl
  | succ m ih => intro i; simp [randomReads, randCalls, ih]

theorem bytesWritten_randomWrites (env : Env) (io_size : Int) :
    ∀ (m i : Nat), bytesWritten (randomWrites env io_size i m) = (m : Int) * io_size := by
  intro m
  induction m with
  | zero => intro i; simp [randomWrites, bytesWritten]
  | succ m ih =>
    intro i
    simp only [randomWrites, bytesWritten, ih]
    push_cast
    ring

theorem bytesWritten_randomReads (env : Env) (io_size : Int) :
    ∀ (m i : Nat), bytesWritten (randomReads env io_size i m) = 0 := by
  intro m
  induction m with
  | zero => intro i; rfl
  | succ m ih => intro i; simp [randomReads, bytesWritten, ih]

theorem reportedWriteBytes_append (a b : List Event) :
    reportedWriteBytes (a ++ b) = (reportedWriteBytes a).or (reportedWriteBytes b) := by
  induction a with
  | nil => simp [reportedWriteBytes]
  | cons e es ih => cases e <;> simp [reportedWriteBytes, ih, Option.or]

theorem reportedReadBytes_append (a b : List Event) :
    reportedReadBytes (a ++ b) = (reportedReadBytes a).or (reportedReadBytes b) := by
  induction a with
  | nil => simp [reportedReadBytes]
  | cons e es ih => cases e <;> simp [reportedReadBytes, ih, Option.or]

theorem reportedWriteBytes_writes (io_size step : Int) :
    ∀ (m : Nat) (offset : Int), reportedWriteBytes (writes io_size step offset m) = none := by
  intro m
  induction m with
  | zero => intro offset; rfl
  | succ m ih => intro offset; simp [writes, reportedWriteBytes, ih]

theorem reportedWriteBytes_reads (io_size step : Int) :
    ∀ (m : Nat) (offset : Int), reportedWriteBytes (reads io_size step offset m) = none := by
  intro m
  induction m with
  | zero => intro offset; rfl
  | succ m ih => intro offset; simp [reads, reportedWriteBytes, ih]

theorem reportedReadBytes_writes (io_size step : Int) :
    ∀ (m : Nat) (offset : Int), reportedReadBytes (writes io_size step offset m) = none := by
  intro m
  induction m with
  | zero => intro offset; rfl
  | succ m ih => intro offset; simp [writes, reportedReadBytes, ih]

theorem reportedReadBytes_reads (io_size step : Int) :
    ∀ (m : Nat) (offset : Int), reportedReadBytes (reads io_size step offset m) = none := by
  intro m
  induction m with
  | zero => intro offset; rfl
  | succ m ih => intro offset; simp [reads, reportedReadBytes, ih]

theorem reportedWriteBytes_randomWrites (env : Env) (io_size : Int) :
    ∀ (m i : Nat), reportedWriteBytes (randomWrites env io_size i m) = none := by
  intro m
  induction m with
  | zero => intro i; rfl
  | succ m ih => intro i; simp [randomWrites, reportedWriteBytes, ih]

theorem reportedWriteBytes_randomReads (env : Env) (io_size : Int) :
    ∀ (m i : Nat), reportedWriteBytes (randomReads env io_size i m) = none := by
  intro m
  induction m with
  | zero => intro i; rfl
  | succ m ih => intro i; simp [randomReads, reportedWriteBytes, ih]

theorem reportedReadBytes_randomWrites (env : Env) (io_size : Int) :
    ∀ (m i : Nat), reportedReadBytes (randomWrites env io_size i m) = none := by
  intro m
  induction m with
  | zero => intro i; rfl
  | succ m ih => intro i; simp [randomWrites, reportedReadBytes, ih]

theorem reportedReadBytes_randomReads (env : Env) (io_size : Int) :
    ∀ (m i : Nat), reportedReadBytes (randomReads env io_size i m) = none := by
  intro m
  induction m with
  | zero => intro i; rfl
  | succ m ih => intro i; simp [randomReads, reportedReadBytes, ih]

theorem iterations_eq_ceil {step : Int} (h : 0 < step) :
    ((iterations step : Nat) : Int) = ⌈(FILE_SIZE : ℚ) / (step : ℚ)⌉ := by
  have hs : (0 : ℚ) < (step : ℚ) := by exact_mod_cast h
  have hspec := iterations_spec h
  have hpos := iterations_pos h
  symm
  rw [Int.ceil_eq_iff]
  constructor
  · rw [lt_div_iff₀ hs]
    have h1 := hspec.1 (iterations step - 1) (by omega)
    have h2 : ((iterations step - 1 : Nat) : Int) = (iterations step : Int) - 1 := by
      omega
    rw [h2] at h1
    exact_mod_cast h1
  · rw [div_le_iff₀ hs]
    exact_mod_cast hspec.2

/-! ## Runs in which a transfer fails -/

theorem report_abortsUntruncated (env : Env) (heading cleanup : List Event) (bytes : Int)
    (hh : ∀ e ∈ heading, ∃ n, e = Event.printIoSize n)
    (hc : ∀ e ∈ cleanup, ∃ b, e = Event.free b) :
    AbortsUntruncated (report env heading cleanup bytes) := by
  intro hfail
  exfalso
  unfold report at hfail
  rcases hfail with h | h | h <;>
  · split at h <;>
    · simp [Run.after, Lab5.die] at h
      rcases h with h | h
      · obtain ⟨n, hn⟩ := hh _ h
        cases hn
      · obtain ⟨b, hb⟩ := hc _ h
        cases hb

theorem die_abortsUntruncated (d : Diag) (cleanup : List Event)
    (hc : ∀ e ∈ cleanup, ∃ b, e = Event.free b) :
    AbortsUntruncated (die ([Event.eprint d, Event.close] ++ cleanup)) := by
  intro _
  refine ⟨?_, ?_, rfl⟩
  · intro h
    simp [Lab5.die] at h
    obtain ⟨b, hb⟩ := hc _ h
    cases hb
  · simp [Lab5.die]

theorem io_size_test_abortsUntruncated (env : Env) (fuel : Nat) (io_size : Int) :
    AbortsUntruncated (io_size_test env fuel io_size) := by
  have hQ := closed_abortsUntruncated
  unfold io_size_test
  apply hQ.after _ _ (by simp [Event.calm])
  split
  · apply hQ.after _ _ (by simp [Event.calm])
    split
    · apply hQ.after _ _ (by simp [Event.calm])
      split
      · apply hQ.after _ _ (by simp [Event.calm])
        apply write_loop_rule hQ env io_size io_size _ (fun _ _ => True)
          (fun _ _ _ _ => trivial) (fun _ _ _ _ => by simp [Event.calm]) (by simp [Event.calm])
          (die_abortsUntruncated Diag.pwrite [Event.free Buf.buffer] (by simp))
          (die_abortsUntruncated Diag.fsync [Event.free Buf.buffer] (by simp))
          _ fuel 0 0 trivial
        apply hQ.after _ _ (by simp [Event.calm])
        apply read_loop_rule hQ env io_size io_size _ (fun _ _ _ => True)
          (fun _ _ _ _ _ => trivial) (fun _ _ _ _ _ => by simp [Event.calm])
          (die_abortsUntruncated Diag.pread [Event.free Buf.buffer] (by simp))
          _ fuel 0 0 0 trivial
        intro _ _ b _ _
        exact report_abortsUntruncated env _ _ b (by simp) (by simp)
      · exact hQ.die _ (by simp [Event.calm]) (by simp [Event.calm])
    · exact hQ.die _ (by simp [Event.calm]) (by simp [Event.calm])
  · exact hQ.die _ (by simp [Event.calm]) (by simp [Event.calm])

theorem io_stride_abortsUntruncated (env : Env) (fuel : Nat) (io_size stride : Int) :
    AbortsUntruncated (io_stride env fuel io_size stride) := by
  have hQ := closed_abortsUntruncated
  unfold io_stride
  split
  · exact hQ.die _ (by simp [Event.calm]) (by simp [Event.calm])
  apply hQ.after _ _ (by simp [Event.calm])
  split
  · apply hQ.after _ _ (by simp [Event.calm])
    split
    · apply hQ.after _ _ (by simp [Event.calm])
      split
      · apply hQ.after _ _ (by simp [Event.calm])
        apply write_loop_rule hQ env io_size stride _ (fun _ _ => True)
          (fun _ _ _ _ => trivial) (fun _ _ _ _ => by simp [Event.calm]) (by simp [Event.calm])
          (die_abortsUntruncated Diag.pwrite [Event.free Buf.buffer] (by simp))
          (die_abortsUntruncated Diag.fsync [Event.free Buf.buffer] (by simp))
          _ fuel 0 0 trivial
        apply hQ.after _ _ (by simp [Event.calm])
        apply read_loop_rule hQ env io_size stride _ (fun _ _ _ => True)
          (fun _ _ _ _ _ => trivial) (fun _ _ _ _ _ => by simp [Event.calm])
          (die_abortsUntruncated Diag.pread [Event.free Buf.buffer] (by simp))
          _ fuel 0 0 0 trivial
        intro _ _ b _ _
        exact report_abortsUntruncated env _ _ b (by simp) (by simp)
      · exact hQ.die _ (by simp [Event.calm]) (by simp [Event.calm])
    · exact hQ.die _ (by simp [Event.calm]) (by simp [Event.calm])
  · exact hQ.die _ (by simp [Event.calm]) (by simp [Event.calm])

theorem random_io_abortsUntruncated (env : Env) (fuel : Nat) (io_size : Int) :
    AbortsUntruncated (random_io env fuel io_size) := by
  have hQ := closed_abortsUntruncated
  unfold random_io
  split
  · exact hQ.die _ (by simp [Event.calm]) (by simp [Event.calm])
  apply hQ.after _ _ (by simp [Event.calm])
  split
  · apply hQ.after _ _ (by simp [Event.calm])
    split
    · apply hQ.after _ _ (by simp [Event.calm])
      split
      · apply hQ.after _ _ (by simp [Event.calm])
        split
        · apply hQ.after _ _ (by simp [Event.calm])
          apply random_write_loop_rule hQ env io_size _ (fun _ _ => True)
            (fun _ _ _ _ _ _ _ => trivial) (by simp [Event.calm])
            (fun _ _ _ _ _ _ => by simp [Event.calm]) (by simp [Event.calm])
            (die_abortsUntruncated Diag.pwrite [Event.free Buf.buffer,
              Event.free Buf.write_offsets] (by simp))
            (die_abortsUntruncated Diag.fsync [Event.free Buf.buffer,
              Event.free Buf.write_offsets] (by simp))
            _ fuel 0 _ trivial
          intro _ wo _ _
          apply hQ.after _ _ (by simp [Event.calm])
          apply random_read_loop_rule hQ env io_size wo _ (fun _ _ => True)
            (fun _ _ _ _ => trivial) (fun _ _ _ => by simp [Event.calm])
            (die_abortsUntruncated Diag.pread [Event.free Buf.buffer,
              Event.free Buf.write_offsets] (by simp))
            _ fuel 0 0 trivial
          intro _ b _ _
          exact report_abortsUntruncated env _ _ b (by simp) (by simp)
        · exact hQ.die _ (by simp [Event.calm]) (by simp [Event.calm])
      · exact hQ.die _ (by simp [Event.calm]) (by simp [Event.calm])
    · exact hQ.die _ (by simp [Event.calm]) (by simp [Event.calm])
  · exact hQ.die _ (by simp [Event.calm]) (by simp [Event.calm])

theorem io_size_main_abortsUntruncated (env : Env) (fuel : Nat) (argc io_size : Int) :
    AbortsUntruncated (io_size_main env fuel argc io_size) := by
  have hQ := closed_abortsUntruncated
  unfold io_size_main
  split
  · exact hQ.die _ (by simp [Event.calm]) (by simp [Event.calm])
  split
  · exact hQ.die _ (by simp [Event.calm]) (by simp [Event.calm])
  apply hQ.after _ _ (by simp [Event.calm])
  exact hQ.ret0 _ (io_size_test_abortsUntruncated env fuel io_size)

theorem io_stride_main_abortsUntruncated (env : Env) (fuel : Nat) (argc io_size stride : Int) :
    AbortsUntruncated (io_stride_main env fuel argc io_size stride) := by
  have hQ := closed_abortsUntruncated
  unfold io_stride_main
  split
  · exact hQ.die _ (by simp [Event.calm]) (by simp [Event.calm])
  apply hQ.after _ _ (by simp [Event.calm])
  exact hQ.ret0 _ (io_stride_abortsUntruncated env fuel io_size stride)

theorem random_io_main_abortsUntruncated (env : Env) (fuel : Nat) (argc io_size : Int) :
    AbortsUntruncated (random_io_main env fuel argc io_size) := by
  have hQ := closed_abortsUntruncated
  unfold random_io_main
  split
  · exact hQ.die _ (by simp [Event.calm]) (by simp [Event.calm])
  split
  · exact hQ.die _ (by simp [Event.calm]) (by simp [Event.calm])
  apply hQ.after _ _ (by simp [Event.calm])
  exact hQ.ret0 _ (random_io_abortsUntruncated env fuel io_size)

/-! ## Every event of a run, for an arbitrary environment -/

theorem report_all (P : Event → Prop) (env : Env) (heading cleanup : List Event) (bytes : Int)
    (hquiet : ∀ e : Event, e.quiet → P e)
    (hh : ∀ e ∈ heading, e.quiet) (hc : ∀ e ∈ cleanup, e.quiet)
    (hpw : ∀ el, P (Event.printWrite FILE_SIZE el))
    (hpr : ∀ el, P (Event.printRead bytes el)) :
    Run.All P (report env heading cleanup bytes) := by
  unfold report
  apply (closed_all P).after
  · intro e he
    simp only [List.mem_append, List.mem_cons, List.mem_singleton, List.not_mem_nil,
      or_false] at he
    rcases he with (rfl | h) | rfl | rfl | rfl
    · exact hquiet _ (by simp [Event.quiet])
    · exact hquiet _ (hh _ h)
    · exact hpw _
    · exact hpr _
    · exact hquiet _ (by simp [Event.quiet])
  · split
    · intro e he
      simp only [List.mem_append, List.mem_cons, List.mem_singleton, List.not_mem_nil,
        or_false] at he
      rcases he with rfl | h
      · exact hquiet _ (by simp [Event.quiet])
      · exact hquiet _ (hc _ h)
    · apply (closed_all P).die
      · intro e he
        simp only [List.mem_append, List.mem_cons, List.mem_singleton, List.not_mem_nil,
          or_false] at he
        rcases he with (rfl | rfl) | h
        · exact hquiet _ (by simp [Event.quiet])
        · exact hquiet _ (by simp [Event.quiet])
        · exact hquiet _ (hc _ h)
      · exact hquiet _ (by simp [Event.quiet])

theorem lt_iterations_of_lt {step : Int} (h : 0 < step) {i : Nat}
    (hlt : (i : Int) * step < FILE_SIZE) : i < iterations step := by
  by_contra hcon
  have hle : ((iterations step : Nat) : Int) ≤ (i : Int) := by
    exact_mod_cast not_lt.mp hcon
  have h1 : (iterations step : Int) * step ≤ (i : Int) * step :=
    Int.mul_le_mul_of_nonneg_right hle (le_of_lt h)
  have h2 := (iterations_spec h).2
  linarith

theorem iterations_le_of_ge {step : Int} (h : 0 < step) {i : Nat}
    (hge : ¬ (i : Int) * step < FILE_SIZE) : iterations step ≤ i := by
  by_contra hcon
  exact hge ((iterations_spec h).1 i (by omega))

theorem die_all_quiet (P : Event → Prop) (hquiet : ∀ e : Event, e.quiet → P e)
    (es : List Event) (hes : ∀ e ∈ es, e.quiet) : Run.All P (die es) :=
  (closed_all P).die es (fun e he => hquiet e (hes e he)) (hquiet _ (by simp [Event.quiet]))

theorem write_loop_all (P : Event → Prop) (env : Env) (io_size step : Int) (cont : Run)
    (hstep : 0 < step) (hmax : step ≤ INT_MAX)
    (hquiet : ∀ e : Event, e.quiet → P e)
    (hw : ∀ k : Nat, (k : Int) * step < FILE_SIZE → P (Event.pwrite io_size ((k : Int) * step)))
    (hcont : Run.All P cont) (fuel : Nat) :
    Run.All P (write_loop env io_size step cont fuel 0 0) := by
  have hQ := closed_all P
  apply write_loop_rule hQ env io_size step cont (fun i off => off = (i : Int) * step)
  · intro i off hI hlt
    subst hI
    have h0 : (0 : Int) ≤ (i : Int) * step := Int.mul_nonneg (Int.ofNat_nonneg i) (le_of_lt hstep)
    rw [wrapLL_eq]
    · push_cast
      ring
    · unfold LLONG_MIN
      omega
    · unfold LLONG_MAX
      unfold INT_MAX at hmax
      unfold FILE_SIZE at hlt
      omega
  · intro i off hI hlt
    subst hI
    exact hw i hlt
  · exact hquiet _ (by simp [Event.quiet])
  · exact die_all_quiet P hquiet _ (by simp [Event.quiet])
  · exact die_all_quiet P hquiet _ (by simp [Event.quiet])
  · exact hcont
  · simp

theorem read_loop_all (P : Event → Prop) (env : Env) (io_size step : Int) (cont : Int → Run)
    (hmin : 4096 ≤ step) (hmax : step ≤ INT_MAX)
    (hlo : INT_MIN ≤ io_size) (hhi : io_size ≤ INT_MAX)
    (hquiet : ∀ e : Event, e.quiet → P e)
    (hr : ∀ k : Nat, (k : Int) * step < FILE_SIZE → P (Event.pread io_size ((k : Int) * step)))
    (hcont : Run.All P (cont ((iterations step : Int) * io_size))) (fuel : Nat) :
    Run.All P (read_loop env io_size step cont fuel 0 0 0) := by
  have hQ := closed_all P
  have hstep : 0 < step := by omega
  apply read_loop_rule hQ env io_size step cont
    (fun i off b => off = (i : Int) * step ∧ b = (i : Int) * io_size ∧ i ≤ iterations step)
  · intro i off b hJ hlt
    obtain ⟨rfl, rfl, hi⟩ := hJ
    have h0 : (0 : Int) ≤ (i : Int) * step := Int.mul_nonneg (Int.ofNat_nonneg i) (le_of_lt hstep)
    have hin := lt_iterations_of_lt hstep hlt
    have hb := bytes_in_range hmin hlo hhi (i + 1) (by omega)
    refine ⟨?_, ?_, by omega⟩
    · rw [wrapLL_eq]
      · push_cast
        ring
      · unfold LLONG_MIN
        omega
      · unfold LLONG_MAX
        unfold INT_MAX at hmax
        unfold FILE_SIZE at hlt
        omega
    · have heq : (i : Int) * io_size + io_size = 0 + ((i + 1 : Nat) : Int) * io_size := by
        push_cast
        ring
      rw [heq, wrapLL_eq hb.1 hb.2]
      simp
  · intro i off b hJ hlt
    obtain ⟨rfl, -, -⟩ := hJ
    exact hr i hlt
  · exact die_all_quiet P hquiet _ (by simp [Event.quiet])
  · intro i off b hJ hge
    obtain ⟨rfl, rfl, hi⟩ := hJ
    have : i = iterations step := le_antisymm hi (iterations_le_of_ge hstep hge)
    rw [this]
    exact hcont
  · simp

theorem io_size_test_all (P : Event → Prop) (env : Env) (fuel : Nat) (io_size : Int)
    (hmin : 4096 ≤ io_size) (hmax : io_size ≤ INT_MAX)
    (hquiet : ∀ e : Event, e.quiet → P e)
    (hw : ∀ k : Nat, (k : Int) * io_size < FILE_SIZE →
      P (Event.pwrite io_size ((k : Int) * io_size)))
    (hr : ∀ k : Nat, (k : Int) * io_size < FILE_SIZE →
      P (Event.pread io_size ((k : Int) * io_size)))
    (hpw : ∀ el, P (Event.printWrite FILE_SIZE el))
    (hpr : ∀ el, P (Event.printRead ((iterations io_size : Int) * io_size) el)) :
    Run.All P (io_size_test env fuel io_size) := by
  have hQ := closed_all P
  have hq : ∀ es : List Event, (∀ e ∈ es, e.quiet) → ∀ e ∈ es, P e :=
    fun es hes e he => hquiet e (hes e he)
  unfold io_size_test
  apply hQ.after _ _ (hq _ (by simp [Event.quiet]))
  split
  · apply hQ.after _ _ (hq _ (by simp [Event.quiet]))
    split
    · apply hQ.after _ _ (hq _ (by simp [Event.quiet]))
      split
      · apply hQ.after _ _ (hq _ (by simp [Event.quiet]))
        apply write_loop_all P env io_size io_size _ (by omega) hmax hquiet hw
        apply hQ.after _ _ (hq _ (by simp [Event.quiet]))
        apply read_loop_all P env io_size io_size _ hmin hmax (by unfold INT_MIN; omega) hmax
          hquiet hr
        exact report_all P env _ _ _ hquiet (by simp [Event.quiet]) (by simp [Event.quiet])
          hpw hpr
      · exact hQ.die _ (hq _ (by simp [Event.quiet])) (hquiet _ (by simp [Event.quiet]))
    · exact hQ.die _ (hq _ (by simp [Event.quiet])) (hquiet _ (by simp [Event.quiet]))
  · exact hQ.die _ (hq _ (by simp [Event.quiet])) (hquiet _ (by simp [Event.quiet]))

theorem io_stride_all (P : Event → Prop) (env : Env) (fuel : Nat) (io_size stride : Int)
    (hlo : INT_MIN ≤ io_size) (hhi : io_size ≤ INT_MAX)
    (hquiet : ∀ e : Event, e.quiet → P e)
    (hw : 4096 ≤ stride → stride ≤ 104857600 → ∀ k : Nat, (k : Int) * stride < FILE_SIZE →
      P (Event.pwrite io_size ((k : Int) * stride)))
    (hr : 4096 ≤ stride → stride ≤ 104857600 → ∀ k : Nat, (k : Int) * stride < FILE_SIZE →
      P (Event.pread io_size ((k : Int) * stride)))
    (hpw : ∀ el, P (Event.printWrite FILE_SIZE el))
    (hpr : 4096 ≤ stride → stride ≤ 104857600 →
      ∀ el, P (Event.printRead ((iterations stride : Int) * io_size) el)) :
    Run.All P (io_stride env fuel io_size stride) := by
  have hQ := closed_all P
  have hq : ∀ es : List Event, (∀ e ∈ es, e.quiet) → ∀ e ∈ es, P e :=
    fun es hes e he => hquiet e (hes e he)
  unfold io_stride
  split
  · exact hQ.die _ (hq _ (by simp [Event.quiet])) (hquiet _ (by simp [Event.quiet]))
  next hguard =>
  have hmin : 4096 ≤ stride := by
    unfold MIN_STRIDE MAX_STRIDE at hguard
    omega
  have hmax' : stride ≤ 104857600 := by
    unfold MIN_STRIDE MAX_STRIDE at hguard
    omega
  have hmax : stride ≤ INT_MAX := by
    unfold INT_MAX
    omega
  apply hQ.after _ _ (hq _ (by simp [Event.quiet]))
  split
  · apply hQ.after _ _ (hq _ (by simp [Event.quiet]))
    split
    · apply hQ.after _ _ (hq _ (by simp [Event.quiet]))
      split
      · apply hQ.after _ _ (hq _ (by simp [Event.quiet]))
        apply write_loop_all P env io_size stride _ (by omega) hmax hquiet (hw hmin hmax')
        apply hQ.after _ _ (hq _ (by simp [Event.quiet]))
        apply read_loop_all P env io_size stride _ hmin hmax hlo hhi hquiet (hr hmin hmax')
        exact report_all P env _ _ _ hquiet (by simp [Event.quiet]) (by simp [Event.quiet])
          hpw (hpr hmin hmax')
      · exact hQ.die _ (hq _ (by simp [Event.quiet])) (hquiet _ (by simp [Event.quiet]))
    · exact hQ.die _ (hq _ (by simp [Event.quiet])) (hquiet _ (by simp [Event.quiet]))
  · exact hQ.die _ (hq _ (by simp [Event.quiet])) (hquiet _ (by simp [Event.quiet]))

theorem random_io_all (P : Event → Prop) (env : Env) (fuel : Nat) (io_size : Int)
    (hquiet : ∀ e : Event, e.quiet → P e)
    (hw : 4096 ≤ io_size → io_size ≤ 104857600 → ∀ k : Nat, k < randomIterations io_size →
      P (Event.pwrite io_size (drawn env io_size k)))
    (hr : 4096 ≤ io_size → io_size ≤ 104857600 → ∀ k : Nat, k < randomIterations io_size →
      P (Event.pread io_size (drawn env io_size k)))
    (hpw : ∀ el, P (Event.printWrite FILE_SIZE el))
    (hpr : 4096 ≤ io_size → io_size ≤ 104857600 →
      ∀ el, P (Event.printRead ((randomIterations io_size : Int) * io_size) el)) :
    Run.All P (random_io env fuel io_size) := by
  have hQ := closed_all P
  have hq : ∀ es : List Event, (∀ e ∈ es, e.quiet) → ∀ e ∈ es, P e :=
    fun es hes e he => hquiet e (hes e he)
  unfold random_io
  split
  · exact die_all_quiet P hquiet _ (by simp [Event.quiet])
  next hguard =>
  have hmin : 4096 ≤ io_size := by
    unfold MIN_IO_SIZE MAX_IO_SIZE at hguard
    omega
  have hmax : io_size ≤ 104857600 := by
    unfold MIN_IO_SIZE MAX_IO_SIZE at hguard
    omega
  have hpos : 0 < io_size := by omega
  have hcast := randomIterations_cast hpos
  have hlt_iff : ∀ i : Nat, (i : Int) < Int.tdiv FILE_SIZE io_size ↔ i < randomIterations io_size := by
    intro i
    rw [← hcast]
    exact Int.ofNat_lt
  apply hQ.after _ _ (hq _ (by simp [Event.quiet]))
  split
  · apply hQ.after _ _ (hq _ (by simp [Event.quiet]))
    split
    · apply hQ.after _ _ (hq _ (by simp [Event.quiet]))
      split
      · apply hQ.after _ _ (hq _ (by simp [Event.quiet]))
        split
        · apply hQ.after _ _ (hq _ (by simp [Event.quiet]))
          apply random_write_loop_rule hQ env io_size _
            (fun _ wo => ∀ (j : Nat) (off : Int), wo[j]? = some (some off) →
              j < randomIterations io_size ∧ off = drawn env io_size j)
          · intro i wo off hI hlt hgen hidx j off' hj
            rw [List.getElem?_set] at hj
            rw [gen_rand_eq env io_size i hmin hmax] at hgen
            by_cases hij : i = j
            · subst hij
              simp only [if_true, hidx, Option.some.injEq] at hj hgen
              subst hj
              exact ⟨(hlt_iff i).1 hlt, hgen.symm⟩
            · rw [if_neg hij] at hj
              exact hI j off' hj
          · exact hquiet _ (by simp [Event.quiet])
          · intro i wo off _ hlt hgen
            rw [gen_rand_eq env io_size i hmin hmax] at hgen
            simp at hgen
            subst hgen
            exact hw hmin hmax i ((hlt_iff i).1 hlt)
          · exact hquiet _ (by simp [Event.quiet])
          · exact die_all_quiet P hquiet _ (by simp [Event.quiet])
          · exact die_all_quiet P hquiet _ (by simp [Event.quiet])
          · intro _ wo hI _
            apply hQ.after _ _ (hq _ (by simp [Event.quiet]))
            apply random_read_loop_rule hQ env io_size wo _
              (fun i b => b = (i : Int) * io_size ∧ i ≤ randomIterations io_size)
            · intro i b hJ hlt
              obtain ⟨rfl, hi⟩ := hJ
              have hin := (hlt_iff i).1 hlt
              have hb := random_bytes_in_range hpos (i + 1) (by omega)
              refine ⟨?_, by omega⟩
              have heq : (i : Int) * io_size + io_size
                  = 0 + ((i + 1 : Nat) : Int) * io_size := by
                push_cast
                ring
              rw [heq, wrapLL_eq hb.1 hb.2]
              simp
            · intro i off hoff
              obtain ⟨hi, rfl⟩ := hI i off hoff
              exact hr hmin hmax i hi
            · exact die_all_quiet P hquiet _ (by simp [Event.quiet])
            · intro i b hJ hge
              obtain ⟨rfl, hi⟩ := hJ
              have hge' : randomIterations io_size ≤ i := by
                by_contra hcon
                exact hge ((hlt_iff i).2 (by omega))
              have : i = randomIterations io_size := le_antisymm hi hge'
              rw [this]
              exact report_all P env _ _ _ hquiet (by simp [Event.quiet])
                (by simp [Event.quiet]) hpw (hpr hmin hmax)
            · simp
          · intro j off hj
            rw [List.getElem?_replicate] at hj
            split at hj <;> simp at hj
        · exact die_all_quiet P hquiet _ (by simp [Event.quiet])
      · exact die_all_quiet P hquiet _ (by simp [Event.quiet])
    · exact die_all_quiet P hquiet _ (by simp [Event.quiet])
  · exact die_all_quiet P hquiet _ (by simp [Event.quiet])

theorem main_all (P : Event → Prop) (hquiet : ∀ e : Event, e.quiet → P e) (r : Run)
    (io_size : Int) (stride : Option Int) (hr : Run.All P r) :
    Run.All P (Run.after [Event.printUsing io_size stride] r.return0) := by
  apply (closed_all P).after
  · intro e he
    simp at he
    subst he
    exact hquiet _ (by simp [Event.quiet])
  · exact (closed_all P).ret0 r hr

theorem io_size_main_all (P : Event → Prop) (env : Env) (fuel : Nat) (argc io_size : Int)
    (hmax : io_size ≤ INT_MAX)
    (hquiet : ∀ e : Event, e.quiet → P e)
    (hw : 4096 ≤ io_size → ∀ k : Nat, (k : Int) * io_size < FILE_SIZE →
      P (Event.pwrite io_size ((k : Int) * io_size)))
    (hr : 4096 ≤ io_size → ∀ k : Nat, (k : Int) * io_size < FILE_SIZE →
      P (Event.pread io_size ((k : Int) * io_size)))
    (hpw : ∀ el, P (Event.printWrite FILE_SIZE el))
    (hpr : 4096 ≤ io_size →
      ∀ el, P (Event.printRead ((iterations io_size : Int) * io_size) el)) :
    Run.All P (io_size_main env fuel argc io_size) := by
  unfold io_size_main
  split
  · exact die_all_quiet P hquiet _ (by simp [Event.quiet])
  split
  · exact die_all_quiet P hquiet _ (by simp [Event.quiet])
  next hguard =>
  have hmin : 4096 ≤ io_size := by
    unfold MIN_IO_SIZE at hguard
    omega
  exact main_all P hquiet _ _ _
    (io_size_test_all P env fuel io_size hmin hmax hquiet (hw hmin) (hr hmin) hpw (hpr hmin))

theorem io_stride_main_all (P : Event → Prop) (env : Env) (fuel : Nat)
    (argc io_size stride : Int) (hlo : INT_MIN ≤ io_size) (hhi : io_size ≤ INT_MAX)
    (hquiet : ∀ e : Event, e.quiet → P e)
    (hw : 4096 ≤ stride → stride ≤ 104857600 → ∀ k : Nat, (k : Int) * stride < FILE_SIZE →
      P (Event.pwrite io_size ((k : Int) * stride)))
    (hr : 4096 ≤ stride → stride ≤ 104857600 → ∀ k : Nat, (k : Int) * stride < FILE_SIZE →
      P (Event.pread io_size ((k : Int) * stride)))
    (hpw : ∀ el, P (Event.printWrite FILE_SIZE el))
    (hpr : 4096 ≤ stride → stride ≤ 104857600 →
      ∀ el, P (Event.printRead ((iterations stride : Int) * io_size) el)) :
    Run.All P (io_stride_main env fuel argc io_size stride) := by
  unfold io_stride_main
  split
  · exact die_all_quiet P hquiet _ (by simp [Event.quiet])
  exact main_all P hquiet _ _ _
    (io_stride_all P env fuel io_size stride hlo hhi hquiet hw hr hpw hpr)

theorem random_io_main_all (P : Event → Prop) (env : Env) (fuel : Nat) (argc io_size : Int)
    (hquiet : ∀ e : Event, e.quiet → P e)
    (hw : 4096 ≤ io_size → io_size ≤ 104857600 → ∀ k : Nat, k < randomIterations io_size →
      P (Event.pwrite io_size (drawn env io_size k)))
    (hr : 4096 ≤ io_size → io_size ≤ 104857600 → ∀ k : Nat, k < randomIterations io_size →
      P (Event.pread io_size (drawn env io_size k)))
    (hpw : ∀ el, P (Event.printWrite FILE_SIZE el))
    (hpr : 4096 ≤ io_size → io_size ≤ 104857600 →
      ∀ el, P (Event.printRead ((randomIterations io_size : Int) * io_size) el)) :
    Run.All P (random_io_main env fuel argc io_size) := by
  unfold random_io_main
  split
  · exact die_all_quiet P hquiet _ (by simp [Event.quiet])
  split
  · exact die_all_quiet P hquiet _ (by simp [Event.quiet])
  exact main_all P hquiet _ _ _
    (random_io_all P env fuel io_size hquiet hw hr hpw hpr)

/-! ## Arithmetic of the offsets -/

theorem grid_within_file {io_size step : Int} (hstep : 0 < step) (hdvd : step ∣ FILE_SIZE)
    (hle : io_size ≤ step) (k : Nat) (hlt : (k : Int) * step < FILE_SIZE) :
    0 ≤ (k : Int) * step ∧ (k : Int) * step + io_size ≤ FILE_SIZE := by
  obtain ⟨q, hq⟩ := hdvd
  have h0 : (0 : Int) ≤ (k : Int) * step := Int.mul_nonneg (Int.ofNat_nonneg k) (le_of_lt hstep)
  refine ⟨h0, ?_⟩
  have hkq : (k : Int) < q := by
    by_contra hcon
    have hqk : q ≤ (k : Int) := not_lt.mp hcon
    have := Int.mul_le_mul_of_nonneg_right hqk (le_of_lt hstep)
    rw [hq] at hlt
    linarith [mul_comm step q]
  have h1 : ((k : Int) + 1) * step ≤ q * step :=
    Int.mul_le_mul_of_nonneg_right (by omega) (le_of_lt hstep)
  rw [hq]
  linarith [mul_comm step q]

theorem drawn_within_file (env : Env) (io_size : Int) (k : Nat)
    (hmin : 4096 ≤ io_size) (hmax : io_size ≤ 104857600) (hr : 0 ≤ env.rand k) :
    0 ≤ drawn env io_size k ∧ drawn env io_size k < FILE_SIZE - io_size ∧
      drawn env io_size k + io_size ≤ FILE_SIZE := by
  have hm : wrapInt (MAX_RANDOM_OFFSET - io_size) = MAX_RANDOM_OFFSET - io_size := by
    apply wrapInt_eq <;> unfold MAX_RANDOM_OFFSET FILE_SIZE <;>
      first
        | (unfold INT_MIN; omega)
        | (unfold INT_MAX; omega)
  have hpos : 0 < MAX_RANDOM_OFFSET - io_size := by
    unfold MAX_RANDOM_OFFSET FILE_SIZE
    omega
  unfold drawn
  rw [hm]
  have h1 := Int.tmod_nonneg (MAX_RANDOM_OFFSET - io_size) hr
  have h2 := Int.tmod_lt_of_pos (env.rand k) hpos
  unfold MAX_RANDOM_OFFSET at h1 h2 ⊢
  refine ⟨h1, ?_, ?_⟩ <;> omega

theorem quiet_onGrid (io_size step : Int) (e : Event) (he : e.quiet) :
    e.onGrid io_size step := by
  cases e <;> simp [Event.quiet, Event.onGrid] at he ⊢

theorem quiet_withinFile (io_size : Int) (e : Event) (he : e.quiet) :
    e.withinFile io_size := by
  cases e <;> simp [Event.quiet, Event.withinFile] at he ⊢

theorem quiet_positiveBytes (e : Event) (he : e.quiet) : e.positiveBytes := by
  cases e <;> simp [Event.quiet, Event.positiveBytes] at he ⊢

theorem io_stride_main_written (env : Env) (fuel : Nat) (io_size stride : Int)
    (hmin : 4096 ≤ stride) (hmax : stride ≤ 104857600)
    (hlo : INT_MIN ≤ io_size) (hhi : io_size ≤ INT_MAX) (henv : env.NoFailure)
    (hfuel : iterations stride ≤ fuel) :
    (io_stride_main env fuel 4 io_size stride).status = Status.exited 0 ∧
    (writeOffsets (io_stride_main env fuel 4 io_size stride).trace).length
      = iterations stride ∧
    bytesWritten (io_stride_main env fuel 4 io_size stride).trace
      = (iterations stride : Int) * io_size ∧
    reportedWriteBytes (io_stride_main env fuel 4 io_size stride).trace = some FILE_SIZE := by
  rw [io_stride_main_ok env fuel io_size stride hmin hmax hlo hhi henv hfuel]
  refine ⟨rfl, ?_, ?_, ?_⟩
  · simp [reportEvents, writeOffsets_append, writeOffsets_writes, writeOffsets_reads,
      writeOffsets]
  · simp [reportEvents, bytesWritten_append, bytesWritten_writes, bytesWritten_reads,
      bytesWritten]
  · simp [reportEvents, reportedWriteBytes_append, reportedWriteBytes_writes,
      reportedWriteBytes_reads, reportedWriteBytes, Option.or]

theorem throughput_eq {bytes elapsed d : Int} (hd : wrapLL (1024 * 1024 * elapsed) = d)
    (hne : d ≠ 0) : throughput bytes elapsed = some ((bytes * 1000000 : ℚ) / (d : ℚ)) := by
  unfold throughput
  rw [hd]
  exact if_neg hne

theorem throughput_none {bytes elapsed : Int} (hd : wrapLL (1024 * 1024 * elapsed) = 0) :
    throughput bytes elapsed = none := by
  unfold throughput
  rw [hd]
  exact if_pos rfl

theorem throughput_pos {bytes elapsed : Int} (hb : 0 < bytes) (he : 0 < elapsed)
    (hlt : elapsed < 8796093022208) :
    ∃ q : ℚ, throughput bytes elapsed = some q ∧ 0 < q := by
  have hwrap : wrapLL (1024 * 1024 * elapsed) = 1024 * 1024 * elapsed := by
    apply wrapLL_eq
    · unfold LLONG_MIN
      omega
    · unfold LLONG_MAX
      omega
  have hne : (1024 * 1024 * elapsed : Int) ≠ 0 := by omega
  refine ⟨(bytes * 1000000 : ℚ) / ((1024 * 1024 * elapsed : Int) : ℚ), ?_, ?_⟩
  · exact throughput_eq hwrap hne
  · have hb' : (0 : ℚ) < (bytes : ℚ) := by exact_mod_cast hb
    have hd : (0 : ℚ) < ((1024 * 1024 * elapsed : Int) : ℚ) := by
      have : (0 : Int) < 1024 * 1024 * elapsed := by omega
      exact_mod_cast this
    positivity

theorem throughput_of_all {r : Run} (h : Run.All Event.positiveBytes r) (bytes elapsed : Int)
    (hmem : Event.printWrite bytes elapsed ∈ r.trace ∨ Event.printRead bytes elapsed ∈ r.trace)
    (he : 0 < elapsed) (hlt : elapsed < 8796093022208) :
    ∃ q : ℚ, throughput bytes elapsed = some q ∧ 0 < q := by
  rcases hmem with hm | hm
  · exact throughput_pos (h _ hm) he hlt
  · exact throughput_pos (h _ hm) he hlt

theorem io_size_main_positiveBytes (env : Env) (fuel : Nat) (argc io_size : Int)
    (hhi : io_size ≤ INT_MAX) :
    Run.All Event.positiveBytes (io_size_main env fuel argc io_size) := by
  refine io_size_main_all Event.positiveBytes env fuel argc io_size hhi
    quiet_positiveBytes ?_ ?_ ?_ ?_
  · intro _ k _
    trivial
  · intro _ k _
    trivial
  · intro el
    show 0 < FILE_SIZE
    decide
  · intro hmin el
    show 0 < (iterations io_size : Int) * io_size
    have h1 : 0 < iterations io_size := iterations_pos (by omega)
    exact Int.mul_pos (by exact_mod_cast h1) (by omega)

theorem io_stride_main_positiveBytes (env : Env) (fuel : Nat) (argc io_size stride : Int)
    (hmin : 4096 ≤ io_size) (hhi : io_size ≤ INT_MAX) :
    Run.All Event.positiveBytes (io_stride_main env fuel argc io_size stride) := by
  refine io_stride_main_all Event.positiveBytes env fuel argc io_size stride
    (by unfold INT_MIN; omega) hhi quiet_positiveBytes ?_ ?_ ?_ ?_
  · intro _ _ k _
    trivial
  · intro _ _ k _
    trivial
  · intro el
    show 0 < FILE_SIZE
    decide
  · intro hs _ el
    show 0 < (iterations stride : Int) * io_size
    have h1 : 0 < iterations stride := iterations_pos (by omega)
    exact Int.mul_pos (by exact_mod_cast h1) (by omega)

theorem randomIterations_pos {io_size : Int} (hmin : 4096 ≤ io_size)
    (hmax : io_size ≤ 104857600) : 0 < randomIterations io_size := by
  have hpos : 0 < io_size := by omega
  have hcast := randomIterations_cast hpos
  rw [Int.tdiv_eq_ediv (by unfold FILE_SIZE; omega) (le_of_lt hpos)] at hcast
  have h1 : 1 ≤ FILE_SIZE / io_size := by
    rw [Int.le_ediv_iff_mul_le hpos]
    unfold FILE_SIZE
    omega
  omega

theorem random_io_main_positiveBytes (env : Env) (fuel : Nat) (argc io_size : Int) :
    Run.All Event.positiveBytes (random_io_main env fuel argc io_size) := by
  refine random_io_main_all Event.positiveBytes env fuel argc io_size
    quiet_positiveBytes ?_ ?_ ?_ ?_
  · intro _ _ k _
    trivial
  · intro _ _ k _
    trivial
  · intro el
    show 0 < FILE_SIZE
    decide
  · intro hmin hmax el
    show 0 < (randomIterations io_size : Int) * io_size
    have h1 := randomIterations_pos hmin hmax
    exact Int.mul_pos (by exact_mod_cast h1) (by omega)

/-! ## A failed transfer puts its diagnostic in the trace -/

theorem transferFailed_append (es t : List Event) (h : transferFailed t) :
    transferFailed (es ++ t) := by
  rcases h with h | h | h
  · exact Or.inl (List.mem_append.2 (Or.inr h))
  · exact Or.inr (Or.inl (List.mem_append.2 (Or.inr h)))
  · exact Or.inr (Or.inr (List.mem_append.2 (Or.inr h)))

theorem transferFailed_after (es : List Event) (r : Run) (h : transferFailed r.trace) :
    transferFailed (Run.after es r).trace :=
  transferFailed_append es r.trace h

theorem write_loop_ok_upto (env : Env) (io_size step : Int) (cont : Run)
    (hstep : 0 < step) (hmax : step ≤ INT_MAX) :
    ∀ (m fuel i : Nat) (offset : Int), m ≤ fuel → 0 ≤ offset →
      (∀ j : Nat, j < m → offset + (j : Int) * step < FILE_SIZE) →
      FILE_SIZE ≤ offset + (m : Int) * step →
      (∀ j : Nat, j < m → env.pwriteOk (i + j) = true ∧ env.fsyncOk (i + j) = true) →
      write_loop env io_size step cont fuel i offset
        = Run.after (writes io_size step offset m) cont := by
  intro m
  induction m with
  | zero =>
    intro fuel i offset _ _ _ hge _
    have hnot : ¬ offset < FILE_SIZE := by
      simp at hge
      omega
    cases fuel <;> simp [write_loop, hnot, writes, Run.after]
  | succ m ih =>
    intro fuel i offset hfuel hoff hlt hge hok
    have hlt0 : offset < FILE_SIZE := by
      have := hlt 0 (Nat.succ_pos m)
      simpa using this
    obtain ⟨fuel, rfl⟩ : ∃ f, fuel = f + 1 := ⟨fuel - 1, by omega⟩
    have hwrap : wrapLL (offset + step) = offset + step := by
      apply wrapLL_eq
      · unfold LLONG_MIN
        omega
      · unfold LLONG_MAX
        unfold INT_MAX at hmax
        unfold FILE_SIZE at hlt0
        omega
    have hok0 := hok 0 (Nat.succ_pos m)
    simp only [Nat.add_zero] at hok0
    have hrec := ih fuel (i + 1) (offset + step) (by omega) (by omega)
      (by
        intro j hj
        have := hlt (j + 1) (by omega)
        push_cast at this
        linarith)
      (by
        push_cast at hge
        linarith)
      (by
        intro j hj
        have := hok (j + 1) (by omega)
        rwa [show i + (j + 1) = i + 1 + j by omega] at this)
    simp [write_loop, hlt0, hok0.1, hok0.2, hwrap, hrec, writes, Run.after]

theorem write_loop_transferFailed (env : Env) (io_size step : Int) (cont : Run)
    (hstep : 0 < step) (hmax : step ≤ INT_MAX) :
    ∀ (m fuel i : Nat) (offset : Int), m ≤ fuel → 0 ≤ offset →
      (∀ j : Nat, j < m → offset + (j : Int) * step < FILE_SIZE) →
      (∃ j : Nat, j < m ∧ (env.pwriteOk (i + j) = false ∨ env.fsyncOk (i + j) = false)) →
      transferFailed (write_loop env io_size step cont fuel i offset).trace := by
  intro m
  induction m with
  | zero =>
    intro fuel i offset _ _ _ hex
    obtain ⟨j, hj, _⟩ := hex
    omega
  | succ m ih =>
    intro fuel i offset hfuel hoff hlt hex
    have hlt0 : offset < FILE_SIZE := by
      have := hlt 0 (Nat.succ_pos m)
      simpa using this
    obtain ⟨fuel, rfl⟩ : ∃ f, fuel = f + 1 := ⟨fuel - 1, by omega⟩
    have hwrap : wrapLL (offset + step) = offset + step := by
      apply wrapLL_eq
      · unfold LLONG_MIN
        omega
      · unfold LLONG_MAX
        unfold INT_MAX at hmax
        unfold FILE_SIZE at hlt0
        omega
    unfold write_loop
    rw [if_pos hlt0]
    apply transferFailed_after
    cases hp : env.pwriteOk i with
    | false =>
      left
      simp [Lab5.die]
    | true =>
      rw [if_pos rfl]
      apply transferFailed_after
      cases hf : env.fsyncOk i with
      | false =>
        right
        left
        simp [Lab5.die]
      | true =>
        rw [if_pos rfl, hwrap]
        obtain ⟨j, hj, hbad⟩ := hex
        have hj0 : j ≠ 0 := by
          intro h0
          subst h0
          simp only [Nat.add_zero] at hbad
          rw [hp, hf] at hbad
          simp at hbad
        obtain ⟨j', rfl⟩ : ∃ j', j = j' + 1 := ⟨j - 1, by omega⟩
        apply ih fuel (i + 1) (offset + step) (by omega) (by omega)
        · intro k hk
          have := hlt (k + 1) (by omega)
          push_cast at this
          linarith
        · refine ⟨j', by omega, ?_⟩
          rwa [show i + (j' + 1) = i + 1 + j' by omega] at hbad

theorem read_loop_transferFailed (env : Env) (io_size step : Int) (cont : Int → Run)
    (hstep : 0 < step) (hmax : step ≤ INT_MAX) :
    ∀ (m fuel i : Nat) (offset bytes : Int), m ≤ fuel → 0 ≤ offset →
      (∀ j : Nat, j < m → offset + (j : Int) * step < FILE_SIZE) →
      (∃ j : Nat, j < m ∧ env.preadOk (i + j) = false) →
      transferFailed (read_loop env io_size step cont fuel i offset bytes).trace := by
  intro m
  induction m with
  | zero =>
    intro fuel i offset bytes _ _ _ hex
    obtain ⟨j, hj, _⟩ := hex
    omega
  | succ m ih =>
    intro fuel i offset bytes hfuel hoff hlt hex
    have hlt0 : offset < FILE_SIZE := by
      have := hlt 0 (Nat.succ_pos m)
      simpa using this
    obtain ⟨fuel, rfl⟩ : ∃ f, fuel = f + 1 := ⟨fuel - 1, by omega⟩
    have hwrap : wrapLL (offset + step) = offset + step := by
      apply wrapLL_eq
      · unfold LLONG_MIN
        omega
      · unfold LLONG_MAX
        unfold INT_MAX at hmax
        unfold FILE_SIZE at hlt0
        omega
    unfold read_loop
    rw [if_pos hlt0]
    apply transferFailed_after
    cases hp : env.preadOk i with
    | false =>
      right
      right
      simp [Lab5.die]
    | true =>
      rw [if_pos rfl, hwrap]
      obtain ⟨j, hj, hbad⟩ := hex
      have hj0 : j ≠ 0 := by
        intro h0
        subst h0
        simp only [Nat.add_zero] at hbad
        rw [hp] at hbad
        simp at hbad
      obtain ⟨j', rfl⟩ : ∃ j', j = j' + 1 := ⟨j - 1, by omega⟩
      apply ih fuel (i + 1) (offset + step) _ (by omega) (by omega)
      · intro k hk
        have := hlt (k + 1) (by omega)
        push_cast at this
        linarith
      · refine ⟨j', by omega, ?_⟩
        rwa [show i + (j' + 1) = i + 1 + j' by omega] at hbad

theorem transfer_failure_cases (env : Env) (n : Nat)
    (hfail : ∃ k : Nat, k < n ∧
      (env.pwriteOk k = false ∨ env.fsyncOk k = false ∨ env.preadOk k = false)) :
    (∃ j : Nat, j < n ∧ (env.pwriteOk (0 + j) = false ∨ env.fsyncOk (0 + j) = false)) ∨
    ((∀ j : Nat, j < n → env.pwriteOk (0 + j) = true ∧ env.fsyncOk (0 + j) = true) ∧
      ∃ j : Nat, j < n ∧ env.preadOk (0 + j) = false) := by
  simp only [Nat.zero_add]
  by_cases hall : ∀ j : Nat, j < n → env.pwriteOk j = true ∧ env.fsyncOk j = true
  · right
    refine ⟨hall, ?_⟩
    obtain ⟨k, hk, h | h | h⟩ := hfail
    · rw [(hall k hk).1] at h
      simp at h
    · rw [(hall k hk).2] at h
      simp at h
    · exact ⟨k, hk, h⟩
  · left
    push_neg at hall
    obtain ⟨j, hj, hbad⟩ := hall
    refine ⟨j, hj, ?_⟩
    cases hp : env.pwriteOk j with
    | false => exact Or.inl rfl
    | true =>
      right
      have := hbad hp
      simpa using this

theorem io_size_test_transferFailed (env : Env) (fuel : Nat) (io_size : Int)
    (hmin : 4096 ≤ io_size) (hmax : io_size ≤ INT_MAX)
    (hm : env.mallocOk 0 = true) (ho : env.openOk = true) (hc : env.fcntlOk = true)
    (hfuel : iterations io_size ≤ fuel)
    (hfail : ∃ k : Nat, k < iterations io_size ∧
      (env.pwriteOk k = false ∨ env.fsyncOk k = false ∨ env.preadOk k = false)) :
    transferFailed (io_size_test env fuel io_size).trace := by
  have hpos : 0 < io_size := by omega
  have hspec := iterations_spec hpos
  have hlt : ∀ j : Nat, j < iterations io_size → (0 : Int) + (j : Int) * io_size < FILE_SIZE := by
    simpa using hspec.1
  have hge : FILE_SIZE ≤ (0 : Int) + (iterations io_size : Int) * io_size := by
    simpa using hspec.2
  unfold io_size_test
  rw [if_pos hm, if_pos ho, if_pos hc]
  apply transferFailed_after
  apply transferFailed_after
  apply transferFailed_after
  apply transferFailed_after
  rcases transfer_failure_cases env _ hfail with hw | ⟨hok, hr⟩
  · exact write_loop_transferFailed env io_size io_size _ hpos hmax _ fuel 0 0 hfuel
      (le_refl 0) hlt hw
  · rw [write_loop_ok_upto env io_size io_size _ hpos hmax _ fuel 0 0 hfuel (le_refl 0)
      hlt hge hok]
    apply transferFailed_after
    apply transferFailed_after
    exact read_loop_transferFailed env io_size io_size _ hpos hmax _ fuel 0 0 0 hfuel
      (le_refl 0) hlt hr

theorem io_stride_transferFailed (env : Env) (fuel : Nat) (io_size stride : Int)
    (hmin : 4096 ≤ stride) (hmax : stride ≤ 104857600)
    (hm : env.mallocOk 0 = true) (ho : env.openOk = true) (hc : env.fcntlOk = true)
    (hfuel : iterations stride ≤ fuel)
    (hfail : ∃ k : Nat, k < iterations stride ∧
      (env.pwriteOk k = false ∨ env.fsyncOk k = false ∨ env.preadOk k = false)) :
    transferFailed (io_stride env fuel io_size stride).trace := by
  have hpos : 0 < stride := by omega
  have hint : stride ≤ INT_MAX := by
    unfold INT_MAX
    omega
  have hspec := iterations_spec hpos
  have hlt : ∀ j : Nat, j < iterations stride → (0 : Int) + (j : Int) * stride < FILE_SIZE := by
    simpa using hspec.1
  have hge : FILE_SIZE ≤ (0 : Int) + (iterations stride : Int) * stride := by
    simpa using hspec.2
  have hguard : ¬ (stride < MIN_STRIDE ∨ stride > MAX_STRIDE) := by
    unfold MIN_STRIDE MAX_STRIDE
    omega
  unfold io_stride
  rw [if_neg hguard, if_pos hm, if_pos ho, if_pos hc]
  apply transferFailed_after
  apply transferFailed_after
  apply transferFailed_after
  apply transferFailed_after
  rcases transfer_failure_cases env _ hfail with hw | ⟨hok, hr⟩
  · exact write_loop_transferFailed env io_size stride _ hpos hint _ fuel 0 0 hfuel
      (le_refl 0) hlt hw
  · rw [write_loop_ok_upto env io_size stride _ hpos hint _ fuel 0 0 hfuel (le_refl 0)
      hlt hge hok]
    apply transferFailed_after
    apply transferFailed_after
    exact read_loop_transferFailed env io_size stride _ hpos hint _ fuel 0 0 0 hfuel
      (le_refl 0) hlt hr

theorem random_write_loop_ok_upto (env : Env) (io_size : Int)
    (cont : List (Option Int) → Run)
    (hmin : 4096 ≤ io_size) (hmax : io_size ≤ 104857600) :
    ∀ (m fuel i : Nat) (wo : List (Option Int)), m ≤ fuel →
      i + m = randomIterations io_size → wo.length = randomIterations io_size →
      (∀ j : Nat, j < m → env.pwriteOk (i + j) = true ∧ env.fsyncOk (i + j) = true) →
      random_write_loop env io_size cont fuel i wo
        = Run.after (randomWrites env io_size i m) (cont (stored env io_size wo i m)) := by
  have hpos : 0 < io_size := by omega
  have hcast := randomIterations_cast hpos
  intro m
  induction m with
  | zero =>
    intro fuel i wo _ hi _ _
    have hnot : ¬ (i : Int) < Int.tdiv FILE_SIZE io_size := by
      rw [← hcast]
      have : randomIterations io_size ≤ i := by omega
      exact_mod_cast not_lt.mpr this
    cases fuel <;> simp [random_write_loop, hnot, randomWrites, stored, Run.after]
  | succ m ih =>
    intro fuel i wo hfuel hi hlen hok
    have hlt : (i : Int) < Int.tdiv FILE_SIZE io_size := by
      rw [← hcast]
      have : i < randomIterations io_size := by omega
      exact_mod_cast this
    obtain ⟨fuel, rfl⟩ : ∃ f, fuel = f + 1 := ⟨fuel - 1, by omega⟩
    have hidx : i < wo.length := by omega
    have hok0 := hok 0 (Nat.succ_pos m)
    simp only [Nat.add_zero] at hok0
    have hrec := ih fuel (i + 1) (wo.set i (some (drawn env io_size i))) (by omega) (by omega)
      (by simpa using hlen)
      (by
        intro j hj
        have := hok (j + 1) (by omega)
        rwa [show i + (j + 1) = i + 1 + j by omega] at this)
    simp [random_write_loop, hlt, gen_rand_eq env io_size i hmin hmax, hidx, hok0.1, hok0.2,
      hrec, randomWrites, stored, Run.after]

theorem random_write_loop_transferFailed (env : Env) (io_size : Int)
    (cont : List (Option Int) → Run)
    (hmin : 4096 ≤ io_size) (hmax : io_size ≤ 104857600) :
    ∀ (m fuel i : Nat) (wo : List (Option Int)), m ≤ fuel →
      i + m = randomIterations io_size → wo.length = randomIterations io_size →
      (∃ j : Nat, j < m ∧ (env.pwriteOk (i + j) = false ∨ env.fsyncOk (i + j) = false)) →
      transferFailed (random_write_loop env io_size cont fuel i wo).trace := by
  have hpos : 0 < io_size := by omega
  have hcast := randomIterations_cast hpos
  intro m
  induction m with
  | zero =>
    intro fuel i wo _ _ _ hex
    obtain ⟨j, hj, _⟩ := hex
    omega
  | succ m ih =>
    intro fuel i wo hfuel hi hlen hex
    have hlt : (i : Int) < Int.tdiv FILE_SIZE io_size := by
      rw [← hcast]
      have : i < randomIterations io_size := by omega
      exact_mod_cast this
    obtain ⟨fuel, rfl⟩ : ∃ f, fuel = f + 1 := ⟨fuel - 1, by omega⟩
    have hidx : i < wo.length := by omega
    unfold random_write_loop
    rw [if_pos hlt]
    apply transferFailed_after
    rw [gen_rand_eq env io_size i hmin hmax]
    simp only []
    rw [if_pos hidx]
    apply transferFailed_after
    cases hp : env.pwriteOk i with
    | false =>
      left
      simp [Lab5.die]
    | true =>
      rw [if_pos rfl]
      apply transferFailed_after
      cases hf : env.fsyncOk i with
      | false =>
        right
        left
        simp [Lab5.die]
      | true =>
        rw [if_pos rfl]
        obtain ⟨j, hj, hbad⟩ := hex
        have hj0 : j ≠ 0 := by
          intro h0
          subst h0
          simp only [Nat.add_zero] at hbad
          rw [hp, hf] at hbad
          simp at hbad
        obtain ⟨j', rfl⟩ : ∃ j', j = j' + 1 := ⟨j - 1, by omega⟩
        apply ih fuel (i + 1) _ (by omega) (by omega) (by simpa using hlen)
        refine ⟨j', by omega, ?_⟩
        rwa [show i + (j' + 1) = i + 1 + j' by omega] at hbad

theorem random_read_loop_transferFailed (env : Env) (io_size : Int)
    (wo : List (Option Int)) (cont : Int → Run) (hmin : 4096 ≤ io_size) :
    ∀ (m fuel i : Nat) (bytes : Int), m ≤ fuel →
      i + m = randomIterations io_size →
      (∀ j : Nat, i ≤ j → j < randomIterations io_size →
        wo[j]? = some (some (drawn env io_size j))) →
      (∃ j : Nat, j < m ∧ env.preadOk (i + j) = false) →
      transferFailed (random_read_loop env io_size wo cont fuel i bytes).trace := by
  have hpos : 0 < io_size := by omega
  have hcast := randomIterations_cast hpos
  intro m
  induction m with
  | zero =>
    intro fuel i bytes _ _ _ hex
    obtain ⟨j, hj, _⟩ := hex
    omega
  | succ m ih =>
    intro fuel i bytes hfuel hi hwo hex
    have hlt : (i : Int) < Int.tdiv FILE_SIZE io_size := by
      rw [← hcast]
      have : i < randomIterations io_size := by omega
      exact_mod_cast this
    obtain ⟨fuel, rfl⟩ : ∃ f, fuel = f + 1 := ⟨fuel - 1, by omega⟩
    have hget := hwo i (le_refl i) (by omega)
    unfold random_read_loop
    rw [if_pos hlt, hget]
    simp only []
    apply transferFailed_after
    cases hp : env.preadOk i with
    | false =>
      right
      right
      simp [Lab5.die]
    | true =>
      rw [if_pos rfl]
      obtain ⟨j, hj, hbad⟩ := hex
      have hj0 : j ≠ 0 := by
        intro h0
        subst h0
        simp only [Nat.add_zero] at hbad
        rw [hp] at hbad
        simp at hbad
      obtain ⟨j', rfl⟩ : ∃ j', j = j' + 1 := ⟨j - 1, by omega⟩
      apply ih fuel (i + 1) _ (by omega) (by omega) (fun k h1 h2 => hwo k (by omega) h2)
      refine ⟨j', by omega, ?_⟩
      rwa [show i + (j' + 1) = i + 1 + j' by omega] at hbad

theorem random_io_transferFailed (env : Env) (fuel : Nat) (io_size : Int)
    (hmin : 4096 ≤ io_size) (hmax : io_size ≤ 104857600)
    (hm0 : env.mallocOk 0 = true) (hm1 : env.mallocOk 1 = true)
    (ho : env.openOk = true) (hc : env.fcntlOk = true)
    (hfuel : randomIterations io_size ≤ fuel)
    (hfail : ∃ k : Nat, k < randomIterations io_size ∧
      (env.pwriteOk k = false ∨ env.fsyncOk k = false ∨ env.preadOk k = false)) :
    transferFailed (random_io env fuel io_size).trace := by
  have hlen : (List.replicate (Int.tdiv FILE_SIZE io_size).toNat (none : Option Int)).length
      = randomIterations io_size := by
    simp [randomIterations]
  have hguard : ¬ (io_size < MIN_IO_SIZE ∨ io_size > MAX_IO_SIZE) := by
    unfold MIN_IO_SIZE MAX_IO_SIZE
    omega
  unfold random_io
  rw [if_neg hguard, if_pos hm0, if_pos hm1, if_pos ho, if_pos hc]
  apply transferFailed_after
  apply transferFailed_after
  apply transferFailed_after
  apply transferFailed_after
  apply transferFailed_after
  rcases transfer_failure_cases env _ hfail with hw | ⟨hok, hr⟩
  · exact random_write_loop_transferFailed env io_size _ hmin hmax _ fuel 0 _ hfuel
      (by omega) hlen hw
  · rw [random_write_loop_ok_upto env io_size _ hmin hmax _ fuel 0 _ hfuel (by omega) hlen hok]
    apply transferFailed_after
    apply transferFailed_after
    exact random_read_loop_transferFailed env io_size _ _ hmin _ fuel 0 0 hfuel (by omega)
      (fun j h1 h2 => stored_get env io_size _ 0 _ j h1 (by omega) (by omega)) hr

/-! ## Every run that ends after a successful `open` closes the descriptor -/

theorem closed_endsClosed : Closed Event.notExit EndsClosed where
  after := by
    intro es r _ hr hend
    exact List.mem_append.2 (Or.inr (hr hend))
  halt := by
    intro es s hes hs hexit hend
    exfalso
    rcases hend with ⟨c, hc⟩ | hret
    · exact hes _ (hexit c hc)
    · exact hs hret
  ret0 := by
    intro r hr hend
    rw [Run.return0_trace]
    apply hr
    cases hst : r.status with
    | returned => exact Or.inr rfl
    | exited c => exact Or.inl ⟨c, rfl⟩
    | diverged =>
      exfalso
      have hsame : r.return0 = r := by
        unfold Run.return0
        rw [hst]
      rw [hsame, hst] at hend
      rcases hend with ⟨c, hc⟩ | hret
      · cases hc
      · cases hret
    | undefined =>
      exfalso
      have hsame : r.return0 = r := by
        unfold Run.return0
        rw [hst]
      rw [hsame, hst] at hend
      rcases hend with ⟨c, hc⟩ | hret
      · cases hc
      · cases hret

theorem die_endsClosed (es : List Event) (h : Event.close ∈ es) : EndsClosed (die es) := by
  intro _
  exact List.mem_append.2 (Or.inl h)

theorem report_endsClosed (env : Env) (heading cleanup : List Event) (bytes : Int) :
    EndsClosed (report env heading cleanup bytes) := by
  intro _
  unfold report
  split <;> simp [Run.after, Lab5.die]

theorem io_size_test_endsClosed (env : Env) (fuel : Nat) (io_size : Int)
    (ho : env.openOk = true)
    (hopen : Event.openFile ∈ (io_size_test env fuel io_size).trace) :
    EndsClosed (io_size_test env fuel io_size) := by
  have hQ := closed_endsClosed
  have hm : env.mallocOk 0 = true := by
    cases h : env.mallocOk 0 with
    | true => rfl
    | false =>
      exfalso
      unfold io_size_test at hopen
      rw [h] at hopen
      simp [Run.after, Lab5.die] at hopen
  unfold io_size_test
  rw [if_pos hm, if_pos ho]
  apply hQ.after _ _ (by simp [Event.notExit])
  apply hQ.after _ _ (by simp [Event.notExit])
  apply hQ.after _ _ (by simp [Event.notExit])
  split
  · apply hQ.after _ _ (by simp [Event.notExit])
    apply write_loop_rule hQ env io_size io_size _ (fun _ _ => True)
      (fun _ _ _ _ => trivial) (fun _ _ _ _ => by simp [Event.notExit])
      (by simp [Event.notExit])
      (die_endsClosed _ (by simp)) (die_endsClosed _ (by simp)) _ fuel 0 0 trivial
    apply hQ.after _ _ (by simp [Event.notExit])
    apply read_loop_rule hQ env io_size io_size _ (fun _ _ _ => True)
      (fun _ _ _ _ _ => trivial) (fun _ _ _ _ _ => by simp [Event.notExit])
      (die_endsClosed _ (by simp)) _ fuel 0 0 0 trivial
    intro _ _ b _ _
    exact report_endsClosed env _ _ b
  · exact die_endsClosed _ (by simp)

theorem io_stride_endsClosed (env : Env) (fuel : Nat) (io_size stride : Int)
    (ho : env.openOk = true)
    (hopen : Event.openFile ∈ (io_stride env fuel io_size stride).trace) :
    EndsClosed (io_stride env fuel io_size stride) := by
  have hQ := closed_endsClosed
  have hguard : ¬ (stride < MIN_STRIDE ∨ stride > MAX_STRIDE) := by
    intro h
    unfold io_stride at hopen
    rw [if_pos h] at hopen
    simp [Lab5.die] at hopen
  have hm : env.mallocOk 0 = true := by
    cases h : env.mallocOk 0 with
    | true => rfl
    | false =>
      exfalso
      unfold io_stride at hopen
      rw [if_neg hguard, h] at hopen
      simp [Run.after, Lab5.die] at hopen
  unfold io_stride
  rw [if_neg hguard, if_pos hm, if_pos ho]
  apply hQ.after _ _ (by simp [Event.notExit])
  apply hQ.after _ _ (by simp [Event.notExit])
  apply hQ.after _ _ (by simp [Event.notExit])
  split
  · apply hQ.after _ _ (by simp [Event.notExit])
    apply write_loop_rule hQ env io_size stride _ (fun _ _ => True)
      (fun _ _ _ _ => trivial) (fun _ _ _ _ => by simp [Event.notExit])
      (by simp [Event.notExit])
      (die_endsClosed _ (by simp)) (die_endsClosed _ (by simp)) _ fuel 0 0 trivial
    apply hQ.after _ _ (by simp [Event.notExit])
    apply read_loop_rule hQ env io_size stride _ (fun _ _ _ => True)
      (fun _ _ _ _ _ => trivial) (fun _ _ _ _ _ => by simp [Event.notExit])
      (die_endsClosed _ (by simp)) _ fuel 0 0 0 trivial
    intro _ _ b _ _
    exact report_endsClosed env _ _ b
  · exact die_endsClosed _ (by simp)

theorem random_io_endsClosed (env : Env) (fuel : Nat) (io_size : Int)
    (ho : env.openOk = true)
    (hopen : Event.openFile ∈ (random_io env fuel io_size).trace) :
    EndsClosed (random_io env fuel io_size) := by
  have hQ := closed_endsClosed
  have hguard : ¬ (io_size < MIN_IO_SIZE ∨ io_size > MAX_IO_SIZE) := by
    intro h
    unfold random_io at hopen
    rw [if_pos h] at hopen
    simp [Lab5.die] at hopen
  have hm0 : env.mallocOk 0 = true := by
    cases h : env.mallocOk 0 with
    | true => rfl
    | false =>
      exfalso
      unfold random_io at hopen
      rw [if_neg hguard, h] at hopen
      simp [Run.after, Lab5.die] at hopen
  have hm1 : env.mallocOk 1 = true := by
    cases h : env.mallocOk 1 with
    | true => rfl
    | false =>
      exfalso
      unfold random_io at hopen
      rw [if_neg hguard, if_pos hm0, h] at hopen
      simp [Run.after, Lab5.die] at hopen
  unfold random_io
  rw [if_neg hguard, if_pos hm0, if_pos hm1, if_pos ho]
  apply hQ.after _ _ (by simp [Event.notExit])
  apply hQ.after _ _ (by simp [Event.notExit])
  apply hQ.after _ _ (by simp [Event.notExit])
  apply hQ.after _ _ (by simp [Event.notExit])
  split
  · apply hQ.after _ _ (by simp [Event.notExit])
    apply random_write_loop_rule hQ env io_size _ (fun _ _ => True)
      (fun _ _ _ _ _ _ _ => trivial) (by simp [Event.notExit])
      (fun _ _ _ _ _ _ => by simp [Event.notExit]) (by simp [Event.notExit])
      (die_endsClosed _ (by simp)) (die_endsClosed _ (by simp)) _ fuel 0 _ trivial
    intro _ wo _ _
    apply hQ.after _ _ (by simp [Event.notExit])
    apply random_read_loop_rule hQ env io_size wo _ (fun _ _ => True)
      (fun _ _ _ _ => trivial) (fun _ _ _ => by simp [Event.notExit])
      (die_endsClosed _ (by simp)) _ fuel 0 0 trivial
    intro _ b _ _
    exact report_endsClosed env _ _ b
  · exact die_endsClosed _ (by simp)

theorem main_endsClosed (r : Run) (io_size : Int) (stride : Option Int)
    (hr : Event.openFile ∈ r.trace → EndsClosed r)
    (hopen : Event.openFile ∈ (Run.after [Event.printUsing io_size stride] r.return0).trace)
    (hend : ∃ c, (Run.after [Event.printUsing io_size stride] r.return0).status
      = Status.exited c) :
    Event.close ∈ (Run.after [Event.printUsing io_size stride] r.return0).trace := by
  have hopen' : Event.openFile ∈ r.trace := by
    simpa [Run.after, Run.return0_trace] using hopen
  have h := closed_endsClosed.after [Event.printUsing io_size stride] _
    (by simp [Event.notExit]) (closed_endsClosed.ret0 r (hr hopen'))
  exact h (Or.inl hend)

theorem io_size_main_endsClosed (env : Env) (fuel : Nat) (argc io_size : Int)
    (ho : env.openOk = true)
    (hopen : Event.openFile ∈ (io_size_main env fuel argc io_size).trace)
    (hend : ∃ c, (io_size_main env fuel argc io_size).status = Status.exited c) :
    Event.close ∈ (io_size_main env fuel argc io_size).trace := by
  unfold io_size_main at hopen hend ⊢
  split at hopen
  · simp [Lab5.die] at hopen
  split at hopen
  · simp [Lab5.die] at hopen
  next h1 h2 =>
  rw [if_neg h1, if_neg h2] at hend ⊢
  exact main_endsClosed _ _ _ (io_size_test_endsClosed env fuel io_size ho) hopen hend

theorem io_stride_main_endsClosed (env : Env) (fuel : Nat) (argc io_size stride : Int)
    (ho : env.openOk = true)
    (hopen : Event.openFile ∈ (io_stride_main env fuel argc io_size stride).trace)
    (hend : ∃ c, (io_stride_main env fuel argc io_size stride).status = Status.exited c) :
    Event.close ∈ (io_stride_main env fuel argc io_size stride).trace := by
  unfold io_stride_main at hopen hend ⊢
  split at hopen
  · simp [Lab5.die] at hopen
  next h1 =>
  rw [if_neg h1] at hend ⊢
  exact main_endsClosed _ _ _ (io_stride_endsClosed env fuel io_size stride ho) hopen hend

theorem random_io_main_endsClosed (env : Env) (fuel : Nat) (argc io_size : Int)
    (ho : env.openOk = true)
    (hopen : Event.openFile ∈ (random_io_main env fuel argc io_size).trace)
    (hend : ∃ c, (random_io_main env fuel argc io_size).status = Status.exited c) :
    Event.close ∈ (random_io_main env fuel argc io_size).trace := by
  unfold random_io_main at hopen hend ⊢
  split at hopen
  · simp [Lab5.die] at hopen
  split at hopen
  · simp [Lab5.die] at hopen
  next h1 h2 =>
  rw [if_neg h1, if_neg h2] at hend ⊢
  exact main_endsClosed _ _ _ (random_io_endsClosed env fuel io_size ho) hopen hend

/-! ## The three `main` functions when a transfer fails -/

theorem main_transferFailed (r : Run) (io_size : Int) (stride : Option Int)
    (h : transferFailed r.trace) :
    transferFailed (Run.after [Event.printUsing io_size stride] r.return0).trace := by
  apply transferFailed_after
  rw [Run.return0_trace]
  exact h

theorem io_size_main_transferFailed (env : Env) (fuel : Nat) (io_size : Int)
    (hmin : 4096 ≤ io_size) (hmax : io_size ≤ INT_MAX)
    (hm : env.mallocOk 0 = true) (ho : env.openOk = true) (hc : env.fcntlOk = true)
    (hfuel : iterations io_size ≤ fuel)
    (hfail : ∃ k : Nat, k < iterations io_size ∧
      (env.pwriteOk k = false ∨ env.fsyncOk k = false ∨ env.preadOk k = false)) :
    transferFailed (io_size_main env fuel 3 io_size).trace := by
  have hguard : ¬ io_size < MIN_IO_SIZE := by
    unfold MIN_IO_SIZE
    omega
  unfold io_size_main
  rw [if_neg (by decide), if_neg hguard]
  exact main_transferFailed _ _ _
    (io_size_test_transferFailed env fuel io_size hmin hmax hm ho hc hfuel hfail)

theorem io_stride_main_transferFailed (env : Env) (fuel : Nat) (io_size stride : Int)
    (hmin : 4096 ≤ stride) (hmax : stride ≤ 104857600)
    (hm : env.mallocOk 0 = true) (ho : env.openOk = true) (hc : env.fcntlOk = true)
    (hfuel : iterations stride ≤ fuel)
    (hfail : ∃ k : Nat, k < iterations stride ∧
      (env.pwriteOk k = false ∨ env.fsyncOk k = false ∨ env.preadOk k = false)) :
    transferFailed (io_stride_main env fuel 4 io_size stride).trace := by
  unfold io_stride_main
  rw [if_neg (by decide)]
  exact main_transferFailed _ _ _
    (io_stride_transferFailed env fuel io_size stride hmin hmax hm ho hc hfuel hfail)

theorem random_io_main_transferFailed (env : Env) (fuel : Nat) (io_size : Int)
    (hmin : 4096 ≤ io_size) (hmax : io_size ≤ 104857600)
    (hm0 : env.mallocOk 0 = true) (hm1 : env.mallocOk 1 = true)
    (ho : env.openOk = true) (hc : env.fcntlOk = true)
    (hfuel : randomIterations io_size ≤ fuel)
    (hfail : ∃ k : Nat, k < randomIterations io_size ∧
      (env.pwriteOk k = false ∨ env.fsyncOk k = false ∨ env.preadOk k = false)) :
    transferFailed (random_io_main env fuel 3 io_size).trace := by
  have hguard : ¬ (io_size < MIN_IO_SIZE ∨ io_size > MAX_IO_SIZE) := by
    unfold MIN_IO_SIZE MAX_IO_SIZE
    omega
  unfold random_io_main
  rw [if_neg (by decide), if_neg hguard]
  exact main_transferFailed _ _ _
    (random_io_transferFailed env fuel io_size hmin hmax hm0 hm1 ho hc hfuel hfail)

/-! ## The claims -/

/-- C1: in `random_io`, for every `io_size` with `4096 ≤ io_size ≤ 104857600` and
every sequence of `rand()` values, a run in which no call fails returns, makes
exactly `FILE_SIZE / io_size` writes and then exactly as many reads, the read
offsets are the write offsets in the same order (the `i`-th being the offset
`gen_rand` computes from the `i`-th `rand()` value), `rand()` is called once per
write and never in the read phase, and no array index is out of bounds (the
run does not end as undefined). -/
theorem random_io_replays_offsets (env : Env) (fuel : Nat) (io_size : Int)
    (hmin : 4096 ≤ io_size) (hmax : io_size ≤ 104857600) (henv : env.NoFailure)
    (hfuel : randomIterations io_size ≤ fuel) :
    ((randomIterations io_size : Nat) : Int) = FILE_SIZE / io_size ∧
    (random_io env fuel io_size).status = Status.returned ∧
    (writeOffsets (random_io env fuel io_size).trace).length = randomIterations io_size ∧
    (readOffsets (random_io env fuel io_size).trace).length = randomIterations io_size ∧
    readOffsets (random_io env fuel io_size).trace
      = writeOffsets (random_io env fuel io_size).trace ∧
    (∀ i : Nat, i < randomIterations io_size →
      (writeOffsets (random_io env fuel io_size).trace)[i]?
        = gen_rand (env.rand i) io_size) ∧
    randCalls (random_io env fuel io_size).trace = randomIterations io_size ∧
    (∃ w rd : List Event, (random_io env fuel io_size).trace = w ++ rd ∧
      readOffsets w = [] ∧ writeOffsets rd = [] ∧ randCalls rd = 0) := by
  obtain ⟨hm, ho, hc, hw, hs, hr, ht⟩ := henv
  have hrun := random_io_ok env fuel io_size hmin hmax hm ho hc hw hs hr hfuel
  rw [report_ok _ _ _ _ ht] at hrun
  have hpos : 0 < io_size := by omega
  have hW : writeOffsets (random_io env fuel io_size).trace
      = (List.range (randomIterations io_size)).map (fun k : Nat => drawn env io_size (0 + k)) := by
    rw [hrun]
    simp [Run.after, reportEvents, writeOffsets_append, writeOffsets_randomWrites,
      writeOffsets_randomReads, writeOffsets]
  have hR : readOffsets (random_io env fuel io_size).trace
      = (List.range (randomIterations io_size)).map (fun k : Nat => drawn env io_size (0 + k)) := by
    rw [hrun]
    simp [Run.after, reportEvents, readOffsets_append, readOffsets_randomWrites,
      readOffsets_randomReads, readOffsets]
  refine ⟨?_, ?_, ?_, ?_, ?_, ?_, ?_, ?_⟩
  · rw [randomIterations_cast hpos,
      Int.tdiv_eq_ediv (by unfold FILE_SIZE; omega) (le_of_lt hpos)]
  · rw [hrun]
    rfl
  · rw [hW]
    simp
  · rw [hR]
    simp
  · rw [hW, hR]
  · intro i hi
    rw [hW, gen_rand_eq env io_size i hmin hmax]
    simp [hi]
  · rw [hrun]
    simp [Run.after, reportEvents, randCalls_append, randCalls_randomWrites,
      randCalls_randomReads, randCalls]
  · refine ⟨[Event.malloc Buf.buffer io_size, Event.memset io_size,
        Event.malloc Buf.write_offsets (Int.tdiv FILE_SIZE io_size * 8),
        Event.openFile, Event.noCache, Event.timey_wimey]
        ++ randomWrites env io_size 0 (randomIterations io_size),
      [Event.timey_wimey, Event.lseek, Event.timey_wimey]
        ++ randomReads env io_size 0 (randomIterations io_size)
        ++ reportEvents env [Event.printIoSize io_size]
            [Event.free Buf.buffer, Event.free Buf.write_offsets]
            ((randomIterations io_size : Int) * io_size), ?_, ?_, ?_, ?_⟩
    · rw [hrun]
      simp [Run.after]
    · simp [readOffsets_append, readOffsets_randomWrites, readOffsets]
    · simp [reportEvents, writeOffsets_append, writeOffsets_randomReads, writeOffsets]
    · simp [reportEvents, randCalls_append, randCalls_randomReads, randCalls]

/-- Witness of C1: `io_size = 65536` gives 16384 writes and then 16384 reads at
the same offsets. -/
theorem random_io_replays_offsets_witness :
    (4096 : Int) ≤ 65536 ∧ (65536 : Int) ≤ 104857600 ∧
    (writeOffsets (random_io okEnv 16384 65536).trace).length = 16384 ∧
    (readOffsets (random_io okEnv 16384 65536).trace).length = 16384 ∧
    readOffsets (random_io okEnv 16384 65536).trace
      = writeOffsets (random_io okEnv 16384 65536).trace := by
  have hn : randomIterations 65536 = 16384 := by decide
  have h := random_io_replays_offsets okEnv 16384 65536 (by decide) (by decide)
    okEnv_noFailure (by rw [hn])
  rw [hn] at h
  exact ⟨by decide, by decide, h.2.2.1, h.2.2.2.1, h.2.2.2.2.1⟩

/-- C2, as stated, fails for `io_stride`: with `stride = 104857601 ≥ 4096` and
no failing call the run is rejected before any write, while
`ceil(FILE_SIZE / stride) = 11`. -/
theorem io_stride_large_stride_no_writes :
    okEnv.NoFailure ∧ (4096 : Int) ≤ 104857601 ∧
    io_stride okEnv 11 4096 104857601 = die [Event.eprint Diag.strideRange] ∧
    (writeOffsets (io_stride okEnv 11 4096 104857601).trace).length = 0 ∧
    ⌈(FILE_SIZE : ℚ) / ((104857601 : Int) : ℚ)⌉ = 11 := by
  refine ⟨okEnv_noFailure, by decide, by decide, by decide, ?_⟩
  rw [← iterations_eq_ceil (by decide)]
  decide

/-- C2, amended: in `io_size_test` (step = `io_size`, `4096 ≤ io_size`) and in
`io_stride` (step = `stride`, `4096 ≤ stride ≤ 104857600`), a run in which no
call fails issues exactly `ceil(FILE_SIZE / step)` writes, the `k`-th write is
at offset `k * step`, every offset is below `FILE_SIZE`, and the read phase
issues reads at exactly the same offsets in the same order, after the writes;
for `stride > 104857600` the run of `io_stride` is the rejection by the stride
check and issues no write. -/
theorem sequential_and_strided_offsets (env : Env) (fuel : Nat) (io_size step : Int)
    (hmin : 4096 ≤ step) (hlo : INT_MIN ≤ io_size) (hhi : io_size ≤ INT_MAX)
    (henv : env.NoFailure) (hfuel : iterations step ≤ fuel) :
    ((iterations step : Nat) : Int) = ⌈(FILE_SIZE : ℚ) / (step : ℚ)⌉ ∧
    (∀ k : Nat, k < iterations step → (k : Int) * step < FILE_SIZE) ∧
    (step ≤ INT_MAX →
      writeOffsets (io_size_test env fuel step).trace
          = (List.range (iterations step)).map (fun k : Nat => (k : Int) * step) ∧
      readOffsets (io_size_test env fuel step).trace
          = writeOffsets (io_size_test env fuel step).trace ∧
      ∃ w rd : List Event, (io_size_test env fuel step).trace = w ++ rd ∧
        readOffsets w = [] ∧ writeOffsets rd = []) ∧
    (step ≤ 104857600 →
      writeOffsets (io_stride env fuel io_size step).trace
          = (List.range (iterations step)).map (fun k : Nat => (k : Int) * step) ∧
      readOffsets (io_stride env fuel io_size step).trace
          = writeOffsets (io_stride env fuel io_size step).trace ∧
      ∃ w rd : List Event, (io_stride env fuel io_size step).trace = w ++ rd ∧
        readOffsets w = [] ∧ writeOffsets rd = []) ∧
    (104857600 < step →
      io_stride env fuel io_size step
          = ⟨[Event.eprint Diag.strideRange, Event.exit 1], Status.exited 1⟩ ∧
      writeOffsets (io_stride env fuel io_size step).trace = []) := by
  obtain ⟨hm, ho, hc, hw, hs, hr, ht⟩ := henv
  have hpos : 0 < step := by omega
  refine ⟨iterations_eq_ceil hpos, (iterations_spec hpos).1, ?_, ?_, ?_⟩
  rotate_left 2
  · intro hbig
    have hguard : step < MIN_STRIDE ∨ step > MAX_STRIDE := by
      unfold MIN_STRIDE MAX_STRIDE
      omega
    have hrun : io_stride env fuel io_size step
        = ⟨[Event.eprint Diag.strideRange, Event.exit 1], Status.exited 1⟩ := by
      simp [io_stride, hguard, Lab5.die]
    refine ⟨hrun, ?_⟩
    rw [hrun]
    rfl
  · intro hmax
    have hrun := io_size_test_ok env fuel step hmin hmax (hm 0) ho hc hw hs hr hfuel
    rw [report_ok _ _ _ _ ht] at hrun
    have hW : writeOffsets (io_size_test env fuel step).trace
        = (List.range (iterations step)).map (fun k : Nat => (k : Int) * step) := by
      rw [hrun]
      simp [Run.after, reportEvents, writeOffsets_append, writeOffsets_writes,
        writeOffsets_reads, writeOffsets]
    have hR : readOffsets (io_size_test env fuel step).trace
        = (List.range (iterations step)).map (fun k : Nat => (k : Int) * step) := by
      rw [hrun]
      simp [Run.after, reportEvents, readOffsets_append, readOffsets_writes,
        readOffsets_reads, readOffsets]
    refine ⟨hW, by rw [hW, hR], ?_⟩
    refine ⟨[Event.malloc Buf.buffer step, Event.memset step, Event.openFile,
        Event.noCache, Event.timey_wimey] ++ writes step step 0 (iterations step),
      [Event.timey_wimey, Event.lseek, Event.timey_wimey] ++ reads step step 0 (iterations step)
        ++ reportEvents env [Event.printIoSize step] [Event.free Buf.buffer]
            ((iterations step : Int) * step), ?_, ?_, ?_⟩
    · rw [hrun]
      simp [Run.after]
    · simp [readOffsets_append, readOffsets_writes, readOffsets]
    · simp [reportEvents, writeOffsets_append, writeOffsets_reads, writeOffsets]
  · intro hmax
    have hrun := io_stride_ok env fuel io_size step hmin hmax hlo hhi (hm 0) ho hc hw hs hr hfuel
    rw [report_ok _ _ _ _ ht] at hrun
    have hW : writeOffsets (io_stride env fuel io_size step).trace
        = (List.range (iterations step)).map (fun k : Nat => (k : Int) * step) := by
      rw [hrun]
      simp [Run.after, reportEvents, writeOffsets_append, writeOffsets_writes,
        writeOffsets_reads, writeOffsets]
    have hR : readOffsets (io_stride env fuel io_size step).trace
        = (List.range (iterations step)).map (fun k : Nat => (k : Int) * step) := by
      rw [hrun]
      simp [Run.after, reportEvents, readOffsets_append, readOffsets_writes,
        readOffsets_reads, readOffsets]
    refine ⟨hW, by rw [hW, hR], ?_⟩
    refine ⟨[Event.malloc Buf.buffer io_size, Event.memset io_size, Event.openFile,
        Event.noCache, Event.timey_wimey] ++ writes io_size step 0 (iterations step),
      [Event.timey_wimey, Event.lseek, Event.timey_wimey] ++ reads io_size step 0 (iterations step)
        ++ reportEvents env [] [Event.free Buf.buffer]
            ((iterations step : Int) * io_size), ?_, ?_, ?_⟩
    · rw [hrun]
      simp [Run.after]
    · simp [readOffsets_append, readOffsets_writes, readOffsets]
    · simp [reportEvents, writeOffsets_append, writeOffsets_reads, writeOffsets]

/-- Witness of C2: `io_size = 4096` sequential gives 262144 writes and 262144
reads; `io_size = 4096` with `stride = 8192` gives 131072 writes and reads, the
first three at offsets 0, 8192 and 16384. -/
theorem sequential_and_strided_offsets_witness :
    (writeOffsets (io_size_test okEnv 262144 4096).trace).length = 262144 ∧
    (readOffsets (io_size_test okEnv 262144 4096).trace).length = 262144 ∧
    (writeOffsets (io_stride okEnv 131072 4096 8192).trace).length = 131072 ∧
    (readOffsets (io_stride okEnv 131072 4096 8192).trace).length = 131072 ∧
    (writeOffsets (io_stride okEnv 131072 4096 8192).trace)[0]? = some 0 ∧
    (writeOffsets (io_stride okEnv 131072 4096 8192).trace)[1]? = some 8192 ∧
    (writeOffsets (io_stride okEnv 131072 4096 8192).trace)[2]? = some 16384 := by
  have hn1 : iterations 4096 = 262144 := by decide
  have hn2 : iterations 8192 = 131072 := by decide
  have h1 := sequential_and_strided_offsets okEnv 262144 4096 4096 (by decide) (by decide)
    (by decide) okEnv_noFailure (by rw [hn1])
  have h2 := sequential_and_strided_offsets okEnv 131072 4096 8192 (by decide) (by decide)
    (by decide) okEnv_noFailure (by rw [hn2])
  obtain ⟨hw1, hr1, -⟩ := h1.2.2.1 (by decide)
  obtain ⟨hw2, hr2, -⟩ := h2.2.2.2.1 (by decide)
  rw [hn1] at hw1
  rw [hn2] at hw2
  refine ⟨?_, ?_, ?_, ?_, ?_, ?_, ?_⟩
  · rw [hw1]; simp
  · rw [hr1, hw1]; simp
  · rw [hw2]; simp
  · rw [hr2, hw2]; simp
  · rw [hw2]; simp
  · rw [hw2]; simp
  · rw [hw2]; simp

/-- C3, as stated, fails: in the sequential program with `io_size = 2^30`, when
the one write succeeds and the `pread` fails, the run closes the descriptor and
exits with status 1 without ever calling `ftruncate`. -/
theorem pread_failure_skips_ftruncate :
    (io_size_main preadFailsEnv 1 3 1073741824).status = Status.exited 1 ∧
    Event.pwrite 1073741824 0 ∈ (io_size_main preadFailsEnv 1 3 1073741824).trace ∧
    Event.eprint Diag.pread ∈ (io_size_main preadFailsEnv 1 3 1073741824).trace ∧
    Event.close ∈ (io_size_main preadFailsEnv 1 3 1073741824).trace ∧
    Event.ftruncate ∉ (io_size_main preadFailsEnv 1 3 1073741824).trace := by
  decide

/-- C3, amended: in each of the three programs, every run in which `open`
succeeds and which ends (by `exit` or by the return of `main`) has called
`close(fd)`, whatever the outcome; but `ftruncate(fd, 0)` is called only when
no transfer fails.  A run of an accepted configuration in which no call fails
ends with `ftruncate(fd, 0)`, then `close(fd)`, then the `free` calls, and exit
status 0.  A run of an accepted configuration in which the allocations, `open`
and `fcntl` succeed and some `pwrite`, `fsync` or `pread` of the two phases
fails prints the diagnostic of a failed transfer, calls `close(fd)` and exits
with status 1 without calling `ftruncate`; and every run whose trace holds
such a diagnostic closes the descriptor and exits with status 1 without
calling `ftruncate`. -/
theorem truncate_only_without_transfer_failure (env : Env) (fuel : Nat)
    (argc io_size stride : Int) :
    (env.NoFailure → 4096 ≤ io_size → io_size ≤ INT_MAX → iterations io_size ≤ fuel →
      (io_size_main env fuel 3 io_size).status = Status.exited 0 ∧
      ∃ pre, (io_size_main env fuel 3 io_size).trace
        = pre ++ [Event.ftruncate, Event.close, Event.free Buf.buffer]) ∧
    (env.NoFailure → INT_MIN ≤ io_size → io_size ≤ INT_MAX → 4096 ≤ stride →
      stride ≤ 104857600 → iterations stride ≤ fuel →
      (io_stride_main env fuel 4 io_size stride).status = Status.exited 0 ∧
      ∃ pre, (io_stride_main env fuel 4 io_size stride).trace
        = pre ++ [Event.ftruncate, Event.close, Event.free Buf.buffer]) ∧
    (env.NoFailure → 4096 ≤ io_size → io_size ≤ 104857600 →
      randomIterations io_size ≤ fuel →
      (random_io_main env fuel 3 io_size).status = Status.exited 0 ∧
      ∃ pre, (random_io_main env fuel 3 io_size).trace
        = pre ++ [Event.ftruncate, Event.close, Event.free Buf.buffer,
            Event.free Buf.write_offsets]) ∧
    (transferFailed (io_size_main env fuel argc io_size).trace →
      Event.ftruncate ∉ (io_size_main env fuel argc io_size).trace ∧
      Event.close ∈ (io_size_main env fuel argc io_size).trace ∧
      (io_size_main env fuel argc io_size).status = Status.exited 1) ∧
    (transferFailed (io_stride_main env fuel argc io_size stride).trace →
      Event.ftruncate ∉ (io_stride_main env fuel argc io_size stride).trace ∧
      Event.close ∈ (io_stride_main env fuel argc io_size stride).trace ∧
      (io_stride_main env fuel argc io_size stride).status = Status.exited 1) ∧
    (transferFailed (random_io_main env fuel argc io_size).trace →
      Event.ftruncate ∉ (random_io_main env fuel argc io_size).trace ∧
      Event.close ∈ (random_io_main env fuel argc io_size).trace ∧
      (random_io_main env fuel argc io_size).status = Status.exited 1) ∧
    (4096 ≤ io_size → io_size ≤ INT_MAX → env.mallocOk 0 = true → env.openOk = true →
      env.fcntlOk = true → iterations io_size ≤ fuel →
      (∃ k : Nat, k < iterations io_size ∧
        (env.pwriteOk k = false ∨ env.fsyncOk k = false ∨ env.preadOk k = false)) →
      transferFailed (io_size_main env fuel 3 io_size).trace ∧
      Event.ftruncate ∉ (io_size_main env fuel 3 io_size).trace ∧
      Event.close ∈ (io_size_main env fuel 3 io_size).trace ∧
      (io_size_main env fuel 3 io_size).status = Status.exited 1) ∧
    (4096 ≤ stride → stride ≤ 104857600 → env.mallocOk 0 = true → env.openOk = true →
      env.fcntlOk = true → iterations stride ≤ fuel →
      (∃ k : Nat, k < iterations stride ∧
        (env.pwriteOk k = false ∨ env.fsyncOk k = false ∨ env.preadOk k = false)) →
      transferFailed (io_stride_main env fuel 4 io_size stride).trace ∧
      Event.ftruncate ∉ (io_stride_main env fuel 4 io_size stride).trace ∧
      Event.close ∈ (io_stride_main env fuel 4 io_size stride).trace ∧
      (io_stride_main env fuel 4 io_size stride).status = Status.exited 1) ∧
    (4096 ≤ io_size → io_size ≤ 104857600 → env.mallocOk 0 = true →
      env.mallocOk 1 = true → env.openOk = true → env.fcntlOk = true →
      randomIterations io_size ≤ fuel →
      (∃ k : Nat, k < randomIterations io_size ∧
        (env.pwriteOk k = false ∨ env.fsyncOk k = false ∨ env.preadOk k = false)) →
      transferFailed (random_io_main env fuel 3 io_size).trace ∧
      Event.ftruncate ∉ (random_io_main env fuel 3 io_size).trace ∧
      Event.close ∈ (random_io_main env fuel 3 io_size).trace ∧
      (random_io_main env fuel 3 io_size).status = Status.exited 1) ∧
    (env.openOk = true → Event.openFile ∈ (io_size_main env fuel argc io_size).trace →
      (∃ c, (io_size_main env fuel argc io_size).status = Status.exited c) →
      Event.close ∈ (io_size_main env fuel argc io_size).trace) ∧
    (env.openOk = true →
      Event.openFile ∈ (io_stride_main env fuel argc io_size stride).trace →
      (∃ c, (io_stride_main env fuel argc io_size stride).status = Status.exited c) →
      Event.close ∈ (io_stride_main env fuel argc io_size stride).trace) ∧
    (env.openOk = true → Event.openFile ∈ (random_io_main env fuel argc io_size).trace →
      (∃ c, (random_io_main env fuel argc io_size).status = Status.exited c) →
      Event.close ∈ (random_io_main env fuel argc io_size).trace) := by
  refine ⟨?_, ?_, ?_, io_size_main_abortsUntruncated env fuel argc io_size,
    io_stride_main_abortsUntruncated env fuel argc io_size stride,
    random_io_main_abortsUntruncated env fuel argc io_size, ?_, ?_, ?_,
    io_size_main_endsClosed env fuel argc io_size,
    io_stride_main_endsClosed env fuel argc io_size stride,
    random_io_main_endsClosed env fuel argc io_size⟩
  · intro henv hmin hmax hfuel
    rw [io_size_main_ok env fuel io_size hmin hmax henv hfuel]
    refine ⟨rfl, ?_⟩
    exact ⟨[Event.printUsing io_size none, Event.malloc Buf.buffer io_size,
        Event.memset io_size, Event.openFile, Event.noCache, Event.timey_wimey]
      ++ writes io_size io_size 0 (iterations io_size)
      ++ [Event.timey_wimey, Event.lseek, Event.timey_wimey]
      ++ reads io_size io_size 0 (iterations io_size)
      ++ [Event.timey_wimey, Event.printIoSize io_size,
          Event.printWrite FILE_SIZE (wrapLL (env.timey_wimey 1 - env.timey_wimey 0)),
          Event.printRead ((iterations io_size : Int) * io_size)
            (wrapLL (env.timey_wimey 3 - env.timey_wimey 2))],
      by simp [reportEvents]⟩
  · intro henv hlo hhi hmin hmax hfuel
    rw [io_stride_main_ok env fuel io_size stride hmin hmax hlo hhi henv hfuel]
    refine ⟨rfl, ?_⟩
    exact ⟨[Event.printUsing io_size (some stride), Event.malloc Buf.buffer io_size,
        Event.memset io_size, Event.openFile, Event.noCache, Event.timey_wimey]
      ++ writes io_size stride 0 (iterations stride)
      ++ [Event.timey_wimey, Event.lseek, Event.timey_wimey]
      ++ reads io_size stride 0 (iterations stride)
      ++ [Event.timey_wimey,
          Event.printWrite FILE_SIZE (wrapLL (env.timey_wimey 1 - env.timey_wimey 0)),
          Event.printRead ((iterations stride : Int) * io_size)
            (wrapLL (env.timey_wimey 3 - env.timey_wimey 2))],
      by simp [reportEvents]⟩
  · intro henv hmin hmax hfuel
    rw [random_io_main_ok env fuel io_size hmin hmax henv hfuel]
    refine ⟨rfl, ?_⟩
    exact ⟨[Event.printUsing io_size none, Event.malloc Buf.buffer io_size,
        Event.memset io_size,
        Event.malloc Buf.write_offsets (Int.tdiv FILE_SIZE io_size * 8),
        Event.openFile, Event.noCache, Event.timey_wimey]
      ++ randomWrites env io_size 0 (randomIterations io_size)
      ++ [Event.timey_wimey, Event.lseek, Event.timey_wimey]
      ++ randomReads env io_size 0 (randomIterations io_size)
      ++ [Event.timey_wimey, Event.printIoSize io_size,
          Event.printWrite FILE_SIZE (wrapLL (env.timey_wimey 1 - env.timey_wimey 0)),
          Event.printRead ((randomIterations io_size : Int) * io_size)
            (wrapLL (env.timey_wimey 3 - env.timey_wimey 2))],
      by simp [reportEvents]⟩
  · intro hmin hmax hm ho hc hfuel hfail
    have h := io_size_main_transferFailed env fuel io_size hmin hmax hm ho hc hfuel hfail
    exact ⟨h, io_size_main_abortsUntruncated env fuel 3 io_size h⟩
  · intro hmin hmax hm ho hc hfuel hfail
    have h := io_stride_main_transferFailed env fuel io_size stride hmin hmax hm ho hc
      hfuel hfail
    exact ⟨h, io_stride_main_abortsUntruncated env fuel 4 io_size stride h⟩
  · intro hmin hmax hm0 hm1 ho hc hfuel hfail
    have h := random_io_main_transferFailed env fuel io_size hmin hmax hm0 hm1 ho hc
      hfuel hfail
    exact ⟨h, random_io_main_abortsUntruncated env fuel 3 io_size h⟩

/-- Witness of the amended C3: with `io_size = 2^30` the sequential program ends
with `ftruncate`, `close`, `free` and status 0 when no call fails; when the
`pread` fails it prints the diagnostic, closes and exits with status 1 without
`ftruncate`; and when `fcntl` or `ftruncate` fails it still closes the
descriptor before it exits. -/
theorem truncate_only_without_transfer_failure_witness :
    ((io_size_main okEnv 1 3 1073741824).status = Status.exited 0 ∧
      ∃ pre, (io_size_main okEnv 1 3 1073741824).trace
        = pre ++ [Event.ftruncate, Event.close, Event.free Buf.buffer]) ∧
    (Event.ftruncate ∉ (io_size_main preadFailsEnv 1 3 1073741824).trace ∧
      Event.close ∈ (io_size_main preadFailsEnv 1 3 1073741824).trace ∧
      (io_size_main preadFailsEnv 1 3 1073741824).status = Status.exited 1) ∧
    (preadFailsEnv.preadOk 0 = false ∧
      transferFailed (io_size_main preadFailsEnv 1 3 1073741824).trace ∧
      Event.ftruncate ∉ (io_size_main preadFailsEnv 1 3 1073741824).trace ∧
      Event.close ∈ (io_size_main preadFailsEnv 1 3 1073741824).trace ∧
      (io_size_main preadFailsEnv 1 3 1073741824).status = Status.exited 1) ∧
    (fcntlFailsEnv.fcntlOk = false ∧
      (io_size_main fcntlFailsEnv 1 3 1073741824).status = Status.exited 1 ∧
      Event.close ∈ (io_size_main fcntlFailsEnv 1 3 1073741824).trace) ∧
    (ftruncateFailsEnv.ftruncateOk = false ∧
      (io_size_main ftruncateFailsEnv 1 3 1073741824).status = Status.exited 1 ∧
      Event.close ∈ (io_size_main ftruncateFailsEnv 1 3 1073741824).trace) :=
  ⟨(truncate_only_without_transfer_failure okEnv 1 3 1073741824 4096).1
      okEnv_noFailure (by decide) (by decide) (by decide),
    (truncate_only_without_transfer_failure preadFailsEnv 1 3 1073741824 4096).2.2.2.1
      (Or.inr (Or.inr (by decide))),
    ⟨rfl,
      (truncate_only_without_transfer_failure preadFailsEnv 1 3 1073741824
        4096).2.2.2.2.2.2.1 (by decide) (by decide) rfl rfl rfl (by decide)
        ⟨0, by decide, Or.inr (Or.inr rfl)⟩⟩,
    ⟨rfl, by decide,
      (truncate_only_without_transfer_failure fcntlFailsEnv 1 3 1073741824
        4096).2.2.2.2.2.2.2.2.2.1 rfl (by decide) ⟨1, by decide⟩⟩,
    ⟨rfl, by decide,
      (truncate_only_without_transfer_failure ftruncateFailsEnv 1 3 1073741824
        4096).2.2.2.2.2.2.2.2.2.1 rfl (by decide) ⟨1, by decide⟩⟩⟩

/-- C4 (defect of io_stride.c): the sequential and the random program reject
`io_size = 4095` before any allocation, but the strided program accepts it: with
`io_size = 4095` and `stride = 8192` every run allocates a buffer of 4095 bytes
right after the first output line, and a run in which the calls succeed goes on
to open the file and to write 4095 bytes at offset 0. -/
theorem io_stride_main_accepts_small_io_size (env : Env) (fuel : Nat) :
    io_size_main env fuel 3 4095 = die [Event.eprint Diag.ioSizeMin] ∧
    random_io_main env fuel 3 4095 = die [Event.eprint Diag.ioSizeRange] ∧
    (io_stride_main env fuel 4 4095 8192).trace.take 2
      = [Event.printUsing 4095 (some 8192), Event.malloc Buf.buffer 4095] ∧
    Event.eprint Diag.ioSizeMin ∉ (io_stride_main okEnv 1 4 4095 8192).trace ∧
    Event.openFile ∈ (io_stride_main okEnv 1 4 4095 8192).trace ∧
    Event.pwrite 4095 0 ∈ (io_stride_main okEnv 1 4 4095 8192).trace := by
  refine ⟨?_, ?_, ?_, by decide, by decide, by decide⟩
  · simp [io_size_main, MIN_IO_SIZE]
  · simp [random_io_main, MIN_IO_SIZE]
  · have hguard : ¬ ((8192 : Int) < MIN_STRIDE ∨ (8192 : Int) > MAX_STRIDE) := by decide
    simp [io_stride_main, io_stride, hguard, Run.after, Run.return0_trace]

/-- C5: in the strided program, for every `io_size` and every `stride`, the run
is the rejection on account of the stride (the stride diagnostic, then
`exit(1)`, with no allocation and no `open` before it) if and only if
`stride < 4096` or `stride > 104857600`; otherwise the first call of
`io_stride` is the allocation of the buffer. -/
theorem stride_rejected_iff (env : Env) (fuel : Nat) (io_size stride : Int) :
    (io_stride env fuel io_size stride
        = ⟨[Event.eprint Diag.strideRange, Event.exit 1], Status.exited 1⟩
      ↔ (stride < 4096 ∨ stride > 104857600)) ∧
    (io_stride_main env fuel 4 io_size stride
        = ⟨[Event.printUsing io_size (some stride), Event.eprint Diag.strideRange,
            Event.exit 1], Status.exited 1⟩
      ↔ (stride < 4096 ∨ stride > 104857600)) ∧
    ((io_stride env fuel io_size stride).trace.head? = some (Event.malloc Buf.buffer io_size)
      ↔ ¬ (stride < 4096 ∨ stride > 104857600)) := by
  by_cases h : stride < 4096 ∨ stride > 104857600
  · have hguard : stride < MIN_STRIDE ∨ stride > MAX_STRIDE := by
      unfold MIN_STRIDE MAX_STRIDE
      omega
    have hrun : io_stride env fuel io_size stride
        = ⟨[Event.eprint Diag.strideRange, Event.exit 1], Status.exited 1⟩ := by
      simp [io_stride, hguard, Lab5.die]
    refine ⟨?_, ?_, ?_⟩
    · simp [hrun, h]
    · simp [io_stride_main, hrun, h, Run.after, Run.return0]
    · simp [hrun, h]
  · have hguard : ¬ (stride < MIN_STRIDE ∨ stride > MAX_STRIDE) := by
      unfold MIN_STRIDE MAX_STRIDE
      omega
    have hhead : (io_stride env fuel io_size stride).trace.head?
        = some (Event.malloc Buf.buffer io_size) := by
      simp [io_stride, hguard, Run.after]
    refine ⟨?_, ?_, ?_⟩
    · simp only [h, iff_false]
      intro hrun
      rw [hrun] at hhead
      simp at hhead
    · simp only [h, iff_false]
      intro hrun
      have htr := congrArg Run.trace hrun
      have hmain : (io_stride_main env fuel 4 io_size stride).trace
          = Event.printUsing io_size (some stride)
            :: (io_stride env fuel io_size stride).trace := by
        simp [io_stride_main, Run.after_trace, Run.return0_trace]
      rw [hmain] at htr
      simp only [List.cons.injEq, true_and] at htr
      rw [htr] at hhead
      simp at hhead
    · simp [hhead, h]

/-- C6, as stated, fails: the sequential program accepts `io_size = 104857600`,
and when no call fails it writes `io_size` bytes at offset 1048576000, which
end beyond `FILE_SIZE`. -/
theorem last_sequential_write_overshoots :
    (io_size_main okEnv 11 3 104857600).status = Status.exited 0 ∧
    Event.pwrite 104857600 1048576000 ∈ (io_size_main okEnv 11 3 104857600).trace ∧
    ¬ ((1048576000 : Int) + 104857600 ≤ FILE_SIZE) := by
  decide

/-- C6, amended: in the sequential program (step = `io_size`) and the strided
program (step = `stride`), in every run, every write and read is of `io_size`
bytes at an offset that is a non-negative multiple of the step and is below
`FILE_SIZE`; and `offset + io_size ≤ FILE_SIZE` holds for every transfer when
the step divides `FILE_SIZE` and `io_size ≤ step`. -/
theorem transfers_on_grid (env : Env) (fuel : Nat) (argc io_size stride : Int)
    (hlo : INT_MIN ≤ io_size) (hhi : io_size ≤ INT_MAX) :
    Run.All (Event.onGrid io_size io_size) (io_size_main env fuel argc io_size) ∧
    Run.All (Event.onGrid io_size stride) (io_stride_main env fuel argc io_size stride) ∧
    (io_size ∣ FILE_SIZE →
      Run.All (Event.withinFile io_size) (io_size_main env fuel argc io_size)) ∧
    (stride ∣ FILE_SIZE → io_size ≤ stride →
      Run.All (Event.withinFile io_size) (io_stride_main env fuel argc io_size stride)) := by
  have hgrid : ∀ step : Int, 4096 ≤ step → ∀ k : Nat, (k : Int) * step < FILE_SIZE →
      0 ≤ (k : Int) * step ∧ (k : Int) * step < FILE_SIZE ∧
        ∃ k' : Nat, (k : Int) * step = (k' : Int) * step :=
    fun step hs k hlt =>
      ⟨Int.mul_nonneg (Int.ofNat_nonneg k) (by omega), hlt, k, rfl⟩
  refine ⟨?_, ?_, ?_, ?_⟩
  · refine io_size_main_all (Event.onGrid io_size io_size) env fuel argc io_size hhi
      ?_ ?_ ?_ ?_ ?_
    · exact quiet_onGrid _ _
    · intro hmin k hlt
      exact ⟨rfl, hgrid io_size hmin k hlt⟩
    · intro hmin k hlt
      exact ⟨rfl, hgrid io_size hmin k hlt⟩
    · intro el
      trivial
    · intro _ el
      trivial
  · refine io_stride_main_all (Event.onGrid io_size stride) env fuel argc io_size stride
      hlo hhi ?_ ?_ ?_ ?_ ?_
    · exact quiet_onGrid _ _
    · intro hmin _ k hlt
      exact ⟨rfl, hgrid stride hmin k hlt⟩
    · intro hmin _ k hlt
      exact ⟨rfl, hgrid stride hmin k hlt⟩
    · intro el
      trivial
    · intro _ _ el
      trivial
  · intro hdvd
    refine io_size_main_all (Event.withinFile io_size) env fuel argc io_size hhi
      ?_ ?_ ?_ ?_ ?_
    · exact quiet_withinFile _
    · intro hmin k hlt
      exact ⟨rfl, grid_within_file (by omega) hdvd (le_refl _) k hlt⟩
    · intro hmin k hlt
      exact ⟨rfl, grid_within_file (by omega) hdvd (le_refl _) k hlt⟩
    · intro el
      trivial
    · intro _ el
      trivial
  · intro hdvd hle
    refine io_stride_main_all (Event.withinFile io_size) env fuel argc io_size stride
      hlo hhi ?_ ?_ ?_ ?_ ?_
    · exact quiet_withinFile _
    · intro hmin _ k hlt
      exact ⟨rfl, grid_within_file (by omega) hdvd hle k hlt⟩
    · intro hmin _ k hlt
      exact ⟨rfl, grid_within_file (by omega) hdvd hle k hlt⟩
    · intro el
      trivial
    · intro _ _ el
      trivial

/-- Witness of the amended C6: the sequential program with `io_size = 4096` and
the strided program with `io_size = 4096`, `stride = 8192`; both steps divide
`FILE_SIZE`, so every transfer ends within `FILE_SIZE`. -/
theorem transfers_on_grid_witness :
    INT_MIN ≤ 4096 ∧ (4096 : Int) ≤ INT_MAX ∧ (4096 : Int) ∣ FILE_SIZE ∧
    Run.All (Event.onGrid 4096 8192) (io_stride_main okEnv 131072 4 4096 8192) ∧
    Run.All (Event.withinFile 4096) (io_size_main okEnv 262144 3 4096) ∧
    Run.All (Event.withinFile 4096) (io_stride_main okEnv 131072 4 4096 8192) :=
  ⟨by decide, by decide, by decide,
    (transfers_on_grid okEnv 131072 4 4096 8192 (by decide) (by decide)).2.1,
    (transfers_on_grid okEnv 262144 3 4096 8192 (by decide) (by decide)).2.2.1 (by decide),
    (transfers_on_grid okEnv 131072 4 4096 8192 (by decide) (by decide)).2.2.2
      (by decide) (by decide)⟩

/-- C7: for every `io_size` with `4096 ≤ io_size ≤ 104857600` and every
non-negative value `r` of `rand()`, the modulus of `gen_rand` is strictly
positive, `gen_rand` returns an offset `off` with `0 ≤ off < FILE_SIZE - io_size`,
so `off + io_size ≤ FILE_SIZE`; and when `rand()` returns non-negative values,
every write and read of every run of `random_io` is of `io_size` bytes at an
offset with `0 ≤ off` and `off + io_size ≤ FILE_SIZE`. -/
theorem gen_rand_within_file (env : Env) (fuel : Nat) (r io_size : Int)
    (hmin : 4096 ≤ io_size) (hmax : io_size ≤ 104857600) (hr : 0 ≤ r)
    (hrand : ∀ k, 0 ≤ env.rand k) :
    0 < wrapInt (MAX_RANDOM_OFFSET - io_size) ∧
    wrapInt (MAX_RANDOM_OFFSET - io_size) = FILE_SIZE - 1 - io_size ∧
    (∃ off, gen_rand r io_size = some off ∧ 0 ≤ off ∧ off < FILE_SIZE - io_size ∧
      off + io_size ≤ FILE_SIZE) ∧
    Run.All (Event.withinFile io_size) (random_io env fuel io_size) := by
  have hm : wrapInt (MAX_RANDOM_OFFSET - io_size) = MAX_RANDOM_OFFSET - io_size := by
    apply wrapInt_eq <;> unfold MAX_RANDOM_OFFSET FILE_SIZE <;>
      first
        | (unfold INT_MIN; omega)
        | (unfold INT_MAX; omega)
  have hpos : 0 < MAX_RANDOM_OFFSET - io_size := by
    unfold MAX_RANDOM_OFFSET FILE_SIZE
    omega
  refine ⟨by rw [hm]; exact hpos, by rw [hm]; rfl, ?_, ?_⟩
  · have h1 := Int.tmod_nonneg (MAX_RANDOM_OFFSET - io_size) hr
    have h2 := Int.tmod_lt_of_pos r hpos
    refine ⟨Int.tmod r (MAX_RANDOM_OFFSET - io_size), ?_, h1, ?_, ?_⟩
    · simp [gen_rand, hm, ne_of_gt hpos]
    · unfold MAX_RANDOM_OFFSET at h2 ⊢
      omega
    · unfold MAX_RANDOM_OFFSET at h2 ⊢
      omega
  · refine random_io_all (Event.withinFile io_size) env fuel io_size ?_ ?_ ?_ ?_ ?_
    · exact quiet_withinFile _
    · intro _ _ k _
      have := drawn_within_file env io_size k hmin hmax (hrand k)
      exact ⟨rfl, this.1, this.2.2⟩
    · intro _ _ k _
      have := drawn_within_file env io_size k hmin hmax (hrand k)
      exact ⟨rfl, this.1, this.2.2⟩
    · intro el
      trivial
    · intro _ _ el
      trivial

/-- Witness of C7: `io_size = 65536` and `r = 2147483647`. -/
theorem gen_rand_within_file_witness :
    (4096 : Int) ≤ 65536 ∧ (65536 : Int) ≤ 104857600 ∧ (0 : Int) ≤ 2147483647 ∧
    (∀ k, 0 ≤ okEnv.rand k) ∧
    0 < wrapInt (MAX_RANDOM_OFFSET - 65536) ∧
    (∃ off, gen_rand 2147483647 65536 = some off ∧ 0 ≤ off ∧ off < FILE_SIZE - 65536 ∧
      off + 65536 ≤ FILE_SIZE) ∧
    Run.All (Event.withinFile 65536) (random_io okEnv 16384 65536) :=
  have hrand : ∀ k, 0 ≤ okEnv.rand k := fun k => Int.emod_nonneg _ (by decide)
  have h := gen_rand_within_file okEnv 16384 2147483647 65536 (by decide) (by decide)
    (by decide) hrand
  ⟨by decide, by decide, by decide, hrand, h.1, h.2.2.1, h.2.2.2⟩

/-- C8: in each of the three programs, for every accepted configuration and
every run in which no call fails, the byte count of the read-throughput line
(`bytes_processed`) is exactly the number of reads performed times `io_size`,
and every partial sum of its accumulation lies within the range of
`long long`. -/
theorem read_bytes_exact (env : Env) (fuel : Nat) (io_size stride : Int)
    (henv : env.NoFailure) (hlo : INT_MIN ≤ io_size) (hhi : io_size ≤ INT_MAX) :
    (4096 ≤ io_size → iterations io_size ≤ fuel →
      reportedReadBytes (io_size_main env fuel 3 io_size).trace
        = some (((readOffsets (io_size_main env fuel 3 io_size).trace).length : Int)
            * io_size) ∧
      ∀ j : Nat, j ≤ (readOffsets (io_size_main env fuel 3 io_size).trace).length →
        LLONG_MIN ≤ (j : Int) * io_size ∧ (j : Int) * io_size ≤ LLONG_MAX) ∧
    (4096 ≤ stride → stride ≤ 104857600 → iterations stride ≤ fuel →
      reportedReadBytes (io_stride_main env fuel 4 io_size stride).trace
        = some (((readOffsets (io_stride_main env fuel 4 io_size stride).trace).length : Int)
            * io_size) ∧
      ∀ j : Nat, j ≤ (readOffsets (io_stride_main env fuel 4 io_size stride).trace).length →
        LLONG_MIN ≤ (j : Int) * io_size ∧ (j : Int) * io_size ≤ LLONG_MAX) ∧
    (4096 ≤ io_size → io_size ≤ 104857600 → randomIterations io_size ≤ fuel →
      reportedReadBytes (random_io_main env fuel 3 io_size).trace
        = some (((readOffsets (random_io_main env fuel 3 io_size).trace).length : Int)
            * io_size) ∧
      ∀ j : Nat, j ≤ (readOffsets (random_io_main env fuel 3 io_size).trace).length →
        LLONG_MIN ≤ (j : Int) * io_size ∧ (j : Int) * io_size ≤ LLONG_MAX) := by
  refine ⟨?_, ?_, ?_⟩
  · intro hmin hfuel
    have hlen : (readOffsets (io_size_main env fuel 3 io_size).trace).length
        = iterations io_size := by
      rw [io_size_main_ok env fuel io_size hmin hhi henv hfuel]
      simp [reportEvents, readOffsets_append, readOffsets_writes, readOffsets_reads,
        readOffsets]
    rw [hlen]
    constructor
    · rw [io_size_main_ok env fuel io_size hmin hhi henv hfuel]
      simp [reportEvents, reportedReadBytes_append, reportedReadBytes_writes,
        reportedReadBytes_reads, reportedReadBytes, Option.or]
    · intro j hj
      simpa using bytes_in_range hmin hlo hhi j hj
  · intro hmin hmax hfuel
    have hlen : (readOffsets (io_stride_main env fuel 4 io_size stride).trace).length
        = iterations stride := by
      rw [io_stride_main_ok env fuel io_size stride hmin hmax hlo hhi henv hfuel]
      simp [reportEvents, readOffsets_append, readOffsets_writes, readOffsets_reads,
        readOffsets]
    rw [hlen]
    constructor
    · rw [io_stride_main_ok env fuel io_size stride hmin hmax hlo hhi henv hfuel]
      simp [reportEvents, reportedReadBytes_append, reportedReadBytes_writes,
        reportedReadBytes_reads, reportedReadBytes, Option.or]
    · intro j hj
      simpa using bytes_in_range hmin hlo hhi j hj
  · intro hmin hmax hfuel
    have hlen : (readOffsets (random_io_main env fuel 3 io_size).trace).length
        = randomIterations io_size := by
      rw [random_io_main_ok env fuel io_size hmin hmax henv hfuel]
      simp [reportEvents, readOffsets_append, readOffsets_randomWrites,
        readOffsets_randomReads, readOffsets]
    rw [hlen]
    constructor
    · rw [random_io_main_ok env fuel io_size hmin hmax henv hfuel]
      simp [reportEvents, reportedReadBytes_append, reportedReadBytes_randomWrites,
        reportedReadBytes_randomReads, reportedReadBytes, Option.or]
    · intro j hj
      simpa using random_bytes_in_range (by omega) j hj

/-- Witness of C8: the sequential program with `io_size = 4096`, the strided
program with `io_size = 4096` and `stride = 8192`, the random program with
`io_size = 65536`. -/
theorem read_bytes_exact_witness :
    okEnv.NoFailure ∧
    reportedReadBytes (io_size_main okEnv 262144 3 4096).trace
      = some (((readOffsets (io_size_main okEnv 262144 3 4096).trace).length : Int) * 4096) ∧
    reportedReadBytes (io_stride_main okEnv 131072 4 4096 8192).trace
      = some (((readOffsets (io_stride_main okEnv 131072 4 4096 8192).trace).length : Int)
          * 4096) ∧
    reportedReadBytes (random_io_main okEnv 16384 3 65536).trace
      = some (((readOffsets (random_io_main okEnv 16384 3 65536).trace).length : Int)
          * 65536) :=
  ⟨okEnv_noFailure,
    ((read_bytes_exact okEnv 262144 4096 8192 okEnv_noFailure (by decide) (by decide)).1
      (by decide) (by decide)).1,
    ((read_bytes_exact okEnv 131072 4096 8192 okEnv_noFailure (by decide) (by decide)).2.1
      (by decide) (by decide) (by decide)).1,
    ((read_bytes_exact okEnv 16384 65536 8192 okEnv_noFailure (by decide) (by decide)).2.2
      (by decide) (by decide) (by decide)).1⟩

/-- C9 (defect of the three programs): the numerator of the write-throughput
line is the constant `FILE_SIZE`, not the number of bytes written.  In the
strided program with `io_size = 4096` and `stride = 8192`, a run in which no
call fails makes 131072 writes of 4096 bytes, 536870912 bytes in all, and
reports 1073741824 bytes.  With `io_size = 104857600`, which does not divide
`FILE_SIZE`, the sequential program writes 1153433600 bytes and the random
program 1048576000 bytes, and both report 1073741824 bytes. -/
theorem io_stride_write_numerator_mismatch :
    (io_stride_main okEnv 131072 4 4096 8192).status = Status.exited 0 ∧
    (writeOffsets (io_stride_main okEnv 131072 4 4096 8192).trace).length = 131072 ∧
    bytesWritten (io_stride_main okEnv 131072 4 4096 8192).trace = 536870912 ∧
    reportedWriteBytes (io_stride_main okEnv 131072 4 4096 8192).trace = some 1073741824 ∧
    (io_size_main okEnv 11 3 104857600).status = Status.exited 0 ∧
    bytesWritten (io_size_main okEnv 11 3 104857600).trace = 1153433600 ∧
    reportedWriteBytes (io_size_main okEnv 11 3 104857600).trace = some 1073741824 ∧
    (random_io_main okEnv 10 3 104857600).status = Status.exited 0 ∧
    bytesWritten (random_io_main okEnv 10 3 104857600).trace = 1048576000 ∧
    reportedWriteBytes (random_io_main okEnv 10 3 104857600).trace = some 1073741824 := by
  have hn : iterations 8192 = 131072 := by decide
  have h := io_stride_main_written okEnv 131072 4096 8192 (by decide) (by decide) (by decide)
    (by decide) okEnv_noFailure (by rw [hn])
  rw [hn] at h
  exact ⟨h.1, h.2.1, h.2.2.1, h.2.2.2, by decide, by decide, by decide, by decide,
    by decide, by decide⟩

/-- C10, as stated, fails: the sequential program with a clock that stands
still measures zero elapsed time in both phases, prints both throughput lines,
whose quotient has a zero denominator, and exits with status 0; with a clock
that runs backwards the elapsed time is not zero and the write throughput is
negative; and with an elapsed time of `2^43` microseconds the denominator
`1024 * 1024 * elapsed` overflows `long long` and the value is negative as
well. -/
theorem zero_elapsed_is_not_an_error :
    (io_size_main frozenClockEnv 1 3 1073741824).status = Status.exited 0 ∧
    Event.printWrite 1073741824 0 ∈ (io_size_main frozenClockEnv 1 3 1073741824).trace ∧
    Event.printRead 1073741824 0 ∈ (io_size_main frozenClockEnv 1 3 1073741824).trace ∧
    throughput 1073741824 0 = none ∧
    (io_size_main backwardClockEnv 1 3 1073741824).status = Status.exited 0 ∧
    Event.printWrite 1073741824 (-1000000)
      ∈ (io_size_main backwardClockEnv 1 3 1073741824).trace ∧
    (∃ q : ℚ, throughput 1073741824 (-1000000) = some q ∧ q < 0) ∧
    (io_size_main slowClockEnv 1 3 1073741824).status = Status.exited 0 ∧
    Event.printWrite 1073741824 8796093022208
      ∈ (io_size_main slowClockEnv 1 3 1073741824).trace ∧
    (∃ q : ℚ, throughput 1073741824 8796093022208 = some q ∧ q < 0) := by
  have h0 : wrapLL (1024 * 1024 * 0) = 0 := by decide
  have h1 : wrapLL (1024 * 1024 * (-1000000)) = -1048576000000 := by decide
  have h2 : wrapLL (1024 * 1024 * 8796093022208) = -9223372036854775808 := by decide
  refine ⟨by decide, by decide, by decide, ?_, by decide, by decide, ?_, by decide,
    by decide, ?_⟩
  · exact throughput_none h0
  · refine ⟨(1073741824 * 1000000 : ℚ) / ((-1048576000000 : Int) : ℚ), ?_, ?_⟩
    · exact throughput_eq h1 (by decide)
    · norm_num
  · refine ⟨(1073741824 * 1000000 : ℚ) / ((-9223372036854775808 : Int) : ℚ), ?_, ?_⟩
    · exact throughput_eq h2 (by decide)
    · norm_num

/-- C10, amended: none of the three programs checks the elapsed time: a run of
an accepted configuration in which no call fails prints both throughput lines
and exits with status 0 whatever the clock readings are; and in every run
(with `io_size ≥ 4096` for the strided program), every throughput line whose
elapsed time is strictly positive and below `2^43` microseconds (so that
`1024 * 1024 * elapsed` does not overflow `long long`) has a value
`bytes * 10^6 / (1024 * 1024 * elapsed)` that is a strictly positive rational. -/
theorem throughput_positive_of_elapsed_positive (env : Env) (fuel : Nat)
    (argc io_size stride : Int) (hhi : io_size ≤ INT_MAX) :
    (env.NoFailure → 4096 ≤ io_size → iterations io_size ≤ fuel →
      (io_size_main env fuel 3 io_size).status = Status.exited 0 ∧
      Event.printWrite FILE_SIZE (wrapLL (env.timey_wimey 1 - env.timey_wimey 0))
        ∈ (io_size_main env fuel 3 io_size).trace ∧
      Event.printRead ((iterations io_size : Int) * io_size)
          (wrapLL (env.timey_wimey 3 - env.timey_wimey 2))
        ∈ (io_size_main env fuel 3 io_size).trace) ∧
    (env.NoFailure → 4096 ≤ io_size → 4096 ≤ stride → stride ≤ 104857600 →
      iterations stride ≤ fuel →
      (io_stride_main env fuel 4 io_size stride).status = Status.exited 0 ∧
      Event.printWrite FILE_SIZE (wrapLL (env.timey_wimey 1 - env.timey_wimey 0))
        ∈ (io_stride_main env fuel 4 io_size stride).trace ∧
      Event.printRead ((iterations stride : Int) * io_size)
          (wrapLL (env.timey_wimey 3 - env.timey_wimey 2))
        ∈ (io_stride_main env fuel 4 io_size stride).trace) ∧
    (env.NoFailure → 4096 ≤ io_size → io_size ≤ 104857600 →
      randomIterations io_size ≤ fuel →
      (random_io_main env fuel 3 io_size).status = Status.exited 0 ∧
      Event.printWrite FILE_SIZE (wrapLL (env.timey_wimey 1 - env.timey_wimey 0))
        ∈ (random_io_main env fuel 3 io_size).trace ∧
      Event.printRead ((randomIterations io_size : Int) * io_size)
          (wrapLL (env.timey_wimey 3 - env.timey_wimey 2))
        ∈ (random_io_main env fuel 3 io_size).trace) ∧
    (∀ bytes elapsed : Int,
      Event.printWrite bytes elapsed ∈ (io_size_main env fuel argc io_size).trace ∨
        Event.printRead bytes elapsed ∈ (io_size_main env fuel argc io_size).trace →
      0 < elapsed → elapsed < 8796093022208 →
      ∃ q : ℚ, throughput bytes elapsed = some q ∧ 0 < q) ∧
    (4096 ≤ io_size → ∀ bytes elapsed : Int,
      Event.printWrite bytes elapsed ∈ (io_stride_main env fuel argc io_size stride).trace ∨
        Event.printRead bytes elapsed ∈ (io_stride_main env fuel argc io_size stride).trace →
      0 < elapsed → elapsed < 8796093022208 →
      ∃ q : ℚ, throughput bytes elapsed = some q ∧ 0 < q) ∧
    (∀ bytes elapsed : Int,
      Event.printWrite bytes elapsed ∈ (random_io_main env fuel argc io_size).trace ∨
        Event.printRead bytes elapsed ∈ (random_io_main env fuel argc io_size).trace →
      0 < elapsed → elapsed < 8796093022208 →
      ∃ q : ℚ, throughput bytes elapsed = some q ∧ 0 < q) := by
  refine ⟨?_, ?_, ?_, ?_, ?_, ?_⟩
  · intro henv hmin hfuel
    rw [io_size_main_ok env fuel io_size hmin hhi henv hfuel]
    refine ⟨rfl, ?_, ?_⟩ <;> simp [reportEvents]
  · intro henv hmin hs1 hs2 hfuel
    rw [io_stride_main_ok env fuel io_size stride hs1 hs2 (by unfold INT_MIN; omega) hhi
      henv hfuel]
    refine ⟨rfl, ?_, ?_⟩ <;> simp [reportEvents]
  · intro henv hmin hmax hfuel
    rw [random_io_main_ok env fuel io_size hmin hmax henv hfuel]
    refine ⟨rfl, ?_, ?_⟩ <;> simp [reportEvents]
  · intro bytes elapsed hmem hel hlt
    exact throughput_of_all (io_size_main_positiveBytes env fuel argc io_size hhi)
      bytes elapsed hmem hel hlt
  · intro hmin bytes elapsed hmem hel hlt
    exact throughput_of_all (io_stride_main_positiveBytes env fuel argc io_size stride hmin hhi)
      bytes elapsed hmem hel hlt
  · intro bytes elapsed hmem hel hlt
    exact throughput_of_all (random_io_main_positiveBytes env fuel argc io_size)
      bytes elapsed hmem hel hlt

/-- Witness of the amended C10: the sequential program with `io_size = 2^30` and
a clock that advances by one second per reading reports 1073741824 bytes in
1000000 microseconds for each phase, a positive throughput. -/
theorem throughput_positive_of_elapsed_positive_witness :
    (1073741824 : Int) ≤ INT_MAX ∧
    Event.printWrite 1073741824 1000000 ∈ (io_size_main okEnv 1 3 1073741824).trace ∧
    (0 : Int) < 1000000 ∧ (1000000 : Int) < 8796093022208 ∧
    ∃ q : ℚ, throughput 1073741824 1000000 = some q ∧ 0 < q :=
  ⟨by decide, by decide, by decide, by decide,
    (throughput_positive_of_elapsed_positive okEnv 1 3 1073741824 4096 (by decide)).2.2.2.1
      1073741824 1000000 (Or.inl (by decide)) (by decide) (by decide)⟩

end Lab5
